import Mathlib

/-!
# The All Levels List: points, ranks, titles and the moderation workflow

A shallow embedding of `scripts.js`.  The four `localStorage` collections
(`users`, `levels`, `submissions`, `audit`) become the fields of a `Store`;
every handler of the script becomes a function from a store to a store.
Random identifiers (`uid()`), the clock (`now()`, `Date.now()`) and the
session are inputs of the handlers, collected in `Env`.
-/

namespace AllLevels

/-! ## JavaScript value helpers -/

/-- JavaScript `x || d` for a numeric field: a missing value and `0` are falsy. -/
def numOr (x : Option Int) (d : Int) : Int :=
  match x with
  | some v => if v = 0 then d else v
  | none => d

/-- JavaScript `x || d` for a string field: a missing value and `''` are falsy. -/
def strOr (x : Option String) (d : String) : String :=
  match x with
  | some v => if v = "" then d else v
  | none => d

/-- JavaScript `Array.prototype.findIndex`; `none` stands for `-1`. -/
def findIndex {α : Type} (p : α → Bool) : List α → Option Nat
  | [] => none
  | a :: l => if p a then some 0 else (findIndex p l).map (· + 1)

/-- JavaScript `Array.prototype.sort(cmp)`: a stable sort in which `a` is kept
before `b` whenever `cmp a b ≤ 0`. -/
def jsSort {α : Type} (cmp : α → α → Int) (l : List α) : List α :=
  List.insertionSort (fun a b => cmp a b ≤ 0) l

/-- Mutation of the object returned by `arr.find(p)`: the first element that
satisfies `p` is replaced by its image, all others are kept. -/
def updateFirst {α : Type} (p : α → Bool) (f : α → α) : List α → List α
  | [] => []
  | a :: l => if p a then f a :: l else a :: updateFirst p f l

/-! ## Data model -/

/-- A completion record embedded in a user's `completedRecords`. -/
structure Completion where
  levelId : Option String
  levelName : String
  ts : Int
  percent : Option Int
  youtube : String
  awardedPoints : Option Int
deriving DecidableEq, Repr

/-- A user record of the `users` collection. -/
structure User where
  id : String
  username : String
  password : String
  role : String
  nationality : String
  points : Option Int
  createdAt : Int
  profilePic : String
  showCountry : Bool
  bio : String
  completedRecords : Option (List Completion)
  equippedTitle : Option String
  bannedUntil : Option Int
  banReason : Option String
  bannedBy : Option String
  bannedAt : Option Int
deriving DecidableEq, Repr

/-- A level record of the `levels` collection. -/
structure Level where
  id : String
  placement : Option Int
  name : Option String
  levelId : Option String
  creators : List String
  thumbnail : String
  youtube : String
  tags : List String
  status : String
  submitter : String
  approvedBy : String
  approvedAt : Int
deriving DecidableEq, Repr

/-- A submission record: `type` is `'level'` or `'completion'`, the fields of
the other kind are absent. -/
structure Submission where
  id : String
  type : String
  name : Option String
  creators : Option (List String)
  levelId : Option String
  levelRef : Option String
  levelName : Option String
  youtube : String
  raw : String
  tags : Option (List String)
  percent : Option Int
  submitter : String
  status : String
  createdAt : Int
deriving DecidableEq, Repr

/-- A value stored in the `details` payload of an audit event. -/
inductive Detail where
  | str (s : String)
  | num (n : Int)
  | flag (b : Bool)
  | strs (l : List String)
  | absent
deriving DecidableEq, Repr

/-- An event of the `audit` collection. -/
structure AuditEvent where
  id : String
  action : String
  actor : Option String
  target : Option String
  details : List (String × Detail)
  ts : Int
deriving DecidableEq, Repr

/-- The four persisted collections. -/
structure Store where
  users : List User
  levels : List Level
  subs : List Submission
  audit : List AuditEvent
deriving DecidableEq, Repr

/-- What a handler reads from outside the store: the session (`getSession()`,
reduced to its `username`), and the values returned at the call sites of
`uid()` and of the clock, numbered inside each handler in source order. -/
structure Env where
  session : Option String
  uid : Nat → String
  now : Nat → Int

/-! ## YouTube helpers -/

/-- Remove the literal `lit` from the front of `cs`, when it is there. -/
def dropLit : List Char → List Char → Option (List Char)
  | [], cs => some cs
  | _ :: _, [] => none
  | a :: lit, c :: cs => if a = c then dropLit lit cs else none

/-- Leftmost match of a pattern made of a fixed lead followed by a capture
group `([^...]+)`: `lead` consumes the fixed part, `stop` tells the characters
the group excludes.  The result is the captured group. -/
def scanCapture (lead : List Char → Option (List Char)) (stop : Char → Bool) :
    List Char → Option (List Char)
  | [] => none
  | c :: cs =>
    match lead (c :: cs) with
    | some rest =>
      let cap := rest.takeWhile (fun x => !stop x)
      if cap.isEmpty then scanCapture lead stop cs else some cap
    | none => scanCapture lead stop cs

/-- The lead `[?&]v=` of the first pattern of `youtubeID`. -/
def leadQuery : List Char → Option (List Char)
  | c :: 'v' :: '=' :: rest => if c = '?' ∨ c = '&' then some rest else none
  | _ => none

/-- Function `youtubeID`: the video identifier of a link, `none` for `null`. -/
def youtubeID (url : String) : Option String :=
  let cs := url.toList
  if cs.isEmpty then none else
  match scanCapture leadQuery (fun x => x = '&') cs with
  | some q => some (String.mk q)
  | none =>
  match scanCapture (dropLit "youtu.be/".toList) (fun x => x = '?' ∨ x = '&') cs with
  | some b => some (String.mk b)
  | none =>
  match scanCapture (dropLit "youtube.com/embed/".toList)
      (fun x => x = '?' ∨ x = '&' ∨ x = '/') cs with
  | some e => some (String.mk e)
  | none =>
    let last := (cs.reverse.takeWhile (fun x => x ≠ '/')).reverse
    if last.isEmpty then none else some (String.mk last)

/-- Function `youtubeThumb`: thumbnail address of a link, `''` when there is no id. -/
def youtubeThumb (url : String) : String :=
  match youtubeID url with
  | some id => "https://i.ytimg.com/vi/" ++ id ++ "/hqdefault.jpg"
  | none => ""

/-! ## Audit log -/

/-- Function `addAudit`: put the event in front and keep at most 300 events. -/
def addAudit (obj : AuditEvent) (st : Store) : Store :=
  let a := obj :: st.audit
  { st with audit := if a.length > 300 then a.take 300 else a }

/-! ## Leaderboard and titles -/

/-- Function `getLeaderboardSortedUsers`: users by points, highest first. -/
def getLeaderboardSortedUsers (users : List User) : List User :=
  jsSort (fun a b => numOr b.points 0 - numOr a.points 0) users

/-- Function `getUserRank`: 1-based position in the leaderboard, `none` for `null`. -/
def getUserRank (users : List User) (username : String) : Option Nat :=
  (findIndex (fun u => decide (u.username = username))
    (getLeaderboardSortedUsers users)).map (· + 1)

/-- An entry of the `TITLES` catalog. -/
structure Title where
  id : String
  label : String
  reqText : String
deriving DecidableEq, Repr

/-- The `TITLES` catalog. -/
def TITLES : List Title :=
  [ ⟨"fresh", "Fresh", "Free — available to everyone"⟩,
    ⟨"maybe_him", "Maybe him", "100 points"⟩,
    ⟨"let_me_cook", "Let me Cook...", "300 points"⟩,
    ⟨"just_better", "I'm just better", "500 points"⟩,
    ⟨"god_like", "God-Like", "1000 points"⟩,
    ⟨"fart", "Fart", "3000 points"⟩,
    ⟨"top3", "Top 3", "Only user ranked #3"⟩,
    ⟨"top2", "Top 2", "Only user ranked #2"⟩,
    ⟨"top1", "Yes I'm him, the Top 1", "Only user ranked #1"⟩ ]

/-- Function `canEquipTitle`: the central rule-checker; `none` is a null user. -/
def canEquipTitle (users : List User) (user : Option User) (titleId : String) : Bool :=
  match user with
  | none => false
  | some u =>
    let pts := numOr u.points 0
    let rank := getUserRank users u.username
    if titleId = "fresh" then true
    else if titleId = "maybe_him" then decide (pts ≥ 100)
    else if titleId = "let_me_cook" then decide (pts ≥ 300)
    else if titleId = "just_better" then decide (pts ≥ 500)
    else if titleId = "god_like" then decide (pts ≥ 1000)
    else if titleId = "fart" then decide (pts ≥ 3000)
    else if titleId = "top3" then decide (rank ≠ none) && decide (rank = some 3)
    else if titleId = "top2" then decide (rank ≠ none) && decide (rank = some 2)
    else if titleId = "top1" then decide (rank = some 1)
    else false

/-- Function `eligibleTitlesForUser`: the catalog entries the user may equip. -/
def eligibleTitlesForUser (users : List User) (user : Option User) : List Title :=
  TITLES.filter (fun t => canEquipTitle users user t.id)

/-! ## Seed -/

/-- Function `seedIfEmpty`: an empty users collection is replaced by the head admin
alone, with empty levels, submissions and audit log. -/
def seedIfEmpty (env : Env) (st : Store) : Store :=
  if st.users.isEmpty then
    { users := [{ id := env.uid 0, username := "zmmieh.", password := "123456",
                  role := "headadmin", nationality := "United Kingdom", points := some 0,
                  createdAt := env.now 0, profilePic := "", showCountry := true, bio := "",
                  completedRecords := some [], equippedTitle := some "fresh",
                  bannedUntil := none, banReason := none, bannedBy := none,
                  bannedAt := none }],
      levels := [], subs := [], audit := [] }
  else st

/-! ## Signup and submission forms

The arguments are the values read from the form fields, after `trim()`. -/

/-- Number of UTF-16 code units of a string (JavaScript `length`). -/
def jsLength (s : String) : Nat :=
  (s.toList.map (fun c => if c.toNat ≥ 65536 then 2 else 1)).sum

/-- The character class of `USER_RE`: letters, digits and `(){}[]._-?!`. -/
def userChar (c : Char) : Bool :=
  c.isAlphanum || "()\x7b\x7d[]._-?!".toList.contains c

/-- JavaScript `toLowerCase()`, taken on the ASCII letters. -/
def lower (s : String) : String :=
  String.mk (s.toList.map Char.toLower)

/-- JavaScript `split(sep)` for a one-character separator. -/
def splitChars (sep : Char) : List Char → List (List Char)
  | [] => [[]]
  | c :: cs =>
    if c = sep then [] :: splitChars sep cs
    else
      match splitChars sep cs with
      | [] => [[c]]
      | w :: ws => (c :: w) :: ws

/-- JavaScript `trim()`, taken on the ASCII white space. -/
def trimChars (cs : List Char) : List Char :=
  ((cs.dropWhile Char.isWhitespace).reverse.dropWhile Char.isWhitespace).reverse

/-- The signup handler. -/
def signup (env : Env) (username password nationality : String) (st : Store) : Store :=
  if username = "" ∨ password = "" ∨ nationality = "" then st
  else if jsLength password < 6 then st
  else if !(username.toList.all userChar) then st
  else if (st.users.find? (fun u => decide (lower u.username = lower username))).isSome then st
  else
    { st with users := st.users ++
        [{ id := env.uid 0, username := username, password := password,
           nationality := nationality, role := "user", points := some 0,
           createdAt := env.now 0, profilePic := "", showCountry := true, bio := "",
           completedRecords := some [], equippedTitle := some "fresh",
           bannedUntil := none, banReason := none, bannedBy := none, bannedAt := none }] }

/-- The handler of the level submission form. -/
def submitLevel (env : Env) (name creatorsRaw levelId youtube raw : String)
    (picked : List String) (st : Store) : Except String Store :=
  if name = "" ∨ creatorsRaw = "" ∨ levelId = "" ∨ youtube = "" ∨ raw = "" then .ok st
  else if picked.isEmpty then .ok st
  else
    let creatorsArray :=
      (((splitChars ',' creatorsRaw.toList).map trimChars).filter (fun c => !c.isEmpty)).map
        String.mk
    match env.session with
    | none => .error "TypeError: getSession() is null"
    | some actor =>
      let st1 : Store := { st with subs := st.subs ++
        [{ id := env.uid 0, type := "level", name := some name, creators := some creatorsArray,
           levelId := some levelId, levelRef := none, levelName := none, youtube := youtube,
           raw := raw, tags := some picked, percent := none, submitter := actor,
           status := "pending", createdAt := env.now 0 }] }
      .ok (addAudit { id := env.uid 1, action := "submit_level", actor := some actor,
                      target := none, details := [("name", .str name)], ts := env.now 1 } st1)

/-- The handler of the completion submission form; `percent` is the rounded
and clamped percentage, `none` when the field holds no number. -/
def submitCompletion (env : Env) (levelRef youtube raw : String) (percent : Option Int)
    (st : Store) : Except String Store :=
  if levelRef = "" ∨ youtube = "" ∨ raw = "" then .ok st
  else
    let levelNameSnapshot :=
      match st.levels.find? (fun x => decide (x.id = levelRef)) with
      | some levelObj => levelObj.name
      | none => some ""
    match env.session with
    | none => .error "TypeError: getSession() is null"
    | some actor =>
      let st1 : Store := { st with subs := st.subs ++
        [{ id := env.uid 0, type := "completion", name := none, creators := none,
           levelId := none, levelRef := some levelRef, levelName := levelNameSnapshot,
           youtube := youtube, raw := raw, tags := none, percent := percent,
           submitter := actor, status := "pending", createdAt := env.now 0 }] }
      .ok (addAudit { id := env.uid 1, action := "submit_completion", actor := some actor,
                      target := none,
                      details := [("levelRef", .str levelRef),
                                  ("percent", match percent with
                                              | some v => .num v
                                              | none => .absent)],
                      ts := env.now 1 } st1)

/-! ## Moderation workflow -/

/-- Points of a completion on a level: `Math.max(1, Math.min(100, 101 - placement))`
with `placement = level.placement || 999`. -/
def awardFor (level : Level) : Int :=
  let placement := numOr level.placement 999
  max 1 (min 100 (101 - placement))

/-- The record pushed by `approveSubmission` for a completion. -/
def completionOf (env : Env) (s : Submission) (level : Level) (pts : Int) : Completion :=
  { levelId := s.levelRef, levelName := strOr s.levelName (strOr level.name ""),
    ts := env.now 0, percent := s.percent, youtube := s.youtube, awardedPoints := some pts }

/-- The mutation of the submitter by `approveSubmission`: the points are added,
the record is pushed unless one with the same level and link exists. -/
def creditUser (env : Env) (s : Submission) (level : Level) (pts : Int) (user : User) : User :=
  let recs := user.completedRecords.getD []
  let found := recs.find? (fun r => decide (r.levelId = s.levelRef) && decide (r.youtube = s.youtube))
  { user with
    points := some (numOr user.points 0 + pts),
    completedRecords := some (if found.isSome then recs else recs ++ [completionOf env s level pts]) }

/-- The `approve_completion` audit event. -/
def approveCompletionEvent (env : Env) (s : Submission) (user : User) (pts : Int) : AuditEvent :=
  { id := env.uid 0, action := "approve_completion", actor := env.session, target := some s.id,
    details := [("submitter", .str user.username),
                ("level", match s.levelRef with
                          | some r => .str r
                          | none => .absent),
                ("points", .num pts),
                ("percent", match s.percent with
                            | some v => .num v
                            | none => .absent)],
    ts := env.now 1 }

/-- Function `approveSubmission` (level or completion).  An error is the uncaught
`TypeError` of `getSession().username` without a session: nothing was saved. -/
def approveSubmission (env : Env) (id : String) (st : Store) : Except String Store :=
  match st.subs.find? (fun x => decide (x.id = id)) with
  | none => .ok st
  | some s =>
    if s.type = "level" then
      let maxPlacement := st.levels.foldl (fun m lv => max m (numOr lv.placement 0)) 0
      let thumb := youtubeThumb s.youtube
      match env.session with
      | none => .error "TypeError: getSession() is null"
      | some actor =>
        let newLevel : Level :=
          { id := env.uid 0, placement := some (maxPlacement + 1), name := s.name,
            levelId := s.levelId, creators := s.creators.getD [], thumbnail := thumb,
            youtube := s.youtube, tags := s.tags.getD [], status := "published",
            submitter := s.submitter, approvedBy := actor, approvedAt := env.now 0 }
        let st1 : Store := { st with levels := st.levels ++ [newLevel],
                                     subs := st.subs.filter (fun x => decide (x.id ≠ id)) }
        .ok (addAudit { id := env.uid 1, action := "approve_level", actor := some actor,
                        target := some newLevel.id,
                        details := [("name", match newLevel.name with
                                             | some n => .str n
                                             | none => .absent),
                                    ("placement", .num (maxPlacement + 1))],
                        ts := env.now 1 } st1)
    else if s.type = "completion" then
      match st.levels.find? (fun l => decide (some l.id = s.levelRef)) with
      | none => .ok st
      | some level =>
        let pts := awardFor level
        match st.users.find? (fun u => decide (u.username = s.submitter)) with
        | none => .ok { st with subs := st.subs.filter (fun x => decide (x.id ≠ id)) }
        | some user =>
          let st1 : Store :=
            { st with users := updateFirst (fun u => decide (u.username = s.submitter))
                                 (creditUser env s level pts) st.users,
                      subs := st.subs.filter (fun x => decide (x.id ≠ id)) }
          .ok (addAudit (approveCompletionEvent env s user pts) st1)
    else .ok st

/-- The reject button: the submissions with that id are filtered out. -/
def rejectSubmission (id : String) (st : Store) : Store :=
  { st with subs := st.subs.filter (fun x => decide (x.id ≠ id)) }

/-- The comparator of the ranking: `(a.placement||999) - (b.placement||999)`. -/
def placementCmp (a b : Level) : Int :=
  numOr a.placement 999 - numOr b.placement 999

/-- The loop `levels[i].placement = i+1`, started at index `i`. -/
def renumberFrom : Nat → List Level → List Level
  | _, [] => []
  | i, lv :: l => { lv with placement := some ((i : Int) + 1) } :: renumberFrom (i + 1) l

/-- Function `removeLevelById`: filter, sort by placement, renumber, save. -/
def removeLevelById (id : String) (st : Store) : Store :=
  { st with levels :=
      renumberFrom 0 (jsSort placementCmp (st.levels.filter (fun l => decide (l.id ≠ id)))) }

/-- Function `swapPlacement`: the level and its neighbour at distance `dir` in placement
order exchange their `placement`; the sorted array is what is saved. -/
def swapPlacement (levelId : String) (dir : Int) (st : Store) : Store :=
  let levels := jsSort placementCmp st.levels
  match findIndex (fun l => decide (l.id = levelId)) levels with
  | none => st
  | some idx =>
    let tgt : Int := (idx : Int) + dir
    if tgt < 0 ∨ tgt ≥ (levels.length : Int) then st
    else
      match levels[idx]?, levels[tgt.toNat]? with
      | some a, some b =>
        let levels1 := levels.set idx { a with placement := b.placement }
        match levels1[tgt.toNat]? with
        | some b1 => { st with levels := levels1.set tgt.toNat { b1 with placement := a.placement } }
        | none => st
      | _, _ => st

/-! ## Titles: equip, profile save, display -/

/-- The click handler of an equip button of `renderTitlesListFor`, for the
user `username` and the catalog entry `t`. -/
def equipTitle (env : Env) (username : String) (t : Title) (st : Store) : Store :=
  match st.users.find? (fun x => decide (x.username = username)) with
  | none => st
  | some freshUser =>
    if !canEquipTitle st.users (some freshUser) t.id then
      addAudit { id := env.uid 0, action := "attempt_invalid_equip",
                 actor := some freshUser.username, target := some freshUser.username,
                 details := [("attemptedTitle", .str t.id)], ts := env.now 0 } st
    else if freshUser.equippedTitle = some t.id then
      addAudit { id := env.uid 0, action := "unequip_title", actor := some username,
                 target := some username, details := [("previous", .str t.id)],
                 ts := env.now 0 }
        { st with users := updateFirst (fun x => decide (x.username = username))
                             (fun u => { u with equippedTitle := some "fresh" }) st.users }
    else
      addAudit { id := env.uid 0, action := "equip_title", actor := some username,
                 target := some username, details := [("title", .str t.id)],
                 ts := env.now 0 }
        { st with users := updateFirst (fun x => decide (x.username = username))
                             (fun u => { u with equippedTitle := some t.id }) st.users }

/-- The fields written by the profile save handler before the title check:
picture (when one is pending), bio and country flag. -/
def editedProfile (u0 : User) (bio : String) (showCountry : Bool) (pending : Option String) :
    User :=
  { u0 with profilePic := (match pending with
                           | some pic => if pic = "" then u0.profilePic else pic
                           | none => u0.profilePic),
            bio := bio, showCountry := showCountry }

/-- The click handler of the profile save button for the user `username`;
`bio` is the text of the field cut to 250 units, `pending` is
`window._profilePicPending`. -/
def saveProfile (env : Env) (username bio : String) (showCountry : Bool)
    (pending : Option String) (st : Store) : Store :=
  match st.users.find? (fun x => decide (x.username = username)) with
  | none => st
  | some u0 =>
    let u1 := editedProfile u0 bio showCountry pending
    let equipped := strOr u1.equippedTitle "fresh"
    if !canEquipTitle st.users (some u1) equipped then
      addAudit { id := env.uid 1, action := "edit_profile", actor := some username,
                 target := some username, details := [("showCountry", .flag showCountry)],
                 ts := env.now 1 }
        { (addAudit { id := env.uid 0, action := "invalid_equipped_title_reset",
                      actor := some username, target := some username,
                      details := [("attempted", .str equipped)], ts := env.now 0 } st) with
          users := updateFirst (fun x => decide (x.username = username))
                     (fun _ => { u1 with equippedTitle := some "fresh" }) st.users }
    else
      addAudit { id := env.uid 1, action := "edit_profile", actor := some username,
                 target := some username, details := [("showCountry", .flag showCountry)],
                 ts := env.now 1 }
        { st with users := updateFirst (fun x => decide (x.username = username))
                             (fun _ => u1) st.users }

/-- The title line of `renderTopbar`: the label of the catalog entry whose id
is the stored `equippedTitle` of the session's user, when there is one. -/
def topbarTitleLabel (session : Option String) (users : List User) : Option String :=
  match session with
  | none => none
  | some name =>
    match users.find? (fun u => decide (u.username = name)) with
    | none => none
    | some me =>
      match me.equippedTitle with
      | none => none
      | some t =>
        if t = "" then none
        else (TITLES.find? (fun x => decide (x.id = t))).map (fun x => x.label)

/-! ## Completion deletion -/

/-- The mutation of the target by the delete handler: the records with the
level, link and time of `r` are filtered out, the points are lowered, not below 0. -/
def debitUser (r : Completion) (pts : Int) (u : User) : User :=
  { u with
    completedRecords := some ((u.completedRecords.getD []).filter
      (fun c => !(decide (c.levelId = r.levelId) && decide (c.youtube = r.youtube)
                  && decide (c.ts = r.ts)))),
    points := some (max 0 (numOr u.points 0 - pts)) }

/-- The click handler of a delete button of `renderPlayerCompletions`, for the
user `username` and the displayed record `r`. -/
def deleteCompletion (env : Env) (username : String) (r : Completion) (st : Store) : Store :=
  let pts : Int :=
    match r.awardedPoints with
    | some a => a
    | none =>
      match st.levels.find? (fun l => decide (some l.id = r.levelId)) with
      | some level => awardFor level
      | none => 1
  match st.users.find? (fun x => decide (x.username = username)) with
  | none => st
  | some target =>
    addAudit { id := env.uid 0, action := "delete_completion", actor := env.session,
               target := some target.username,
               details := [("levelId", match r.levelId with
                                       | some l => .str l
                                       | none => .absent),
                           ("levelName", .str r.levelName), ("pointsRemoved", .num pts)],
               ts := env.now 0 }
      { st with users := updateFirst (fun x => decide (x.username = username))
                           (debitUser r pts) st.users }

/-! ## Runs of operations -/

/-- The operations of the site on the store. -/
inductive Op where
  | signup (username password nationality : String)
  | submitLevel (name creatorsRaw levelId youtube raw : String) (picked : List String)
  | submitCompletion (levelRef youtube raw : String) (percent : Option Int)
  | approve (id : String)
  | reject (id : String)
  | removeLevel (id : String)
  | swap (id : String) (dir : Int)
  | equip (username : String) (t : Title)
  | saveProfile (username bio : String) (showCountry : Bool) (pending : Option String)
  | deleteCompletion (username : String) (r : Completion)

/-- The store left by a handler: what it saved, or the store as it was when
the handler stopped on an uncaught error. -/
def settle (st : Store) (r : Except String Store) : Store :=
  match r with
  | .ok st1 => st1
  | .error _ => st

/-- One operation, in the environment it runs in. -/
def Op.apply (env : Env) (op : Op) (st : Store) : Store :=
  match op with
  | .signup u p n => AllLevels.signup env u p n st
  | .submitLevel a b c d e f => settle st (AllLevels.submitLevel env a b c d e f st)
  | .submitCompletion a b c d => settle st (AllLevels.submitCompletion env a b c d st)
  | .approve id => settle st (approveSubmission env id st)
  | .reject id => rejectSubmission id st
  | .removeLevel id => removeLevelById id st
  | .swap id dir => swapPlacement id dir st
  | .equip u t => equipTitle env u t st
  | .saveProfile u b c p => AllLevels.saveProfile env u b c p st
  | .deleteCompletion u r => AllLevels.deleteCompletion env u r st

/-- A sequence of operations, each with its environment, from left to right. -/
def run (ops : List (Env × Op)) (st : Store) : Store :=
  ops.foldl (fun s eo => eo.2.apply eo.1 s) st

/-! ## Invariants -/

/-- What the duplicate guard of `approveSubmission` compares: level and link. -/
def recordKey (r : Completion) : Option String × String :=
  (r.levelId, r.youtube)

/-- No user's history holds two records with the same level and link. -/
def NoDupRecords (users : List User) : Prop :=
  ∀ u ∈ users, ((u.completedRecords.getD []).map recordKey).Nodup

/-- Placement density: the placements of the `N` levels are the numbers
`1..N`, each once. -/
def Dense (levels : List Level) : Prop :=
  (levels.map (fun l => l.placement)).Perm
    ((List.range' 1 levels.length).map (fun (n : Nat) => some (n : Int)))

/-! ## Sample data -/

/-- An environment with a session, two identifiers and a fixed clock. -/
def envFor (session : Option String) (a b : String) (t : Int) : Env :=
  { session := session, uid := fun n => if n = 0 then a else b, now := fun _ => t }

/-- A user record as the signup handler builds it, with chosen points,
history and title. -/
def mkUser (username : String) (points : Option Int) (recs : List Completion)
    (title : Option String) : User :=
  { id := "u-" ++ username, username := username, password := "secret1", role := "user",
    nationality := "Hungary", points := points, createdAt := 1000, profilePic := "",
    showCountry := true, bio := "", completedRecords := some recs, equippedTitle := title,
    bannedUntil := none, banReason := none, bannedBy := none, bannedAt := none }

/-- A published level with a chosen id and placement. -/
def mkLevel (id : String) (placement : Int) : Level :=
  { id := id, placement := some placement, name := some ("Level " ++ id), levelId := some "4284013",
    creators := ["@bob"], thumbnail := "", youtube := "https://youtu.be/lvl", tags := ["Cube Carried"],
    status := "published", submitter := "bob", approvedBy := "zmmieh.", approvedAt := 2000 }

/-- A pending completion submission as the completion form builds it. -/
def mkCompletionSub (id levelRef youtube submitter : String) : Submission :=
  { id := id, type := "completion", name := none, creators := none, levelId := none,
    levelRef := some levelRef, levelName := some ("Level " ++ levelRef), youtube := youtube,
    raw := "raw footage", tags := none, percent := some 100, submitter := submitter,
    status := "pending", createdAt := 3000 }

/-- Levels at placements 1, 2, 3; alice sent the same completion of the level
at placement 2 twice. -/
def storeTwice : Store :=
  { users := [mkUser "alice" (some 0) [] (some "fresh")],
    levels := [mkLevel "L1" 1, mkLevel "L2" 2, mkLevel "L3" 3],
    subs := [mkCompletionSub "s1" "L2" "https://youtu.be/run" "alice",
             mkCompletionSub "s2" "L2" "https://youtu.be/run" "alice"],
    audit := [] }

/-- A pending completion whose level is no longer in the levels collection. -/
def storeDangling : Store :=
  { users := [mkUser "alice" (some 0) [] (some "fresh")],
    levels := [mkLevel "L1" 1],
    subs := [mkCompletionSub "s1" "L2" "https://youtu.be/run" "alice"],
    audit := [] }

/-- The moderator's environment of the sample runs. -/
def modEnv : Env := envFor (some "zmmieh.") "m0" "m1" 5000

/-- A leaderboard with ties and a user without a `points` field: the order is
cid (300), ann (50), dee (50), bob (none), eve (0). -/
def usersBoard : List User :=
  [mkUser "ann" (some 50) [] (some "fresh"), mkUser "bob" none [] (some "top1"),
   mkUser "cid" (some 300) [] (some "top1"), mkUser "dee" (some 50) [] (some "fresh"),
   mkUser "eve" (some 0) [] none]

/-- The store after `seedIfEmpty` on an empty `localStorage`. -/
def seededStore : Store :=
  seedIfEmpty (envFor none "h0" "h1" 1000) ⟨[], [], [], []⟩

/-- The `top1` entry of the catalog. -/
def top1Title : Title :=
  ⟨"top1", "Yes I'm him, the Top 1", "Only user ranked #1"⟩

/-- bob signs up, the head admin equips `top1` while ranked first, bob's level
is submitted and approved, then bob's completion of it is submitted and
approved. -/
def overtakeOps : List (Env × Op) :=
  [ (envFor none "b0" "b1" 2000, .signup "bob" "secret" "Hungary"),
    (envFor (some "zmmieh.") "c0" "c1" 3000, .equip "zmmieh." top1Title),
    (envFor (some "bob") "d0" "d1" 4000,
      .submitLevel "Lvl" "@bob" "4284013" "https://youtu.be/xyz" "raw" ["Cube Carried"]),
    (envFor (some "zmmieh.") "e0" "e1" 5000, .approve "d0"),
    (envFor (some "bob") "f0" "f1" 6000,
      .submitCompletion "e0" "https://youtu.be/run" "raw" (some 100)),
    (envFor (some "zmmieh.") "g0" "g1" 7000, .approve "f0") ]

/-- A completion record with a chosen level, link, time and snapshot. -/
def mkRecord (levelId youtube : String) (ts : Int) (awarded : Option Int) : Completion :=
  { levelId := some levelId, levelName := "Level " ++ levelId, ts := ts, percent := some 100,
    youtube := youtube, awardedPoints := awarded }

/-- A store where dora has 150 points from two completions, worth 100 and 50. -/
def storeDora : Store :=
  { users := [mkUser "dora" (some 150)
                [mkRecord "L1" "https://youtu.be/a" 4000 (some 100),
                 mkRecord "L3" "https://youtu.be/b" 4500 (some 50)] (some "fresh")],
    levels := [mkLevel "L1" 1, mkLevel "L2" 2, mkLevel "L3" 3],
    subs := [], audit := [] }

/-- A pending level submission as the level form builds it. -/
def mkLevelSub (id name submitter : String) : Submission :=
  { id := id, type := "level", name := some name, creators := some ["@" ++ submitter],
    levelId := some "4284013", levelRef := none, levelName := none,
    youtube := "https://youtu.be/xyz", raw := "raw footage", tags := some ["Cube Carried"],
    percent := none, submitter := submitter, status := "pending", createdAt := 3000 }

/-- Three published levels and two pending submissions: a level by bob and a
completion by alice. -/
def storeQueue : Store :=
  { users := [mkUser "alice" (some 0) [] (some "fresh"), mkUser "bob" (some 0) [] (some "fresh")],
    levels := [mkLevel "L1" 1, mkLevel "L2" 2, mkLevel "L3" 3],
    subs := [mkLevelSub "q1" "Bloodbath" "bob",
             mkCompletionSub "q2" "L2" "https://youtu.be/run" "alice"],
    audit := [] }

/-- Four published levels stored out of placement order. -/
def storeRanking : Store :=
  { users := [mkUser "alice" (some 0) [] (some "fresh")],
    levels := [mkLevel "L3" 3, mkLevel "L1" 1, mkLevel "L4" 4, mkLevel "L2" 2],
    subs := [], audit := [] }

/-! ## Ban lifecycle -/

/-- The four `delete` statements of the ban expiry and of the unban button. -/
def clearBan (u : User) : User :=
  { u with bannedUntil := none, banReason := none, bannedBy := none, bannedAt := none }

/-- Function `isUserBanned` at clock reading `now`: the answer and the store it
leaves.  A username that is `''`, an unknown user and a `bannedUntil` that is
missing or `0` are the falsy cases of the source. -/
def isUserBanned (now : Int) (username : String) (st : Store) : Bool × Store :=
  if username = "" then (false, st)
  else
    match st.users.find? (fun x => decide (x.username = username)) with
    | none => (false, st)
    | some u =>
      match u.bannedUntil with
      | none => (false, st)
      | some b =>
        if b = 0 then (false, st)
        else if b = 9999999999999 then (true, st)
        else if now < b then (true, st)
        else
          (false, { st with users := updateFirst (fun x => decide (x.username = username))
                                       clearBan st.users })

/-- A user banned until `untilMs` by the head admin. -/
def mkBanned (username : String) (untilMs : Int) : User :=
  { mkUser username (some 10) [] (some "fresh") with
    bannedUntil := some untilMs, banReason := some "spam", bannedBy := some "zmmieh.",
    bannedAt := some 1000 }

/-- Users with no ban, a permanent ban, and a ban until 90000. -/
def storeBans : Store :=
  { users := [mkUser "alice" (some 0) [] (some "fresh"), mkBanned "perm" 9999999999999,
              mkBanned "temp" 90000],
    levels := [], subs := [], audit := [] }

/-- The `bannedUntil` written by the ban button: the permanent sentinel for 0
days, `Date.now() + days*24*3600*1000` otherwise; `none` is the `NaN` of an
unreadable days field, saved as `null`. -/
def banExpiry (env : Env) (days : Option Int) : Option Int :=
  match days with
  | none => none
  | some d => if d = 0 then some 9999999999999 else some (env.now 0 + d * 24 * 3600 * 1000)

/-- The four fields written on the target by the ban button. -/
def applyBan (env : Env) (days : Option Int) (reason actor : String) (u : User) : User :=
  { u with bannedUntil := banExpiry env days, banReason := some reason,
           bannedBy := some actor, bannedAt := some (env.now 1) }

/-- The `ban` audit event. -/
def banEvent (env : Env) (days : Option Int) (reason actor : String) (target : User) :
    AuditEvent :=
  { id := env.uid 0, action := "ban", actor := some actor, target := some target.username,
    details := [("until", match banExpiry env days with
                          | some b => .num b
                          | none => .absent),
                ("reason", .str reason)],
    ts := env.now 2 }

/-- The ban button of the mod panel.  `days` is the result of `parseInt` on the
days field, `reason` the text of the reason field or `'No reason'`.  An error is
the uncaught `TypeError` of `getSession().username` without a session: nothing
was saved. -/
def banUser (env : Env) (username : String) (days : Option Int) (reason : String)
    (st : Store) : Except String Store :=
  if username = "" then .ok st
  else
    match st.users.find? (fun u => decide (u.username = username)) with
    | none => .ok st
    | some target =>
      if target.role = "headadmin" then .ok st
      else
        match env.session with
        | none => .error "TypeError: getSession() is null"
        | some actor =>
          .ok (addAudit (banEvent env days reason actor target)
            { st with users := updateFirst (fun u => decide (u.username = username))
                                 (applyBan env days reason actor) st.users })

/-- The unban button of the banned users list, for the listed user `username`. -/
def unbanUser (env : Env) (username : String) (st : Store) : Store :=
  match st.users.find? (fun x => decide (x.username = username)) with
  | none => st
  | some _ =>
    addAudit { id := env.uid 0, action := "unban", actor := env.session,
               target := some username, details := [], ts := env.now 0 }
      { st with users := updateFirst (fun x => decide (x.username = username)) clearBan
                           st.users }

/-- The head admin and eve, a plain user. -/
def storeStaff : Store :=
  { users := [{ mkUser "zmmieh." (some 0) [] (some "fresh") with role := "headadmin" },
              mkUser "eve" (some 20) [] (some "fresh")],
    levels := [], subs := [], audit := [] }

/-- The moderator's environment at clock reading `t`. -/
def modEnvAt (t : Int) : Env := envFor (some "zmmieh.") "m0" "m1" t

/-- An audit event with a chosen id and action. -/
def mkEvent (id action : String) : AuditEvent :=
  { id := id, action := action, actor := some "zmmieh.", target := none, details := [],
    ts := 4000 }

/-- A store whose audit log holds 300 events: 299 edits above one older ban. -/
def storeFullLog : Store :=
  { users := [], levels := [], subs := [],
    audit := List.replicate 299 (mkEvent "e" "edit_tags") ++ [mkEvent "old" "ban"] }

/-- A pending completion by carl, whose account is not in the users collection. -/
def storeOrphan : Store :=
  { users := [mkUser "alice" (some 0) [] (some "fresh")],
    levels := [mkLevel "L1" 1, mkLevel "L2" 2],
    subs := [mkCompletionSub "s1" "L2" "https://youtu.be/run" "carl",
             mkCompletionSub "s2" "L1" "https://youtu.be/run2" "alice"],
    audit := [] }

/-- Entry by entry, the second users collection holds the same usernames and
no user has fewer points (`points || 0`) than in the first. -/
def PointsKept (users users' : List User) : Prop :=
  List.Forall₂ (fun u u' => u'.username = u.username ∧ numOr u.points 0 ≤ numOr u'.points 0)
    users users'

/-! ## Points utility, stats page, banned list -/

/-- Function `pointsForPlacement`: 1 for a falsy placement, the clamp of
`101 - (placement || 999)` otherwise. -/
def pointsForPlacement (placement : Option Int) : Int :=
  match placement with
  | none => 1
  | some v => if v = 0 then 1 else max 1 (min 100 (101 - numOr placement 999))

/-- The loop `users.forEach((u, index) => ...)` of the stats page: each user
with the number `index + 1` shown in the first column, from index `i` on. -/
def numberRows : Nat → List User → List (Nat × User)
  | _, [] => []
  | i, u :: l => (i + 1, u) :: numberRows (i + 1) l

/-- The rows of `renderStatsArea`: the users sorted by points, highest first,
each with its row number. -/
def renderStatsArea (users : List User) : List (Nat × User) :=
  numberRows 0 (jsSort (fun a b => numOr b.points 0 - numOr a.points 0) users)

/-- The users listed by `renderBannedUsersList` at clock reading `now`. -/
def renderBannedUsersList (now : Int) (users : List User) : List User :=
  users.filter (fun u =>
    match u.bannedUntil with
    | none => false
    | some b => decide (b ≠ 0) && (decide (b = 9999999999999) || decide (b > now)))

/-- A store where gus has 150 points and a completion of the level at
placement 2 recorded without snapshot. -/
def storeLegacy : Store :=
  { users := [mkUser "gus" (some 150) [mkRecord "L2" "https://youtu.be/g" 4000 none]
                (some "fresh")],
    levels := [mkLevel "L1" 1, mkLevel "L2" 2],
    subs := [], audit := [] }

/-! ## HTML escaping -/

/-- The double quote and the apostrophe, two of the five escaped characters. -/
def dquote : Char := Char.ofNat 34

/-- The apostrophe. -/
def squote : Char := Char.ofNat 39

/-- The replacement table of `escapeHTML` for one character of the class matched
by its regular expression; any other character is kept. -/
def escapeChar (c : Char) : List Char :=
  if c = '&' then "&amp;".toList
  else if c = '<' then "&lt;".toList
  else if c = '>' then "&gt;".toList
  else if c = dquote then "&quot;".toList
  else if c = squote then "&#39;".toList
  else [c]

/-- The global replacement, character by character. -/
def escapeChars : List Char → List Char
  | [] => []
  | c :: cs => escapeChar c ++ escapeChars cs

/-- Function `escapeHTML`; `none` is `null` or `undefined`. -/
def escapeHTML (s : Option String) : String :=
  match s with
  | none => ""
  | some str => String.mk (escapeChars str.toList)

/-- The five entities written by `escapeHTML`. -/
def htmlEntities : List (List Char) :=
  ["&amp;".toList, "&lt;".toList, "&gt;".toList, "&quot;".toList, "&#39;".toList]

/-! # Theorems -/

/-! ## Lemmas on the array primitives -/

theorem addAudit_users (e : AuditEvent) (st : Store) : (addAudit e st).users = st.users := rfl

theorem addAudit_levels (e : AuditEvent) (st : Store) : (addAudit e st).levels = st.levels := rfl

theorem addAudit_subs (e : AuditEvent) (st : Store) : (addAudit e st).subs = st.subs := rfl


theorem find?_updateFirst {α : Type} (p : α → Bool) (f : α → α)
    (hf : ∀ a, p a = true → p (f a) = true) (l : List α) :
    (updateFirst p f l).find? p = (l.find? p).map f := by
  induction l with
  | nil => rfl
  | cons a l ih =>
    by_cases h : p a = true
    · simp [updateFirst, h, hf a h]
    · simp [updateFirst, h, ih]

theorem find?_filter_of_imp {α : Type} (p q : α → Bool)
    (h : ∀ a, p a = true → q a = true) (l : List α) :
    (l.filter q).find? p = l.find? p := by
  induction l with
  | nil => rfl
  | cons a l ih =>
    by_cases hq : q a = true
    · by_cases hp : p a = true
      · simp [List.filter, hq, hp]
      · simp [List.filter, hq, hp, ih]
    · have hp : ¬ p a = true := fun hp => hq (h a hp)
      simp [List.filter, hq, hp, ih]

theorem mem_updateFirst {α : Type} (p : α → Bool) (f : α → α) (l : List α) (x : α)
    (hx : x ∈ updateFirst p f l) : x ∈ l ∨ ∃ a ∈ l, x = f a := by
  induction l with
  | nil => simp [updateFirst] at hx
  | cons a l ih =>
    unfold updateFirst at hx
    split at hx
    · rcases List.mem_cons.mp hx with h1 | h1
      · exact Or.inr ⟨a, List.mem_cons_self _ _, h1⟩
      · exact Or.inl (List.mem_cons_of_mem _ h1)
    · rcases List.mem_cons.mp hx with h1 | h1
      · exact Or.inl (h1 ▸ List.mem_cons_self _ _)
      · rcases ih h1 with h2 | ⟨b, hb, hxb⟩
        · exact Or.inl (List.mem_cons_of_mem _ h2)
        · exact Or.inr ⟨b, List.mem_cons_of_mem _ hb, hxb⟩

/-! ## Approval of a completion -/

/-- The completion branch of `approveSubmission`, when the submission, its
level and its submitter are found. -/
theorem approveSubmission_completion (env : Env) (id : String) (st : Store)
    (s : Submission) (level : Level) (user : User)
    (hs : st.subs.find? (fun x => decide (x.id = id)) = some s)
    (ht : s.type = "completion")
    (hl : st.levels.find? (fun l => decide (some l.id = s.levelRef)) = some level)
    (hu : st.users.find? (fun u => decide (u.username = s.submitter)) = some user) :
    approveSubmission env id st = .ok (addAudit (approveCompletionEvent env s user (awardFor level))
      { st with users := updateFirst (fun u => decide (u.username = s.submitter))
                           (creditUser env s level (awardFor level)) st.users,
                subs := st.subs.filter (fun x => decide (x.id ≠ id)) }) := by
  have hne : ¬ ("completion" = "level") := by decide
  simp only [approveSubmission, hs, ht, hne, hl, hu, if_true, if_false]

theorem find?_creditUser (env : Env) (s : Submission) (level : Level) (pts : Int)
    (users : List User) :
    (updateFirst (fun u => decide (u.username = s.submitter)) (creditUser env s level pts)
        users).find? (fun u => decide (u.username = s.submitter))
      = (users.find? (fun u => decide (u.username = s.submitter))).map
          (creditUser env s level pts) :=
  find?_updateFirst _ _ (fun a ha => by simpa [creditUser] using ha) users

/-- C1: for a completion submission whose level exists with placement `p ≥ 1`
and whose submitter exists, `approveSubmission` returns and the submitter's
points are the former points plus `max(1, min(100, 101 - p))`: 100 at placement
1, 99 at placement 2, 1 from placement 100 on. -/
theorem approveSubmission_awards_clamped (env : Env) (id : String) (st : Store)
    (s : Submission) (level : Level) (user : User) (p : Int)
    (hs : st.subs.find? (fun x => decide (x.id = id)) = some s)
    (ht : s.type = "completion")
    (hl : st.levels.find? (fun l => decide (some l.id = s.levelRef)) = some level)
    (hp : level.placement = some p) (hp1 : 1 ≤ p)
    (hu : st.users.find? (fun u => decide (u.username = s.submitter)) = some user) :
    ∃ st' user', approveSubmission env id st = .ok st' ∧
      st'.users.find? (fun u => decide (u.username = s.submitter)) = some user' ∧
      user'.points = some (numOr user.points 0 + max 1 (min 100 (101 - p))) ∧
      (p = 1 → user'.points = some (numOr user.points 0 + 100)) ∧
      (p = 2 → user'.points = some (numOr user.points 0 + 99)) ∧
      (100 ≤ p → user'.points = some (numOr user.points 0 + 1)) := by
  have hok := approveSubmission_completion env id st s level user hs ht hl hu
  have haward : awardFor level = max 1 (min 100 (101 - p)) := by
    have : numOr level.placement 999 = p := by
      rw [hp]; simp only [numOr]; rw [if_neg (by omega)]
    simp only [awardFor, this]
  have hpts : (creditUser env s level (awardFor level) user).points
      = some (numOr user.points 0 + max 1 (min 100 (101 - p))) := by
    simp only [creditUser, haward]
  refine ⟨_, creditUser env s level (awardFor level) user, hok, ?_, hpts, ?_, ?_, ?_⟩
  · show (updateFirst _ _ st.users).find? _ = _
    rw [find?_creditUser, hu]; rfl
  · intro h; rw [hpts, h]; rfl
  · intro h; rw [hpts, h]; rfl
  · intro h; rw [hpts]
    have : max 1 (min 100 (101 - p)) = 1 := by omega
    rw [this]

/-- Witness of C1: levels at placements 1, 2, 3 and a completion of the level at
placement 2. -/
theorem approveSubmission_awards_clamped_witness :
    ∃ st' user', approveSubmission modEnv "s1" storeTwice = .ok st' ∧
      st'.users.find? (fun u => decide (u.username = "alice")) = some user' ∧
      user'.points = some (0 + max 1 (min 100 (101 - 2))) ∧
      ((2 : Int) = 1 → user'.points = some (0 + 100)) ∧
      ((2 : Int) = 2 → user'.points = some (0 + 99)) ∧
      ((100 : Int) ≤ 2 → user'.points = some (0 + 1)) :=
  approveSubmission_awards_clamped modEnv "s1" storeTwice
    (mkCompletionSub "s1" "L2" "https://youtu.be/run" "alice") (mkLevel "L2" 2)
    (mkUser "alice" (some 0) [] (some "fresh")) 2
    (by decide) (by decide) (by decide) rfl (by decide) (by decide)

/-- C2 (code evaluated at the failing input): alice's second, identical
completion is approved when her history already holds the record; her points go
from 99 to 198 while the history keeps one record and the submission is consumed. -/
theorem approveSubmission_duplicate_reawards :
    (settle storeTwice (approveSubmission modEnv "s1" storeTwice)).users.map
        (fun u => (u.points, (u.completedRecords.getD []).map recordKey))
      = [(some 99, [(some "L2", "https://youtu.be/run")])] ∧
    (settle (settle storeTwice (approveSubmission modEnv "s1" storeTwice))
        (approveSubmission modEnv "s2"
          (settle storeTwice (approveSubmission modEnv "s1" storeTwice)))).users.map
        (fun u => (u.points, (u.completedRecords.getD []).map recordKey))
      = [(some 198, [(some "L2", "https://youtu.be/run")])] ∧
    (settle (settle storeTwice (approveSubmission modEnv "s1" storeTwice))
        (approveSubmission modEnv "s2"
          (settle storeTwice (approveSubmission modEnv "s1" storeTwice)))).subs = [] := by
  decide

/-- C4 (code evaluated at the failing input): the level of the pending
completion is gone; `approveSubmission` returns with the store as it was, the
submission still pending. -/
theorem approveSubmission_dangling_not_consumed :
    approveSubmission modEnv "s1" storeDangling = .ok storeDangling ∧
    storeDangling.subs.find? (fun x => decide (x.id = "s1"))
      = some (mkCompletionSub "s1" "L2" "https://youtu.be/run" "alice") ∧
    storeDangling.levels.find? (fun l => decide (some l.id = some "L2")) = none :=
  ⟨rfl, by decide, by decide⟩

/-- What `approveSubmission` can do to the users collection. -/
theorem approveSubmission_users (env : Env) (id : String) (st : Store) :
    (settle st (approveSubmission env id st)).users = st.users ∨
    ∃ s level, (settle st (approveSubmission env id st)).users
      = updateFirst (fun u => decide (u.username = s.submitter))
          (creditUser env s level (awardFor level)) st.users := by
  unfold approveSubmission
  split
  · exact Or.inl rfl
  · rename_i s hs
    split
    · split
      · exact Or.inl rfl
      · exact Or.inl rfl
    · split
      · split
        · exact Or.inl rfl
        · rename_i level hl
          split
          · exact Or.inl rfl
          · exact Or.inr ⟨s, level, rfl⟩
      · exact Or.inl rfl

theorem creditUser_nodup (env : Env) (s : Submission) (level : Level) (pts : Int) (u : User)
    (h : ((u.completedRecords.getD []).map recordKey).Nodup) :
    (((creditUser env s level pts u).completedRecords.getD []).map recordKey).Nodup := by
  simp only [creditUser]
  cases hf : (u.completedRecords.getD []).find?
      (fun r => decide (r.levelId = s.levelRef) && decide (r.youtube = s.youtube)) with
  | some r => simpa using h
  | none =>
    simp only [Option.isSome_none, Bool.false_eq_true, if_false, Option.getD_some,
      List.map_append, List.map_cons, List.map_nil]
    rw [List.nodup_append]
    refine ⟨h, List.nodup_singleton _, ?_⟩
    rw [List.find?_eq_none] at hf
    intro k hk hk2
    rw [List.mem_singleton] at hk2
    obtain ⟨r, hr, hrk⟩ := List.mem_map.mp hk
    apply hf r hr
    have : recordKey r = (s.levelRef, s.youtube) := by rw [hrk, hk2]; rfl
    simp only [recordKey, Prod.mk.injEq] at this
    simp [this.1, this.2]

theorem approveSubmission_noDupRecords (env : Env) (id : String) (st : Store)
    (h : NoDupRecords st.users) :
    NoDupRecords (settle st (approveSubmission env id st)).users := by
  rcases approveSubmission_users env id st with he | ⟨s, level, he⟩
  · rw [he]; exact h
  · rw [he]
    intro u hu
    rcases mem_updateFirst _ _ _ _ hu with h1 | ⟨a, ha, hua⟩
    · exact h u h1
    · rw [hua]; exact creditUser_nodup env s level _ a (h a ha)


/-- C3: two completion submissions of one user with the same level reference
and link are approved one after the other, from a history without that pair:
both approvals return and the user's history then holds exactly one record
with the pair; and `approveSubmission` keeps every history free of two records
with the same level and link. -/
theorem approveSubmission_twice_one_record (env1 env2 : Env) (id1 id2 : String) (st : Store)
    (s1 s2 : Submission) (level : Level) (user : User)
    (hs1 : st.subs.find? (fun x => decide (x.id = id1)) = some s1)
    (hs2 : st.subs.find? (fun x => decide (x.id = id2)) = some s2)
    (hid : id1 ≠ id2)
    (ht1 : s1.type = "completion") (ht2 : s2.type = "completion")
    (hsub : s2.submitter = s1.submitter) (href : s2.levelRef = s1.levelRef)
    (hyt : s2.youtube = s1.youtube)
    (hl : st.levels.find? (fun l => decide (some l.id = s1.levelRef)) = some level)
    (hu : st.users.find? (fun u => decide (u.username = s1.submitter)) = some user)
    (hnew : ∀ r ∈ user.completedRecords.getD [],
      ¬ (r.levelId = s1.levelRef ∧ r.youtube = s1.youtube)) :
    (∃ st1 st2 user2, approveSubmission env1 id1 st = .ok st1 ∧
      approveSubmission env2 id2 st1 = .ok st2 ∧
      st2.users.find? (fun u => decide (u.username = s1.submitter)) = some user2 ∧
      (user2.completedRecords.getD []).countP
        (fun r => decide (r.levelId = s1.levelRef ∧ r.youtube = s1.youtube)) = 1) ∧
    (∀ (env : Env) (id : String) (st0 : Store), NoDupRecords st0.users →
      NoDupRecords (settle st0 (approveSubmission env id st0)).users) := by
  refine ⟨?_, approveSubmission_noDupRecords⟩
  have h1 := approveSubmission_completion env1 id1 st s1 level user hs1 ht1 hl hu
  have hfind1 : (updateFirst (fun u => decide (u.username = s1.submitter))
      (creditUser env1 s1 level (awardFor level)) st.users).find?
        (fun u => decide (u.username = s2.submitter))
      = some (creditUser env1 s1 level (awardFor level) user) := by
    rw [hsub, find?_creditUser, hu]; rfl
  have hsubs1 : (st.subs.filter (fun x => decide (x.id ≠ id1))).find?
      (fun x => decide (x.id = id2)) = some s2 := by
    rw [find?_filter_of_imp _ _ _ st.subs, hs2]
    intro a ha
    simp only [decide_eq_true_eq] at ha ⊢
    rw [ha]; exact fun h => hid h.symm
  have h2 := approveSubmission_completion env2 id2
    (addAudit (approveCompletionEvent env1 s1 user (awardFor level))
      { st with users := updateFirst (fun u => decide (u.username = s1.submitter))
                           (creditUser env1 s1 level (awardFor level)) st.users,
                subs := st.subs.filter (fun x => decide (x.id ≠ id1)) })
    s2 level (creditUser env1 s1 level (awardFor level) user) hsubs1 ht2
    (by rw [href]; exact hl) hfind1
  refine ⟨_, _, creditUser env2 s2 level (awardFor level)
    (creditUser env1 s1 level (awardFor level) user), h1, h2, ?_, ?_⟩
  · have h := find?_creditUser env2 s2 level (awardFor level)
      (updateFirst (fun u => decide (u.username = s1.submitter))
        (creditUser env1 s1 level (awardFor level)) st.users)
    rw [hfind1] at h
    rw [hsub] at h
    have hgoal : (updateFirst (fun u => decide (u.username = s2.submitter))
        (creditUser env2 s2 level (awardFor level))
        (updateFirst (fun u => decide (u.username = s1.submitter))
          (creditUser env1 s1 level (awardFor level)) st.users)).find?
          (fun u => decide (u.username = s1.submitter))
        = some (creditUser env2 s2 level (awardFor level)
            (creditUser env1 s1 level (awardFor level) user)) := by
      rw [hsub]; exact h
    exact hgoal
  · have hnone : (user.completedRecords.getD []).find?
        (fun r => decide (r.levelId = s1.levelRef) && decide (r.youtube = s1.youtube)) = none := by
      rw [List.find?_eq_none]
      intro r hr
      simpa using hnew r hr
    have hrecs1 : (creditUser env1 s1 level (awardFor level) user).completedRecords
        = some (user.completedRecords.getD [] ++ [completionOf env1 s1 level (awardFor level)]) := by
      simp only [creditUser, hnone, Option.isSome_none, Bool.false_eq_true, if_false]
    have hsome : ((user.completedRecords.getD [] ++
        [completionOf env1 s1 level (awardFor level)]).find?
        (fun r => decide (r.levelId = s2.levelRef) && decide (r.youtube = s2.youtube))).isSome
          = true := by
      rw [List.find?_isSome]
      exact ⟨completionOf env1 s1 level (awardFor level), by simp,
        by simp [completionOf, href, hyt]⟩
    have hrecs2 : (creditUser env2 s2 level (awardFor level)
        (creditUser env1 s1 level (awardFor level) user)).completedRecords
        = some (user.completedRecords.getD [] ++ [completionOf env1 s1 level (awardFor level)]) := by
      simp only [creditUser, hnone, Option.isSome_none, Bool.false_eq_true, if_false,
        Option.getD_some, hsome, if_true]
    rw [hrecs2, Option.getD_some, List.countP_append]
    have hzero : (user.completedRecords.getD []).countP
        (fun r => decide (r.levelId = s1.levelRef ∧ r.youtube = s1.youtube)) = 0 := by
      rw [List.countP_eq_zero]
      intro r hr
      simpa using hnew r hr
    rw [hzero]
    simp [completionOf]

/-- Witness of C3: alice's two identical completions of the level at placement 2. -/
theorem approveSubmission_twice_one_record_witness :
    (∃ st1 st2 user2, approveSubmission modEnv "s1" storeTwice = .ok st1 ∧
      approveSubmission modEnv "s2" st1 = .ok st2 ∧
      st2.users.find? (fun u => decide (u.username = "alice")) = some user2 ∧
      (user2.completedRecords.getD []).countP
        (fun r => decide (r.levelId = some "L2" ∧ r.youtube = "https://youtu.be/run")) = 1) ∧
    (∀ (env : Env) (id : String) (st0 : Store), NoDupRecords st0.users →
      NoDupRecords (settle st0 (approveSubmission env id st0)).users) :=
  approveSubmission_twice_one_record modEnv modEnv "s1" "s2" storeTwice
    (mkCompletionSub "s1" "L2" "https://youtu.be/run" "alice")
    (mkCompletionSub "s2" "L2" "https://youtu.be/run" "alice") (mkLevel "L2" 2)
    (mkUser "alice" (some 0) [] (some "fresh"))
    (by decide) (by decide) (by decide) (by decide) (by decide) rfl rfl rfl
    (by decide) (by decide) (fun r hr => absurd hr (List.not_mem_nil r))


/-! ## Placement density -/

theorem foldl_max_ge_init {α : Type} (g : α → Int) (l : List α) (m : Int) :
    m ≤ l.foldl (fun m x => max m (g x)) m := by
  induction l generalizing m with
  | nil => exact le_refl _
  | cons a l ih => exact le_trans (le_max_left _ _) (ih _)

theorem foldl_max_ge_mem {α : Type} (g : α → Int) (l : List α) (m : Int) (x : α) (hx : x ∈ l) :
    g x ≤ l.foldl (fun m x => max m (g x)) m := by
  induction l generalizing m with
  | nil => cases hx
  | cons a l ih =>
    rcases List.mem_cons.mp hx with h | h
    · subst h
      exact le_trans (le_max_right _ _) (foldl_max_ge_init g l _)
    · exact ih _ h

theorem foldl_max_mem {α : Type} (g : α → Int) (l : List α) (m : Int) :
    l.foldl (fun m x => max m (g x)) m = m ∨ ∃ x ∈ l, l.foldl (fun m x => max m (g x)) m = g x := by
  induction l generalizing m with
  | nil => exact Or.inl rfl
  | cons a l ih =>
    rcases ih (max m (g a)) with h | ⟨x, hx, h⟩
    · rcases max_choice m (g a) with h2 | h2
      · left; simp only [List.foldl_cons]; rw [h, h2]
      · right; exact ⟨a, List.mem_cons_self _ _, by simp only [List.foldl_cons]; rw [h, h2]⟩
    · right; exact ⟨x, List.mem_cons_of_mem _ hx, h⟩

/-- Under density the highest placement is the number of levels. -/
theorem Dense.maxPlacement {levels : List Level} (h : Dense levels) :
    levels.foldl (fun m lv => max m (numOr lv.placement 0)) 0 = (levels.length : Int) := by
  have hmem : ∀ lv ∈ levels, ∃ n : Nat, 1 ≤ n ∧ n ≤ levels.length ∧ lv.placement = some (n : Int) := by
    intro lv hlv
    have : lv.placement ∈ (List.range' 1 levels.length).map (fun (n : Nat) => some (n : Int)) :=
      h.subset (List.mem_map_of_mem _ hlv)
    obtain ⟨n, hn, hn2⟩ := List.mem_map.mp this
    rw [List.mem_range'_1] at hn
    exact ⟨n, hn.1, by omega, hn2.symm⟩
  have hval : ∀ lv ∈ levels, 1 ≤ numOr lv.placement 0 ∧ numOr lv.placement 0 ≤ (levels.length : Int) := by
    intro lv hlv
    obtain ⟨n, h1, h2, h3⟩ := hmem lv hlv
    have : numOr lv.placement 0 = (n : Int) := by
      rw [h3]; simp only [numOr]; rw [if_neg (by omega)]
    rw [this]; omega
  apply le_antisymm
  · rcases foldl_max_mem (fun lv : Level => numOr lv.placement 0) levels 0 with h0 | ⟨x, hx, h0⟩
    · rw [h0]; omega
    · rw [h0]; exact (hval x hx).2
  · cases hlen : levels.length with
    | zero => exact foldl_max_ge_init _ _ _
    | succ k =>
      have : some ((k + 1 : Nat) : Int) ∈ levels.map (fun l => l.placement) := by
        apply h.symm.subset
        apply List.mem_map.mpr
        exact ⟨k + 1, by rw [List.mem_range'_1]; omega, rfl⟩
      obtain ⟨lv, hlv, hp⟩ := List.mem_map.mp this
      have hv : numOr lv.placement 0 = ((k + 1 : Nat) : Int) := by
        rw [hp]; simp only [numOr]; rw [if_neg (by omega)]
      have := foldl_max_ge_mem (fun lv : Level => numOr lv.placement 0) levels 0 lv hlv
      simp only [hv] at this
      exact this

theorem Dense.append_next {levels : List Level} (h : Dense levels) (lv : Level)
    (hp : lv.placement = some ((levels.length : Int) + 1)) : Dense (levels ++ [lv]) := by
  unfold Dense at *
  rw [List.map_append, List.length_append, List.length_singleton, List.range'_1_concat,
    List.map_append]
  apply List.Perm.append h
  simp only [List.map_cons, List.map_nil, hp]
  have : ((1 + levels.length : Nat) : Int) = (levels.length : Int) + 1 := by omega
  rw [this]

theorem renumberFrom_placements (i : Nat) (l : List Level) :
    (renumberFrom i l).map (fun l => l.placement)
      = (List.range' (i + 1) l.length).map (fun (n : Nat) => some (n : Int)) := by
  induction l generalizing i with
  | nil => rfl
  | cons a l ih =>
    simp only [renumberFrom, List.map_cons, List.length_cons, List.range'_succ, ih]
    congr 1

theorem renumberFrom_length (i : Nat) (l : List Level) : (renumberFrom i l).length = l.length := by
  induction l generalizing i with
  | nil => rfl
  | cons a l ih => simp only [renumberFrom, List.length_cons, ih]

theorem dense_renumberFrom (l : List Level) : Dense (renumberFrom 0 l) := by
  unfold Dense
  rw [renumberFrom_placements, renumberFrom_length]

/-- Exchanging the values at two positions of a list permutes it. -/
theorem perm_set_set {α : Type} [DecidableEq α] (v : List α) (i j : Nat)
    (hi : i < v.length) (hj : j < v.length) :
    ((v.set i v[j]).set j v[i]).Perm v := by
  rw [List.perm_iff_count]
  intro b
  have hj2 : j < (v.set i v[j]).length := by rw [List.length_set]; exact hj
  rw [List.count_set _ _ _ _ hj2, List.count_set _ _ _ _ hi]
  have hci : (if v[i] == b then 1 else 0) ≤ v.count b := by
    by_cases h : v[i] = b
    · simp only [h, beq_self_eq_true, if_true]
      exact List.count_pos_iff.mpr (h ▸ List.getElem_mem hi)
    · simp [h]
  have hcj : (if v[j] == b then 1 else 0) ≤ v.count b := by
    by_cases h : v[j] = b
    · simp only [h, beq_self_eq_true, if_true]
      exact List.count_pos_iff.mpr (h ▸ List.getElem_mem hj)
    · simp [h]
  by_cases hij : i = j
  · subst hij
    simp only [List.getElem_set_self]
    omega
  · rw [List.getElem_set_ne hij]
    omega


theorem jsSort_perm {α : Type} (cmp : α → α → Int) (l : List α) : (jsSort cmp l).Perm l :=
  List.perm_insertionSort _ l

theorem jsSort_length {α : Type} (cmp : α → α → Int) (l : List α) :
    (jsSort cmp l).length = l.length :=
  List.length_insertionSort _ l

theorem dense_of_perm_placements {l1 l2 : List Level}
    (hp : (l2.map (fun l => l.placement)).Perm (l1.map (fun l => l.placement)))
    (h : Dense l1) : Dense l2 := by
  unfold Dense at *
  have hlen : l2.length = l1.length := by
    have := hp.length_eq
    simpa using this
  rw [hlen]
  exact hp.trans h

theorem findIndex_lt {α : Type} (p : α → Bool) (l : List α) (i : Nat)
    (h : findIndex p l = some i) : i < l.length := by
  induction l generalizing i with
  | nil => simp [findIndex] at h
  | cons a l ih =>
    unfold findIndex at h
    split at h
    · cases h; simp
    · cases hf : findIndex p l with
      | none => rw [hf] at h; cases h
      | some j =>
        rw [hf] at h
        cases h
        have := ih j hf
        simp only [List.length_cons]; omega

theorem swapPlacement_dense (levelId : String) (dir : Int) (st : Store) (h : Dense st.levels) :
    Dense (swapPlacement levelId dir st).levels := by
  unfold swapPlacement
  dsimp only
  cases hidx : findIndex (fun l => decide (l.id = levelId)) (jsSort placementCmp st.levels) with
  | none => exact h
  | some idx =>
    have hi := findIndex_lt _ _ _ hidx
    dsimp only
    split
    · exact h
    · rename_i hb
      have ht : ((idx : Int) + dir).toNat < (jsSort placementCmp st.levels).length := by
        omega
      have ht2 : ((idx : Int) + dir).toNat <
          ((jsSort placementCmp st.levels).set idx
            { (jsSort placementCmp st.levels)[idx] with
              placement := ((jsSort placementCmp st.levels)[((idx : Int) + dir).toNat]).placement }).length := by
        rw [List.length_set]; exact ht
      rw [List.getElem?_eq_getElem hi, List.getElem?_eq_getElem ht]
      dsimp only
      rw [List.getElem?_eq_getElem ht2]
      dsimp only
      apply dense_of_perm_placements _ h
      refine List.Perm.trans ?_ ((jsSort_perm placementCmp st.levels).map _)
      have hi2 : idx < ((jsSort placementCmp st.levels).map (fun l => l.placement)).length := by
        rw [List.length_map]; exact hi
      have ht3 : ((idx : Int) + dir).toNat
          < ((jsSort placementCmp st.levels).map (fun l => l.placement)).length := by
        rw [List.length_map]; exact ht
      have := perm_set_set ((jsSort placementCmp st.levels).map (fun l => l.placement)) idx
        ((idx : Int) + dir).toNat hi2 ht3
      simp only [List.map_set, List.getElem_map] at this ⊢
      exact this


theorem approveSubmission_dense (env : Env) (id : String) (st : Store) (h : Dense st.levels) :
    Dense (settle st (approveSubmission env id st)).levels := by
  unfold approveSubmission
  split
  · exact h
  · split
    · split
      · exact h
      · exact h.append_next _ (by rw [h.maxPlacement])
    · split
      · split
        · exact h
        · split
          · exact h
          · exact h
      · exact h

theorem signup_levels (env : Env) (u p n : String) (st : Store) :
    (signup env u p n st).levels = st.levels := by
  unfold signup
  split
  · rfl
  · split
    · rfl
    · split
      · rfl
      · split <;> rfl

theorem submitLevel_levels (env : Env) (a b c d e : String) (f : List String) (st : Store) :
    (settle st (submitLevel env a b c d e f st)).levels = st.levels := by
  unfold submitLevel
  split
  · rfl
  · split
    · rfl
    · dsimp only
      split <;> rfl

theorem submitCompletion_levels (env : Env) (a b c : String) (d : Option Int) (st : Store) :
    (settle st (submitCompletion env a b c d st)).levels = st.levels := by
  unfold submitCompletion
  split
  · rfl
  · dsimp only
    split <;> rfl

theorem equipTitle_levels (env : Env) (u : String) (t : Title) (st : Store) :
    (equipTitle env u t st).levels = st.levels := by
  unfold equipTitle
  split
  · rfl
  · split
    · rfl
    · split <;> rfl

theorem saveProfile_levels (env : Env) (u b : String) (c : Bool) (p : Option String)
    (st : Store) : (saveProfile env u b c p st).levels = st.levels := by
  unfold saveProfile
  split
  · rfl
  · dsimp only
    split <;> rfl

theorem deleteCompletion_levels (env : Env) (u : String) (r : Completion) (st : Store) :
    (deleteCompletion env u r st).levels = st.levels := by
  unfold deleteCompletion
  dsimp only
  split <;> rfl

/-- Every operation keeps the placements dense. -/
theorem Op.apply_dense (env : Env) (op : Op) (st : Store) (h : Dense st.levels) :
    Dense (op.apply env st).levels := by
  cases op with
  | signup u p n => simp only [Op.apply, signup_levels]; exact h
  | submitLevel a b c d e f => simp only [Op.apply, submitLevel_levels]; exact h
  | submitCompletion a b c d => simp only [Op.apply, submitCompletion_levels]; exact h
  | approve id => exact approveSubmission_dense env id st h
  | reject id => exact h
  | removeLevel id => exact dense_renumberFrom _
  | swap id dir => exact swapPlacement_dense id dir st h
  | equip u t => simp only [Op.apply, equipTitle_levels]; exact h
  | saveProfile u b c p => simp only [Op.apply, saveProfile_levels]; exact h
  | deleteCompletion u r => simp only [Op.apply, deleteCompletion_levels]; exact h

theorem run_dense (ops : List (Env × Op)) (st : Store) (h : Dense st.levels) :
    Dense (run ops st).levels := by
  induction ops generalizing st with
  | nil => exact h
  | cons eo ops ih => exact ih _ (Op.apply_dense eo.1 eo.2 st h)

/-- C5: from an empty levels collection, after any finite sequence of
operations of the site (level approvals, `removeLevelById` and `swapPlacement`
with any id and direction among them), the placements of the `N` levels are
exactly the numbers `1..N`, each once. -/
theorem placements_dense_after_any_run (ops : List (Env × Op)) (users : List User)
    (subs : List Submission) (audit : List AuditEvent) :
    ((run ops ⟨users, [], subs, audit⟩).levels.map (fun l => l.placement)).Perm
      ((List.range' 1 (run ops ⟨users, [], subs, audit⟩).levels.length).map
        (fun (n : Nat) => some (n : Int))) :=
  run_dense ops ⟨users, [], subs, audit⟩ (List.Perm.refl _)


/-! ## Leaderboard order -/

theorem findIndex_eq_none {α : Type} (p : α → Bool) (l : List α) :
    findIndex p l = none ↔ ∀ x ∈ l, p x = false := by
  induction l with
  | nil => simp [findIndex]
  | cons a l ih =>
    unfold findIndex
    by_cases h : p a = true
    · simp [h]
    · have h2 : p a = false := by simpa using h
      simp only [h2, Bool.false_eq_true, if_false, Option.map_eq_none', ih, List.mem_cons,
        forall_eq_or_imp, true_and]

/-- Position of a newly inserted element that alone satisfies `p`. -/
theorem findIndex_orderedInsert_self {α : Type} (k : α → Int) (p : α → Bool) (a : α)
    (s : List α) (hs : s.Sorted (fun x y => k y - k x ≤ 0)) (hpa : p a = true)
    (hps : ∀ y ∈ s, p y = false) :
    findIndex p (List.orderedInsert (fun x y => k y - k x ≤ 0) a s)
      = some (s.countP (fun y => decide (k a < k y))) := by
  induction s with
  | nil => simp [findIndex, hpa]
  | cons b s ih =>
    have hsorted := List.sorted_cons.mp hs
    by_cases hab : k b - k a ≤ 0
    · simp only [List.orderedInsert, hab, if_true, findIndex, hpa]
      congr 1
      symm
      rw [List.countP_eq_zero]
      intro y hy
      simp only [decide_eq_true_eq, not_lt]
      rcases List.mem_cons.mp hy with h | h
      · rw [h]; omega
      · have := hsorted.1 y h
        omega
    · have hpb : p b = false := hps b (List.mem_cons_self _ _)
      simp only [List.orderedInsert, hab, if_false, findIndex, hpb, Bool.false_eq_true]
      rw [ih hsorted.2 (fun y hy => hps y (List.mem_cons_of_mem _ hy))]
      have : decide (k a < k b) = true := by simp only [decide_eq_true_eq]; omega
      simp [List.countP_cons, this]

/-- Position, after an insertion, of an element that was already there. -/
theorem findIndex_orderedInsert_other {α : Type} (k : α → Int) (p : α → Bool) (a : α) (c : Int)
    (s : List α) (hs : s.Sorted (fun x y => k y - k x ≤ 0)) (hpa : p a = false)
    (hps : ∀ y ∈ s, p y = true → k y = c) :
    findIndex p (List.orderedInsert (fun x y => k y - k x ≤ 0) a s)
      = (findIndex p s).map (fun j => if k a < c then j else j + 1) := by
  induction s with
  | nil => simp [findIndex, hpa]
  | cons b s ih =>
    have hsorted := List.sorted_cons.mp hs
    by_cases hab : k b - k a ≤ 0
    · simp only [List.orderedInsert, hab, if_true]
      cases hf : findIndex p (b :: s) with
      | none =>
        have h2 : findIndex p (a :: b :: s) = (findIndex p (b :: s)).map (· + 1) := by
          conv_lhs => unfold findIndex
          simp only [hpa, Bool.false_eq_true, if_false]
        rw [h2, hf]; rfl
      | some j =>
        have hex : ∃ y ∈ b :: s, p y = true := by
          by_contra hne
          have : findIndex p (b :: s) = none := by
            rw [findIndex_eq_none]
            intro x hx
            by_contra hpx
            exact hne ⟨x, hx, by simpa using hpx⟩
          rw [this] at hf; cases hf
        obtain ⟨y, hy, hpy⟩ := hex
        have hky := hps y hy hpy
        have hyb : k y ≤ k b := by
          rcases List.mem_cons.mp hy with h | h
          · rw [h]
          · have := hsorted.1 y h
            omega
        have hnot : ¬ k a < c := by omega
        have h2 : findIndex p (a :: b :: s) = (findIndex p (b :: s)).map (· + 1) := by
          conv_lhs => unfold findIndex
          simp only [hpa, Bool.false_eq_true, if_false]
        rw [h2, hf]
        simp [hnot]
    · simp only [List.orderedInsert, hab, if_false]
      by_cases hpb : p b = true
      · have hkb := hps b (List.mem_cons_self _ _) hpb
        have : k a < c := by omega
        simp [findIndex, hpb, this]
      · have hpb2 : p b = false := by simpa using hpb
        simp only [findIndex, hpb2, Bool.false_eq_true, if_false]
        rw [ih hsorted.2 (fun y hy => hps y (List.mem_cons_of_mem _ hy))]
        cases findIndex p s with
        | none => rfl
        | some j =>
          simp only [Option.map_some']
          split <;> rfl


theorem sorted_byKeyDesc {α : Type} (k : α → Int) (l : List α) :
    (List.insertionSort (fun x y => k y - k x ≤ 0) l).Sorted (fun x y => k y - k x ≤ 0) := by
  haveI : IsTotal α (fun x y => k y - k x ≤ 0) := ⟨fun a b => by
    by_cases h : k b - k a ≤ 0
    · exact Or.inl h
    · exact Or.inr (by omega)⟩
  haveI : IsTrans α (fun x y => k y - k x ≤ 0) := ⟨fun a b c h1 h2 => by
    show k c - k a ≤ 0
    have h1' : k b - k a ≤ 0 := h1
    have h2' : k c - k b ≤ 0 := h2
    omega⟩
  exact List.sorted_insertionSort _ l

/-- Stable position: in the list sorted by decreasing key, the element stored at
index `i` (alone with its name) comes after the elements with a greater key and
the elements with the same key stored before it. -/
theorem findIndex_sorted_eq {α : Type} (k : α → Int) (n : α → String) (l : List α)
    (hnd : (l.map n).Nodup) (i : Nat) (hi : i < l.length) :
    findIndex (fun u => decide (n u = n l[i])) (List.insertionSort (fun x y => k y - k x ≤ 0) l)
      = some (l.countP (fun v => decide (k l[i] < k v))
          + (l.take i).countP (fun v => decide (k v = k l[i]))) := by
  induction l generalizing i with
  | nil => simp at hi
  | cons a t ih =>
    rw [List.map_cons, List.nodup_cons] at hnd
    have hsorted := sorted_byKeyDesc k t
    cases i with
    | zero =>
      simp only [List.getElem_cons_zero, List.insertionSort, List.take_zero, List.countP_nil,
        Nat.add_zero]
      rw [findIndex_orderedInsert_self k _ a _ hsorted (by simp)]
      · rw [(List.perm_insertionSort _ t).countP_eq]
        simp [List.countP_cons]
      · intro y hy
        rw [List.mem_insertionSort] at hy
        simp only [decide_eq_false_iff_not]
        intro h
        exact hnd.1 (h ▸ List.mem_map_of_mem n hy)
    | succ j =>
      have hj : j < t.length := by simpa using hi
      have hu : t[j] ∈ t := List.getElem_mem hj
      simp only [List.getElem_cons_succ, List.insertionSort, List.take_succ_cons]
      rw [findIndex_orderedInsert_other k _ a (k t[j]) _ hsorted]
      · rw [ih hnd.2 j hj]
        simp only [Option.map_some', List.countP_cons, decide_eq_true_eq]
        congr 1
        split_ifs <;> omega
      · simp only [decide_eq_false_iff_not]
        intro h
        exact hnd.1 (h ▸ List.mem_map_of_mem n hu)
      · intro y hy hp
        rw [List.mem_insertionSort] at hy
        simp only [decide_eq_true_eq] at hp
        rw [List.inj_on_of_nodup_map hnd.2 hy hu hp]


theorem findIndex_getElem_of_nodup {α : Type} (n : α → String) (l : List α)
    (hnd : (l.map n).Nodup) (j : Nat) (hj : j < l.length) :
    findIndex (fun u => decide (n u = n l[j])) l = some j := by
  induction l generalizing j with
  | nil => simp at hj
  | cons a t ih =>
    rw [List.map_cons, List.nodup_cons] at hnd
    cases j with
    | zero => simp [findIndex]
    | succ i =>
      have hi : i < t.length := by simpa using hj
      have hne : ¬ n a = n t[i] := fun h =>
        hnd.1 (h ▸ List.mem_map_of_mem n (List.getElem_mem hi))
      simp only [findIndex, List.getElem_cons_succ, hne, decide_False, Bool.false_eq_true,
        if_false, ih hnd.2 i hi, Option.map_some']

theorem getLeaderboardSortedUsers_perm (users : List User) :
    (getLeaderboardSortedUsers users).Perm users :=
  jsSort_perm _ users

theorem getUserRank_eq_none (users : List User) (name : String) :
    getUserRank users name = none ↔ ∀ u ∈ users, u.username ≠ name := by
  unfold getUserRank
  rw [Option.map_eq_none', findIndex_eq_none]
  constructor
  · intro h u hu
    have := h u ((getLeaderboardSortedUsers_perm users).mem_iff.mpr hu)
    simpa using this
  · intro h u hu
    have := h u ((getLeaderboardSortedUsers_perm users).mem_iff.mp hu)
    simpa using this

/-- The rank of the user stored at index `i`, when usernames are distinct. -/
theorem getUserRank_getElem (users : List User)
    (hnd : (users.map (fun u => u.username)).Nodup) (i : Nat) (hi : i < users.length) :
    getUserRank users users[i].username
      = some (1 + users.countP (fun v => decide (numOr users[i].points 0 < numOr v.points 0))
          + (users.take i).countP (fun v => decide (numOr v.points 0 = numOr users[i].points 0))) := by
  have h := findIndex_sorted_eq (fun u : User => numOr u.points 0) (fun u => u.username) users
    hnd i hi
  unfold getUserRank getLeaderboardSortedUsers jsSort
  rw [h]
  simp only [Option.map_some']
  congr 1
  omega

/-- The rank of the user at position `j` of the leaderboard is `j + 1`. -/
theorem getUserRank_sorted_getElem (users : List User)
    (hnd : (users.map (fun u => u.username)).Nodup) (j : Nat)
    (hj : j < (getLeaderboardSortedUsers users).length) :
    getUserRank users (getLeaderboardSortedUsers users)[j].username = some (j + 1) := by
  have hnd2 : ((getLeaderboardSortedUsers users).map (fun u => u.username)).Nodup :=
    ((getLeaderboardSortedUsers_perm users).map _).nodup_iff.mpr hnd
  unfold getUserRank
  rw [findIndex_getElem_of_nodup (fun u : User => u.username) _ hnd2 j hj]
  rfl


theorem getUserRank_sorted_index (users : List User) (u : User) (hu : u ∈ users) :
    ∃ j, ∃ hj : j < (getLeaderboardSortedUsers users).length,
      (getLeaderboardSortedUsers users)[j] = u := by
  obtain ⟨j, hj, h⟩ :=
    List.getElem_of_mem ((getLeaderboardSortedUsers_perm users).mem_iff.mpr hu)
  exact ⟨j, hj, h⟩

theorem getUserRank_range (users : List User)
    (hnd : (users.map (fun u => u.username)).Nodup) (u : User) (hu : u ∈ users) :
    ∃ r, getUserRank users u.username = some r ∧ 1 ≤ r ∧ r ≤ users.length := by
  have hlen : (getLeaderboardSortedUsers users).length = users.length :=
    (getLeaderboardSortedUsers_perm users).length_eq
  obtain ⟨j, hj, h⟩ := getUserRank_sorted_index users u hu
  refine ⟨j + 1, ?_, by omega, by omega⟩
  rw [← h]; exact getUserRank_sorted_getElem users hnd j hj

theorem getUserRank_injective (users : List User)
    (hnd : (users.map (fun u => u.username)).Nodup) (u : User) (hu : u ∈ users)
    (v : User) (hv : v ∈ users)
    (huv : getUserRank users u.username = getUserRank users v.username) : u = v := by
  obtain ⟨j, hj, h⟩ := getUserRank_sorted_index users u hu
  obtain ⟨i, hi, h2⟩ := getUserRank_sorted_index users v hv
  have h3 := getUserRank_sorted_getElem users hnd j hj
  have h4 := getUserRank_sorted_getElem users hnd i hi
  rw [h] at h3
  rw [h2] at h4
  rw [h3, h4] at huv
  have hji : j = i := by
    have := Option.some.inj huv
    omega
  subst hji
  rw [← h, ← h2]

theorem getUserRank_surjective (users : List User)
    (hnd : (users.map (fun u => u.username)).Nodup) (r : Nat) (h1 : 1 ≤ r)
    (h2 : r ≤ users.length) : ∃ u ∈ users, getUserRank users u.username = some r := by
  have hperm := getLeaderboardSortedUsers_perm users
  have hlen : (getLeaderboardSortedUsers users).length = users.length := hperm.length_eq
  have hj : r - 1 < (getLeaderboardSortedUsers users).length := by omega
  refine ⟨(getLeaderboardSortedUsers users)[r - 1], hperm.mem_iff.mp (List.getElem_mem hj), ?_⟩
  rw [getUserRank_sorted_getElem users hnd (r - 1) hj]
  congr 1
  omega

/-- C7: with pairwise distinct usernames, `getUserRank` on the stored usernames
is a bijection onto `1..N`: every stored user has a rank in `1..N`, two users
with the same rank are the same user, and every number of `1..N` is the rank of
a stored user. -/
theorem getUserRank_bijective (users : List User)
    (hnd : (users.map (fun u => u.username)).Nodup) :
    (∀ u ∈ users, ∃ r, getUserRank users u.username = some r ∧ 1 ≤ r ∧ r ≤ users.length) ∧
    (∀ u ∈ users, ∀ v ∈ users,
      getUserRank users u.username = getUserRank users v.username → u = v) ∧
    (∀ r, 1 ≤ r → r ≤ users.length →
      ∃ u ∈ users, getUserRank users u.username = some r) :=
  ⟨getUserRank_range users hnd, getUserRank_injective users hnd,
   getUserRank_surjective users hnd⟩

/-- Witness of C7: the five users of the sample leaderboard. -/
theorem getUserRank_bijective_witness :
    (usersBoard.map (fun u => u.username)).Nodup ∧
    ((∀ u ∈ usersBoard, ∃ r, getUserRank usersBoard u.username = some r ∧ 1 ≤ r ∧
        r ≤ usersBoard.length) ∧
     (∀ u ∈ usersBoard, ∀ v ∈ usersBoard,
        getUserRank usersBoard u.username = getUserRank usersBoard v.username → u = v) ∧
     (∀ r, 1 ≤ r → r ≤ usersBoard.length →
        ∃ u ∈ usersBoard, getUserRank usersBoard u.username = some r)) :=
  ⟨by decide, getUserRank_bijective usersBoard (by decide)⟩

theorem getLeaderboardSortedUsers_sorted (users : List User) :
    (getLeaderboardSortedUsers users).Pairwise
      (fun a b => numOr b.points 0 ≤ numOr a.points 0) := by
  have h := sorted_byKeyDesc (fun u : User => numOr u.points 0) users
  refine List.Pairwise.imp ?_ h
  intro a b hab
  have hab' : numOr b.points 0 - numOr a.points 0 ≤ 0 := hab
  omega

/-- C8: `getUserRank` returns the not-found value exactly when no stored user
has the username.  The leaderboard is the users in decreasing order of points
(missing points counted as 0), and with distinct usernames the user at position
`j` of it (from 0) has rank `j + 1`; ties keep the store order: the user stored
at index `i` gets 1 + the number of users with strictly more points + the number
of users with equal points stored before it. -/
theorem getUserRank_spec (users : List User)
    (hnd : (users.map (fun u => u.username)).Nodup) :
    (∀ name, getUserRank users name = none ↔ ∀ u ∈ users, u.username ≠ name) ∧
    (getLeaderboardSortedUsers users).Perm users ∧
    (getLeaderboardSortedUsers users).Pairwise
      (fun a b => numOr b.points 0 ≤ numOr a.points 0) ∧
    (∀ (j : Nat) (hj : j < (getLeaderboardSortedUsers users).length),
      getUserRank users (getLeaderboardSortedUsers users)[j].username = some (j + 1)) ∧
    (∀ (i : Nat) (hi : i < users.length),
      getUserRank users users[i].username
        = some (1 + users.countP (fun v => decide (numOr users[i].points 0 < numOr v.points 0))
            + (users.take i).countP
                (fun v => decide (numOr v.points 0 = numOr users[i].points 0)))) :=
  ⟨getUserRank_eq_none users, getLeaderboardSortedUsers_perm users,
   getLeaderboardSortedUsers_sorted users, getUserRank_sorted_getElem users hnd,
   getUserRank_getElem users hnd⟩

/-- Witness of C8: in the sample leaderboard nobody is called zed, and dee
(50 points, stored after ann with 50 points, below cid with 300) is third. -/
theorem getUserRank_spec_witness :
    (usersBoard.map (fun u => u.username)).Nodup ∧
    getUserRank usersBoard "zed" = none ∧
    getUserRank usersBoard "dee" = some (1 + 1 + 1) :=
  ⟨by decide,
   ((getUserRank_spec usersBoard (by decide)).1 "zed").mpr (by decide),
   (getUserRank_spec usersBoard (by decide)).2.2.2.2 3 (by decide)⟩

/-- C9: for a non-null user, `canEquipTitle` grants `top1`, `top2`, `top3`
exactly when `getUserRank` of the username is 1, 2, 3; a user ranked 1 gets
neither `top2` nor `top3`, and a user absent from the store gets none. -/
theorem canEquipTitle_top_iff_rank (users : List User) (u : User) :
    (canEquipTitle users (some u) "top1" = true ↔ getUserRank users u.username = some 1) ∧
    (canEquipTitle users (some u) "top2" = true ↔ getUserRank users u.username = some 2) ∧
    (canEquipTitle users (some u) "top3" = true ↔ getUserRank users u.username = some 3) ∧
    (getUserRank users u.username = some 1 →
      canEquipTitle users (some u) "top2" = false ∧
      canEquipTitle users (some u) "top3" = false) ∧
    ((∀ v ∈ users, v.username ≠ u.username) →
      canEquipTitle users (some u) "top1" = false ∧
      canEquipTitle users (some u) "top2" = false ∧
      canEquipTitle users (some u) "top3" = false) := by
  have h1 : canEquipTitle users (some u) "top1" = decide (getUserRank users u.username = some 1) := by
    simp [canEquipTitle]
  have h2 : canEquipTitle users (some u) "top2" = true ↔ getUserRank users u.username = some 2 := by
    simp only [canEquipTitle]
    cases getUserRank users u.username <;> simp
  have h3 : canEquipTitle users (some u) "top3" = true ↔ getUserRank users u.username = some 3 := by
    simp only [canEquipTitle]
    cases getUserRank users u.username <;> simp
  refine ⟨by rw [h1]; simp, h2, h3, ?_, ?_⟩
  · intro hr
    constructor
    · rw [← Bool.not_eq_true, h2, hr]; simp
    · rw [← Bool.not_eq_true, h3, hr]; simp
  · intro hv
    have hn := (getUserRank_eq_none users u.username).mpr hv
    refine ⟨?_, ?_, ?_⟩
    · rw [h1, hn]; simp
    · rw [← Bool.not_eq_true, h2, hn]; simp
    · rw [← Bool.not_eq_true, h3, hn]; simp

/-- Witness of C9: cid leads the sample leaderboard, zed is not stored. -/
theorem canEquipTitle_top_iff_rank_witness :
    getUserRank usersBoard "cid" = some 1 ∧
    (canEquipTitle usersBoard (some (mkUser "cid" (some 300) [] (some "top1"))) "top2" = false ∧
     canEquipTitle usersBoard (some (mkUser "cid" (some 300) [] (some "top1"))) "top3" = false) ∧
    (canEquipTitle usersBoard (some (mkUser "zed" (some 9000) [] none)) "top1" = false ∧
     canEquipTitle usersBoard (some (mkUser "zed" (some 9000) [] none)) "top2" = false ∧
     canEquipTitle usersBoard (some (mkUser "zed" (some 9000) [] none)) "top3" = false) :=
  ⟨by decide,
   (canEquipTitle_top_iff_rank usersBoard (mkUser "cid" (some 300) [] (some "top1"))).2.2.2.1
     (by decide),
   (canEquipTitle_top_iff_rank usersBoard (mkUser "zed" (some 9000) [] none)).2.2.2.2
     (by decide)⟩

/-- C10: with pairwise distinct usernames at most one stored user is eligible
for `top1`, and a stored user who has strictly fewer points than another stored
user is not eligible for `top1`, whatever the stored `equippedTitle` is. -/
theorem top1_exclusive (users : List User)
    (hnd : (users.map (fun u => u.username)).Nodup) :
    (∀ u ∈ users, ∀ v ∈ users, canEquipTitle users (some u) "top1" = true →
      canEquipTitle users (some v) "top1" = true → u = v) ∧
    (∀ a ∈ users, ∀ b ∈ users, numOr b.points 0 < numOr a.points 0 →
      canEquipTitle users (some b) "top1" = false) := by
  have h1 : ∀ u : User, canEquipTitle users (some u) "top1"
      = decide (getUserRank users u.username = some 1) := by
    intro u; simp [canEquipTitle]
  constructor
  · intro u hu v hv hcu hcv
    rw [h1, decide_eq_true_eq] at hcu hcv
    exact getUserRank_injective users hnd u hu v hv (hcu.trans hcv.symm)
  · intro a ha b hb hlt
    obtain ⟨i, hi, hbi⟩ := List.getElem_of_mem hb
    have hr := getUserRank_getElem users hnd i hi
    rw [hbi] at hr
    have hpos : 0 < users.countP (fun v => decide (numOr b.points 0 < numOr v.points 0)) :=
      List.countP_pos_iff.mpr ⟨a, ha, by simpa using hlt⟩
    rw [h1, hr, decide_eq_false_iff_not]
    intro h
    have := Option.some.inj h
    omega

/-- Witness of C10: in the sample leaderboard bob stores `top1` and has fewer
points than cid. -/
theorem top1_exclusive_witness :
    (usersBoard.map (fun u => u.username)).Nodup ∧
    (mkUser "bob" none [] (some "top1")).equippedTitle = some "top1" ∧
    canEquipTitle usersBoard (some (mkUser "bob" none [] (some "top1"))) "top1" = false :=
  ⟨by decide, rfl,
   (top1_exclusive usersBoard (by decide)).2 (mkUser "cid" (some 300) [] (some "top1"))
     (by decide) (mkUser "bob" none [] (some "top1")) (by decide) (by decide)⟩


/-! ## Titles at the checkpoints -/

theorem findIndex_map {α β : Type} (f : α → β) (q : β → Bool) (l : List α) :
    findIndex q (l.map f) = findIndex (fun a => q (f a)) l := by
  induction l with
  | nil => rfl
  | cons a l ih => simp only [List.map_cons, findIndex, ih]

/-- The rank reads the users through their usernames and points only. -/
theorem getUserRank_congr (users users' : List User)
    (h : users.map (fun u => (u.username, u.points)) = users'.map (fun u => (u.username, u.points)))
    (name : String) : getUserRank users name = getUserRank users' name := by
  have key : ∀ l : List User,
      findIndex (fun u => decide (u.username = name)) (getLeaderboardSortedUsers l)
        = findIndex (fun pr : String × Option Int => decide (pr.1 = name))
            (List.insertionSort (fun a b : String × Option Int => numOr b.2 0 - numOr a.2 0 ≤ 0)
              (l.map (fun u => (u.username, u.points)))) := by
    intro l
    rw [← List.map_insertionSort (fun a b : User => numOr b.points 0 - numOr a.points 0 ≤ 0)
      (fun a b : String × Option Int => numOr b.2 0 - numOr a.2 0 ≤ 0)
      (fun u : User => (u.username, u.points)) l (fun a _ b _ => Iff.rfl), findIndex_map]
    rfl
  unfold getUserRank
  rw [key users, key users', h]

theorem canEquipTitle_congr (users users' : List User) (u u' : User)
    (h : users.map (fun u => (u.username, u.points)) = users'.map (fun u => (u.username, u.points)))
    (hn : u'.username = u.username) (hp : u'.points = u.points) (t : String) :
    canEquipTitle users' (some u') t = canEquipTitle users (some u) t := by
  simp only [canEquipTitle, hn, hp, getUserRank_congr users users' h]

theorem map_updateFirst_of_find {α β : Type} (p : α → Bool) (f : α → α) (g : α → β)
    (l : List α) (a0 : α) (hfind : l.find? p = some a0) (hg : g (f a0) = g a0) :
    (updateFirst p f l).map g = l.map g := by
  induction l with
  | nil => rfl
  | cons a l ih =>
    by_cases h : p a = true
    · simp only [List.find?, h] at hfind
      cases hfind
      simp only [updateFirst, h, if_true, List.map_cons, hg]
    · have h2 : p a = false := by simpa using h
      simp only [List.find?, h2] at hfind
      simp only [updateFirst, h2, Bool.false_eq_true, if_false, List.map_cons, ih hfind]

theorem find?_updateFirst_of_find {α : Type} (p : α → Bool) (f : α → α)
    (l : List α) (a0 : α) (hfind : l.find? p = some a0) (hp : p (f a0) = true) :
    (updateFirst p f l).find? p = some (f a0) := by
  induction l with
  | nil => cases hfind
  | cons a l ih =>
    by_cases h : p a = true
    · simp only [List.find?, h] at hfind
      cases hfind
      simp only [updateFirst, h, if_true, List.find?, hp]
    · have h2 : p a = false := by simpa using h
      simp only [List.find?, h2] at hfind
      simp only [updateFirst, h2, Bool.false_eq_true, if_false, List.find?, ih hfind]

theorem find?_username {users : List User} {name : String} {u : User}
    (h : users.find? (fun x => decide (x.username = name)) = some u) : u.username = name := by
  have := List.find?_some h
  simpa using this

theorem canEquipTitle_fresh (users : List User) (u : User) :
    canEquipTitle users (some u) "fresh" = true := by
  simp [canEquipTitle]


theorem equipTitle_checkpoint (env : Env) (username : String) (t : Title) (st : Store)
    (freshUser : User)
    (hfind : st.users.find? (fun x => decide (x.username = username)) = some freshUser)
    (hcan : canEquipTitle st.users (some freshUser) t.id = true) :
    ∃ u', (equipTitle env username t st).users.find? (fun x => decide (x.username = username))
        = some u' ∧
      (u'.equippedTitle = some t.id ∨ u'.equippedTitle = some "fresh") ∧
      canEquipTitle (equipTitle env username t st).users (some u')
        (strOr u'.equippedTitle "fresh") = true := by
  have hname := find?_username hfind
  by_cases heq : freshUser.equippedTitle = some t.id
  · have hst : (equipTitle env username t st).users
        = updateFirst (fun x => decide (x.username = username))
            (fun u => { u with equippedTitle := some "fresh" }) st.users := by
      simp only [equipTitle, hfind, hcan, heq, Bool.not_true, Bool.false_eq_true, if_false,
        if_true, addAudit_users]
    rw [hst]
    refine ⟨{ freshUser with equippedTitle := some "fresh" }, ?_, Or.inr rfl, ?_⟩
    · exact find?_updateFirst_of_find _ _ _ _ hfind (by simpa using hname)
    · exact canEquipTitle_fresh _ _
  · have hst : (equipTitle env username t st).users
        = updateFirst (fun x => decide (x.username = username))
            (fun u => { u with equippedTitle := some t.id }) st.users := by
      simp only [equipTitle, hfind, hcan, heq, Bool.not_true, Bool.false_eq_true, if_false,
        addAudit_users]
    rw [hst]
    refine ⟨{ freshUser with equippedTitle := some t.id }, ?_, Or.inl rfl, ?_⟩
    · exact find?_updateFirst_of_find _ _ _ _ hfind (by simpa using hname)
    · have hmap := map_updateFirst_of_find (fun x : User => decide (x.username = username))
        (fun u => { u with equippedTitle := some t.id })
        (fun u : User => (u.username, u.points)) st.users freshUser hfind rfl
      by_cases hid : t.id = ""
      · simp only [strOr, hid, if_true]
        exact canEquipTitle_fresh _ _
      · simp only [strOr, hid, if_false]
        rw [canEquipTitle_congr st.users _ freshUser { freshUser with equippedTitle := some t.id }
          hmap.symm rfl rfl]
        exact hcan

theorem saveProfile_checkpoint (env : Env) (username bio : String) (showCountry : Bool)
    (pending : Option String) (st : Store) (u0 : User)
    (hfind : st.users.find? (fun x => decide (x.username = username)) = some u0) :
    ∃ u', (saveProfile env username bio showCountry pending st).users.find?
        (fun x => decide (x.username = username)) = some u' ∧
      canEquipTitle (saveProfile env username bio showCountry pending st).users (some u')
        (strOr u'.equippedTitle "fresh") = true := by
  have hname := find?_username hfind
  by_cases hcan : canEquipTitle st.users (some (editedProfile u0 bio showCountry pending))
      (strOr (editedProfile u0 bio showCountry pending).equippedTitle "fresh") = true
  · have hst : (saveProfile env username bio showCountry pending st).users
        = updateFirst (fun x => decide (x.username = username))
            (fun _ => editedProfile u0 bio showCountry pending) st.users := by
      simp only [saveProfile, hfind, hcan, Bool.not_true, Bool.false_eq_true, if_false,
        addAudit_users]
    rw [hst]
    refine ⟨_, find?_updateFirst_of_find _ _ _ _ hfind (by simpa [editedProfile] using hname), ?_⟩
    have hmap := map_updateFirst_of_find (fun x : User => decide (x.username = username))
      (fun _ => editedProfile u0 bio showCountry pending)
      (fun u : User => (u.username, u.points)) st.users u0 hfind rfl
    rw [canEquipTitle_congr st.users _ (editedProfile u0 bio showCountry pending) _
      hmap.symm rfl rfl]
    exact hcan
  · have hcan2 : canEquipTitle st.users (some (editedProfile u0 bio showCountry pending))
        (strOr (editedProfile u0 bio showCountry pending).equippedTitle "fresh") = false := by
      simpa using hcan
    have hst : (saveProfile env username bio showCountry pending st).users
        = updateFirst (fun x => decide (x.username = username))
            (fun _ => { editedProfile u0 bio showCountry pending with
                        equippedTitle := some "fresh" }) st.users := by
      simp only [saveProfile, hfind, hcan2, Bool.not_false, if_true, addAudit_users]
    rw [hst]
    refine ⟨_, find?_updateFirst_of_find _ _ _ _ hfind (by simpa [editedProfile] using hname), ?_⟩
    exact canEquipTitle_fresh _ _


/-- C6 (counterexample): from the seeded store, the head admin equips `top1`
while eligible; after bob's completion is approved bob has 100 points, and the
head admin's stored title is still `top1`, fails `canEquipTitle`, and is the
label the top bar shows. -/
theorem stale_top1_still_displayed :
    canEquipTitle (run (overtakeOps.take 1) seededStore).users
      ((run (overtakeOps.take 1) seededStore).users.find?
        (fun u => decide (u.username = "zmmieh."))) "top1" = true ∧
    (run overtakeOps seededStore).users.map (fun u => (u.username, u.points, u.equippedTitle))
      = [("zmmieh.", some 0, some "top1"), ("bob", some 100, some "fresh")] ∧
    canEquipTitle (run overtakeOps seededStore).users
      ((run overtakeOps seededStore).users.find?
        (fun u => decide (u.username = "zmmieh."))) "top1" = false ∧
    topbarTitleLabel (some "zmmieh.") (run overtakeOps seededStore).users
      = some "Yes I'm him, the Top 1" := by
  decide

/-- C6 (amended): the stored title is validated at two checkpoints only.  For
a stored user, an equip click on a title the user is eligible for leaves the
user with that title or `fresh`, and a profile save leaves the user with a
title (`equippedTitle || 'fresh'`), that satisfies `canEquipTitle` against the
users collection just saved. -/
theorem equippedTitle_valid_at_checkpoints (env : Env) (username : String) (st : Store)
    (u0 : User)
    (hfind : st.users.find? (fun x => decide (x.username = username)) = some u0) :
    (∀ t : Title, canEquipTitle st.users (some u0) t.id = true →
      ∃ u', (equipTitle env username t st).users.find? (fun x => decide (x.username = username))
          = some u' ∧
        (u'.equippedTitle = some t.id ∨ u'.equippedTitle = some "fresh") ∧
        canEquipTitle (equipTitle env username t st).users (some u')
          (strOr u'.equippedTitle "fresh") = true) ∧
    (∀ (bio : String) (showCountry : Bool) (pending : Option String),
      ∃ u', (saveProfile env username bio showCountry pending st).users.find?
          (fun x => decide (x.username = username)) = some u' ∧
        canEquipTitle (saveProfile env username bio showCountry pending st).users (some u')
          (strOr u'.equippedTitle "fresh") = true) :=
  ⟨fun t hcan => equipTitle_checkpoint env username t st u0 hfind hcan,
   fun bio showCountry pending =>
     saveProfile_checkpoint env username bio showCountry pending st u0 hfind⟩

/-- Witness of C6 (amended): the head admin equips `top1` while first, and,
once overtaken by bob, saves the profile. -/
theorem equippedTitle_valid_at_checkpoints_witness :
    (∃ u', (equipTitle modEnv "zmmieh." top1Title
          (run (overtakeOps.take 1) seededStore)).users.find?
          (fun x => decide (x.username = "zmmieh.")) = some u' ∧
        (u'.equippedTitle = some "top1" ∨ u'.equippedTitle = some "fresh") ∧
        canEquipTitle (equipTitle modEnv "zmmieh." top1Title
            (run (overtakeOps.take 1) seededStore)).users (some u')
          (strOr u'.equippedTitle "fresh") = true) ∧
    (∃ u', (saveProfile modEnv "zmmieh." "hello" true none
          (run overtakeOps seededStore)).users.find?
          (fun x => decide (x.username = "zmmieh.")) = some u' ∧
        canEquipTitle (saveProfile modEnv "zmmieh." "hello" true none
            (run overtakeOps seededStore)).users (some u')
          (strOr u'.equippedTitle "fresh") = true) :=
  ⟨(equippedTitle_valid_at_checkpoints modEnv "zmmieh." (run (overtakeOps.take 1) seededStore)
      { id := "h0", username := "zmmieh.", password := "123456", role := "headadmin",
        nationality := "United Kingdom", points := some 0, createdAt := 1000, profilePic := "",
        showCountry := true, bio := "", completedRecords := some [],
        equippedTitle := some "fresh", bannedUntil := none, banReason := none,
        bannedBy := none, bannedAt := none }
      (by decide)).1 top1Title (by decide),
   (equippedTitle_valid_at_checkpoints modEnv "zmmieh." (run overtakeOps seededStore)
      { id := "h0", username := "zmmieh.", password := "123456", role := "headadmin",
        nationality := "United Kingdom", points := some 0, createdAt := 1000, profilePic := "",
        showCountry := true, bio := "", completedRecords := some [],
        equippedTitle := some "top1", bannedUntil := none, banReason := none,
        bannedBy := none, bannedAt := none }
      (by decide)).2 "hello" true none⟩

/-! ## Points ladder -/

theorem numOr_zero_ge_iff (x : Option Int) (th : Int) (hth : 0 < th) :
    th ≤ numOr x 0 ↔ ∃ v, x = some v ∧ th ≤ v := by
  cases x with
  | none => simp only [numOr]; constructor
            · intro h; omega
            · rintro ⟨v, hv, -⟩; cases hv
  | some w =>
    simp only [numOr]
    by_cases hw : w = 0
    · simp only [hw, if_true]
      constructor
      · intro h; omega
      · rintro ⟨v, hv, h⟩
        cases hv; omega
    · simp only [hw, if_false]
      constructor
      · intro h; exact ⟨w, rfl, h⟩
      · rintro ⟨v, hv, h⟩
        cases hv; exact h

/-- C11: for the five points titles `canEquipTitle` holds exactly when the
user's points (a missing value counted as 0) reach the threshold 100, 300, 500,
1000, 3000; hence eligibility for a title gives eligibility for every title
with a lower threshold. -/
theorem canEquipTitle_points_ladder (users : List User) (u : User) :
    (canEquipTitle users (some u) "maybe_him" = true ↔ ∃ v, u.points = some v ∧ 100 ≤ v) ∧
    (canEquipTitle users (some u) "let_me_cook" = true ↔ ∃ v, u.points = some v ∧ 300 ≤ v) ∧
    (canEquipTitle users (some u) "just_better" = true ↔ ∃ v, u.points = some v ∧ 500 ≤ v) ∧
    (canEquipTitle users (some u) "god_like" = true ↔ ∃ v, u.points = some v ∧ 1000 ≤ v) ∧
    (canEquipTitle users (some u) "fart" = true ↔ ∃ v, u.points = some v ∧ 3000 ≤ v) ∧
    (canEquipTitle users (some u) "fart" = true →
      canEquipTitle users (some u) "god_like" = true) ∧
    (canEquipTitle users (some u) "god_like" = true →
      canEquipTitle users (some u) "just_better" = true) ∧
    (canEquipTitle users (some u) "just_better" = true →
      canEquipTitle users (some u) "let_me_cook" = true) ∧
    (canEquipTitle users (some u) "let_me_cook" = true →
      canEquipTitle users (some u) "maybe_him" = true) ∧
    (canEquipTitle users (some u) "god_like" = true →
      canEquipTitle users (some u) "maybe_him" = true ∧
      canEquipTitle users (some u) "let_me_cook" = true ∧
      canEquipTitle users (some u) "just_better" = true) := by
  have h1 : canEquipTitle users (some u) "maybe_him" = decide (100 ≤ numOr u.points 0) := by
    simp [canEquipTitle]
  have h2 : canEquipTitle users (some u) "let_me_cook" = decide (300 ≤ numOr u.points 0) := by
    simp [canEquipTitle]
  have h3 : canEquipTitle users (some u) "just_better" = decide (500 ≤ numOr u.points 0) := by
    simp [canEquipTitle]
  have h4 : canEquipTitle users (some u) "god_like" = decide (1000 ≤ numOr u.points 0) := by
    simp [canEquipTitle]
  have h5 : canEquipTitle users (some u) "fart" = decide (3000 ≤ numOr u.points 0) := by
    simp [canEquipTitle]
  rw [h1, h2, h3, h4, h5]
  simp only [decide_eq_true_eq]
  refine ⟨numOr_zero_ge_iff _ _ (by decide), numOr_zero_ge_iff _ _ (by decide),
    numOr_zero_ge_iff _ _ (by decide), numOr_zero_ge_iff _ _ (by decide),
    numOr_zero_ge_iff _ _ (by decide), ?_, ?_, ?_, ?_, ?_⟩
  · intro h; omega
  · intro h; omega
  · intro h; omega
  · intro h; omega
  · intro h; exact ⟨by omega, by omega, by omega⟩

/-- Witness of C11: cid has 300 points. -/
theorem canEquipTitle_points_ladder_witness :
    canEquipTitle usersBoard (some (mkUser "cid" (some 300) [] (some "top1"))) "maybe_him"
      = true :=
  (canEquipTitle_points_ladder usersBoard
    (mkUser "cid" (some 300) [] (some "top1"))).2.2.2.2.2.2.2.2.1 (by decide)

/-! ## Effect of a mutation of the found object -/

theorem updateFirst_of_findIndex_none {α : Type} (p : α → Bool) (f : α → α) (l : List α)
    (h : findIndex p l = none) : updateFirst p f l = l := by
  induction l with
  | nil => rfl
  | cons a l ih =>
    unfold findIndex at h
    by_cases hp : p a = true
    · simp [hp] at h
    · have hp2 : p a = false := by simpa using hp
      simp only [hp2, Bool.false_eq_true, if_false, Option.map_eq_none'] at h
      simp only [updateFirst, hp2, Bool.false_eq_true, if_false, ih h]

theorem length_updateFirst {α : Type} (p : α → Bool) (f : α → α) (l : List α) :
    (updateFirst p f l).length = l.length := by
  induction l with
  | nil => rfl
  | cons a l ih =>
    unfold updateFirst
    split
    · rfl
    · simp only [List.length_cons, ih]

/-- The object returned by `find` sits at the index returned by `findIndex`. -/
theorem find?_eq_some_findIndex {α : Type} (p : α → Bool) (l : List α) (a : α)
    (h : l.find? p = some a) :
    ∃ i, findIndex p l = some i ∧ l[i]? = some a ∧ ∀ j, j < i → ∀ b, l[j]? = some b → p b = false := by
  induction l with
  | nil => cases h
  | cons b l ih =>
    by_cases hp : p b = true
    · simp only [List.find?, hp] at h
      cases h
      refine ⟨0, by simp [findIndex, hp], by simp, ?_⟩
      intro j hj; omega
    · have hp2 : p b = false := by simpa using hp
      simp only [List.find?, hp2] at h
      obtain ⟨i, hi, hget, hbefore⟩ := ih h
      refine ⟨i + 1, by simp [findIndex, hp2, hi], by simpa using hget, ?_⟩
      intro j hj c hc
      cases j with
      | zero =>
        simp only [List.getElem?_cons_zero, Option.some.injEq] at hc
        rw [← hc]; exact hp2
      | succ k =>
        simp only [List.getElem?_cons_succ] at hc
        exact hbefore k (by omega) c hc

/-- Only the entry at the index of the found object changes. -/
theorem updateFirst_getElem? {α : Type} (p : α → Bool) (f : α → α) (l : List α) (i : Nat)
    (h : findIndex p l = some i) (j : Nat) :
    (updateFirst p f l)[j]? = if j = i then (l[i]?).map f else l[j]? := by
  induction l generalizing i j with
  | nil => simp [findIndex] at h
  | cons a l ih =>
    unfold findIndex at h
    by_cases hp : p a = true
    · simp only [hp, if_true, Option.some.injEq] at h
      subst h
      simp only [updateFirst, hp, if_true]
      cases j with
      | zero => simp
      | succ k => simp
    · have hp2 : p a = false := by simpa using hp
      simp only [hp2, Bool.false_eq_true, if_false] at h
      cases hf : findIndex p l with
      | none => rw [hf] at h; cases h
      | some i0 =>
        rw [hf] at h
        simp only [Option.map_some', Option.some.injEq] at h
        subst h
        simp only [updateFirst, hp2, Bool.false_eq_true, if_false]
        cases j with
        | zero => simp
        | succ k =>
          simp only [List.getElem?_cons_succ, ih i0 hf k, Nat.add_right_cancel_iff]

/-! ## The equip click -/

theorem equipTitle_users_of_can (env : Env) (username : String) (t : Title) (st : Store)
    (freshUser : User)
    (hfind : st.users.find? (fun x => decide (x.username = username)) = some freshUser)
    (hcan : canEquipTitle st.users (some freshUser) t.id = true) :
    (equipTitle env username t st).users
      = updateFirst (fun x => decide (x.username = username))
          (fun u => { u with
            equippedTitle := some (if freshUser.equippedTitle = some t.id then "fresh" else t.id) })
          st.users ∧
    (equipTitle env username t st).levels = st.levels ∧
    (equipTitle env username t st).subs = st.subs := by
  by_cases heq : freshUser.equippedTitle = some t.id
  · simp only [equipTitle, hfind, hcan, heq, Bool.not_true, Bool.false_eq_true, if_false,
      if_true, addAudit_users, addAudit_levels, addAudit_subs, and_self]
  · simp only [equipTitle, hfind, hcan, heq, Bool.not_true, Bool.false_eq_true, if_false,
      addAudit_users, addAudit_levels, addAudit_subs, and_self]

/-- C12: the equip click on title `t` for a stored user checks `canEquipTitle`
on the freshly loaded record.  When it fails, the store is the former store with
an `attempt_invalid_equip` event added, the users collection unchanged.  When
it holds, the record of the user (the one at the index found) gets
`equippedTitle` `'fresh'` if it was `t` and `t` otherwise, every other field and
every other entry of the users collection being as before. -/
theorem equipTitle_spec (env : Env) (username : String) (t : Title) (st : Store)
    (freshUser : User)
    (hfind : st.users.find? (fun x => decide (x.username = username)) = some freshUser) :
    (canEquipTitle st.users (some freshUser) t.id = false →
      equipTitle env username t st
        = addAudit { id := env.uid 0, action := "attempt_invalid_equip",
                     actor := some freshUser.username, target := some freshUser.username,
                     details := [("attemptedTitle", .str t.id)], ts := env.now 0 } st ∧
      (equipTitle env username t st).users = st.users) ∧
    (canEquipTitle st.users (some freshUser) t.id = true →
      ∃ i, findIndex (fun x => decide (x.username = username)) st.users = some i ∧
        st.users[i]? = some freshUser ∧
        (equipTitle env username t st).users.length = st.users.length ∧
        (∀ j, (equipTitle env username t st).users[j]?
          = if j = i then
              some { freshUser with
                equippedTitle :=
                  some (if freshUser.equippedTitle = some t.id then "fresh" else t.id) }
            else st.users[j]?) ∧
        (equipTitle env username t st).levels = st.levels ∧
        (equipTitle env username t st).subs = st.subs) := by
  constructor
  · intro hcan
    have h : equipTitle env username t st
        = addAudit { id := env.uid 0, action := "attempt_invalid_equip",
                     actor := some freshUser.username, target := some freshUser.username,
                     details := [("attemptedTitle", .str t.id)], ts := env.now 0 } st := by
      simp only [equipTitle, hfind, hcan, Bool.not_false, if_true]
    exact ⟨h, by rw [h, addAudit_users]⟩
  · intro hcan
    obtain ⟨i, hi, hget, -⟩ := find?_eq_some_findIndex _ _ _ hfind
    obtain ⟨hu, hl, hs⟩ := equipTitle_users_of_can env username t st freshUser hfind hcan
    refine ⟨i, hi, hget, ?_, ?_, hl, hs⟩
    · rw [hu, length_updateFirst]
    · intro j
      rw [hu, updateFirst_getElem? _ _ _ i hi j, hget]
      rfl

/-- Witness of C12: in the sample leaderboard cid, first and wearing `top1`,
clicks `top1` again, and bob, fourth, clicks `top1`. -/
theorem equipTitle_spec_witness :
    (∃ i, findIndex (fun x => decide (x.username = "cid")) usersBoard = some i ∧
        usersBoard[i]? = some (mkUser "cid" (some 300) [] (some "top1")) ∧
        (equipTitle modEnv "cid" top1Title ⟨usersBoard, [], [], []⟩).users.length
          = usersBoard.length ∧
        (∀ j, (equipTitle modEnv "cid" top1Title ⟨usersBoard, [], [], []⟩).users[j]?
          = if j = i then some (mkUser "cid" (some 300) [] (some "fresh"))
            else usersBoard[j]?) ∧
        (equipTitle modEnv "cid" top1Title ⟨usersBoard, [], [], []⟩).levels = [] ∧
        (equipTitle modEnv "cid" top1Title ⟨usersBoard, [], [], []⟩).subs = []) ∧
    (equipTitle modEnv "bob" top1Title ⟨usersBoard, [], [], []⟩).users = usersBoard :=
  ⟨(equipTitle_spec modEnv "cid" top1Title ⟨usersBoard, [], [], []⟩
      (mkUser "cid" (some 300) [] (some "top1")) (by decide)).2 (by decide),
   ((equipTitle_spec modEnv "bob" top1Title ⟨usersBoard, [], [], []⟩
      (mkUser "bob" none [] (some "top1")) (by decide)).1 (by decide)).2⟩

/-! ## The profile save -/

theorem addAudit_audit (e : AuditEvent) (st : Store) :
    (addAudit e st).audit = (e :: st.audit).take 300 := by
  simp only [addAudit]
  split
  · rfl
  · rename_i h
    rw [List.take_of_length_le (by omega)]

theorem addAudit_audit_zero (e : AuditEvent) (st : Store) :
    (addAudit e st).audit[0]? = some e := by
  rw [addAudit_audit, List.getElem?_take, if_pos (by decide)]
  simp

theorem addAudit_audit_succ (e : AuditEvent) (st : Store) (k : Nat) (hk : k + 1 < 300) :
    (addAudit e st).audit[k + 1]? = st.audit[k]? := by
  rw [addAudit_audit, List.getElem?_take, if_pos hk]
  simp

theorem mem_addAudit_audit (e ev : AuditEvent) (st : Store)
    (h : ev ∈ (addAudit e st).audit) : ev = e ∨ ev ∈ st.audit := by
  rw [addAudit_audit] at h
  exact List.mem_cons.mp (List.mem_of_mem_take h)

/-- The title check of the save handler reads the user through username and
points only. -/
theorem canEquipTitle_editedProfile (users : List User) (u0 : User) (bio : String)
    (showCountry : Bool) (pending : Option String) (t : String) :
    canEquipTitle users (some (editedProfile u0 bio showCountry pending)) t
      = canEquipTitle users (some u0) t :=
  canEquipTitle_congr users users u0 (editedProfile u0 bio showCountry pending) rfl rfl rfl t

theorem saveProfile_of_can (env : Env) (username bio : String) (showCountry : Bool)
    (pending : Option String) (st : Store) (u0 : User)
    (hfind : st.users.find? (fun x => decide (x.username = username)) = some u0)
    (hcan : canEquipTitle st.users (some u0) (strOr u0.equippedTitle "fresh") = true) :
    saveProfile env username bio showCountry pending st
      = addAudit { id := env.uid 1, action := "edit_profile", actor := some username,
                   target := some username, details := [("showCountry", .flag showCountry)],
                   ts := env.now 1 }
          { st with users := updateFirst (fun x => decide (x.username = username))
                               (fun _ => editedProfile u0 bio showCountry pending) st.users } := by
  have h1 : canEquipTitle st.users (some (editedProfile u0 bio showCountry pending))
      (strOr (editedProfile u0 bio showCountry pending).equippedTitle "fresh") = true := by
    rw [canEquipTitle_editedProfile]; exact hcan
  simp only [saveProfile, hfind, h1, Bool.not_true, Bool.false_eq_true, if_false]

theorem saveProfile_of_not (env : Env) (username bio : String) (showCountry : Bool)
    (pending : Option String) (st : Store) (u0 : User)
    (hfind : st.users.find? (fun x => decide (x.username = username)) = some u0)
    (hcan : canEquipTitle st.users (some u0) (strOr u0.equippedTitle "fresh") = false) :
    saveProfile env username bio showCountry pending st
      = addAudit { id := env.uid 1, action := "edit_profile", actor := some username,
                   target := some username, details := [("showCountry", .flag showCountry)],
                   ts := env.now 1 }
          { (addAudit { id := env.uid 0, action := "invalid_equipped_title_reset",
                        actor := some username, target := some username,
                        details := [("attempted", .str (strOr u0.equippedTitle "fresh"))],
                        ts := env.now 0 } st) with
            users := updateFirst (fun x => decide (x.username = username))
                       (fun _ => { editedProfile u0 bio showCountry pending with
                                   equippedTitle := some "fresh" }) st.users } := by
  have h1 : canEquipTitle st.users (some (editedProfile u0 bio showCountry pending))
      (strOr (editedProfile u0 bio showCountry pending).equippedTitle "fresh") = false := by
    rw [canEquipTitle_editedProfile]; exact hcan
  simp only [saveProfile, hfind, h1, Bool.not_false, if_true]
  rfl

/-- C13: a profile save of a stored user.  A stored title (a non-empty
`equippedTitle`) that fails `canEquipTitle` is replaced by `'fresh'` and an
`invalid_equipped_title_reset` event naming it is recorded under the
`edit_profile` event; an eligible stored title is kept and no reset event is
added; in both cases the title written satisfies `canEquipTitle` against the
users collection saved.  A missing or empty `equippedTitle` is read as `'fresh'`
(`equippedTitle || 'fresh'`) and left as it is.  The free title is always
eligible. -/
theorem saveProfile_title_spec (env : Env) (username bio : String) (showCountry : Bool)
    (pending : Option String) (st : Store) (u0 : User)
    (hfind : st.users.find? (fun x => decide (x.username = username)) = some u0) :
    (∀ e, u0.equippedTitle = some e → e ≠ "" →
      (canEquipTitle st.users (some u0) e = false →
        ∃ u', (saveProfile env username bio showCountry pending st).users.find?
            (fun x => decide (x.username = username)) = some u' ∧
          u'.equippedTitle = some "fresh" ∧
          (saveProfile env username bio showCountry pending st).audit[1]?
            = some { id := env.uid 0, action := "invalid_equipped_title_reset",
                     actor := some username, target := some username,
                     details := [("attempted", .str e)], ts := env.now 0 } ∧
          canEquipTitle (saveProfile env username bio showCountry pending st).users
            (some u') "fresh" = true) ∧
      (canEquipTitle st.users (some u0) e = true →
        ∃ u', (saveProfile env username bio showCountry pending st).users.find?
            (fun x => decide (x.username = username)) = some u' ∧
          u'.equippedTitle = some e ∧
          (∀ ev ∈ (saveProfile env username bio showCountry pending st).audit,
            ev.action = "invalid_equipped_title_reset" → ev ∈ st.audit) ∧
          canEquipTitle (saveProfile env username bio showCountry pending st).users
            (some u') e = true)) ∧
    ((u0.equippedTitle = none ∨ u0.equippedTitle = some "") →
      ∃ u', (saveProfile env username bio showCountry pending st).users.find?
          (fun x => decide (x.username = username)) = some u' ∧
        u'.equippedTitle = u0.equippedTitle ∧
        canEquipTitle (saveProfile env username bio showCountry pending st).users (some u')
          (strOr u'.equippedTitle "fresh") = true) ∧
    (∀ (users : List User) (u : User), canEquipTitle users (some u) "fresh" = true) := by
  have hname := find?_username hfind
  have hp : (fun x : User => decide (x.username = username))
      (editedProfile u0 bio showCountry pending) = true := by
    simpa [editedProfile] using hname
  have hmap := map_updateFirst_of_find (fun x : User => decide (x.username = username))
    (fun _ => editedProfile u0 bio showCountry pending)
    (fun u : User => (u.username, u.points)) st.users u0 hfind rfl
  have hkeep : ∀ t : String, canEquipTitle st.users (some u0) (strOr u0.equippedTitle "fresh") = true →
      canEquipTitle st.users (some u0) t = true →
      ∃ u', (saveProfile env username bio showCountry pending st).users.find?
          (fun x => decide (x.username = username)) = some u' ∧
        u'.equippedTitle = u0.equippedTitle ∧
        (∀ ev ∈ (saveProfile env username bio showCountry pending st).audit,
          ev.action = "invalid_equipped_title_reset" → ev ∈ st.audit) ∧
        canEquipTitle (saveProfile env username bio showCountry pending st).users
          (some u') t = true := by
    intro t hcan ht
    have hsave := saveProfile_of_can env username bio showCountry pending st u0 hfind hcan
    rw [hsave]
    refine ⟨editedProfile u0 bio showCountry pending, ?_, rfl, ?_, ?_⟩
    · rw [addAudit_users]
      exact find?_updateFirst_of_find _ _ _ _ hfind hp
    · intro ev hev hact
      rcases mem_addAudit_audit _ _ _ hev with h | h
      · rw [h] at hact
        have hne : ¬ ("edit_profile" = "invalid_equipped_title_reset") := by decide
        exact absurd hact hne
      · exact h
    · rw [addAudit_users]
      show canEquipTitle (updateFirst _ _ st.users) _ t = true
      rw [canEquipTitle_congr st.users _ u0 (editedProfile u0 bio showCountry pending)
        hmap.symm rfl rfl]
      exact ht
  refine ⟨?_, ?_, canEquipTitle_fresh⟩
  · intro e he hne
    have hstr : strOr u0.equippedTitle "fresh" = e := by
      rw [he]; simp only [strOr, hne, if_false]
    constructor
    · intro hcan
      have hsave := saveProfile_of_not env username bio showCountry pending st u0 hfind
        (by rw [hstr]; exact hcan)
      rw [hsave]
      refine ⟨{ editedProfile u0 bio showCountry pending with equippedTitle := some "fresh" },
        ?_, rfl, ?_, canEquipTitle_fresh _ _⟩
      · rw [addAudit_users]
        exact find?_updateFirst_of_find _ _ _ _ hfind hp
      · rw [addAudit_audit_succ _ _ 0 (by decide)]
        show (addAudit _ st).audit[0]? = _
        rw [addAudit_audit_zero, hstr]
    · intro hcan
      obtain ⟨u', h1, h2, h3, h4⟩ := hkeep e (by rw [hstr]; exact hcan) hcan
      exact ⟨u', h1, by rw [h2, he], h3, h4⟩
  · intro hfalsy
    have hstr : strOr u0.equippedTitle "fresh" = "fresh" := by
      rcases hfalsy with h | h <;> rw [h] <;> rfl
    obtain ⟨u', h1, h2, -, h4⟩ := hkeep "fresh" (by rw [hstr]; exact canEquipTitle_fresh _ _)
      (canEquipTitle_fresh _ _)
    refine ⟨u', h1, h2, ?_⟩
    rw [h2, hstr]; exact h4

/-- Witness of C13: the head admin, overtaken by bob while wearing `top1`,
saves the profile; bob, first with the free title, saves the profile. -/
theorem saveProfile_title_spec_witness :
    (∃ u', (saveProfile modEnv "zmmieh." "hello" true none
          (run overtakeOps seededStore)).users.find?
          (fun x => decide (x.username = "zmmieh.")) = some u' ∧
        u'.equippedTitle = some "fresh" ∧
        (saveProfile modEnv "zmmieh." "hello" true none
          (run overtakeOps seededStore)).audit[1]?
          = some { id := "m0", action := "invalid_equipped_title_reset",
                   actor := some "zmmieh.", target := some "zmmieh.",
                   details := [("attempted", .str "top1")], ts := 5000 } ∧
        canEquipTitle (saveProfile modEnv "zmmieh." "hello" true none
          (run overtakeOps seededStore)).users (some u') "fresh" = true) ∧
    (∃ u', (saveProfile modEnv "bob" "hi" false none
          (run overtakeOps seededStore)).users.find?
          (fun x => decide (x.username = "bob")) = some u' ∧
        u'.equippedTitle = some "fresh" ∧
        (∀ ev ∈ (saveProfile modEnv "bob" "hi" false none
            (run overtakeOps seededStore)).audit,
          ev.action = "invalid_equipped_title_reset" →
            ev ∈ (run overtakeOps seededStore).audit) ∧
        canEquipTitle (saveProfile modEnv "bob" "hi" false none
          (run overtakeOps seededStore)).users (some u') "fresh" = true) :=
  ⟨((saveProfile_title_spec modEnv "zmmieh." "hello" true none (run overtakeOps seededStore)
      { id := "h0", username := "zmmieh.", password := "123456", role := "headadmin",
        nationality := "United Kingdom", points := some 0, createdAt := 1000, profilePic := "",
        showCountry := true, bio := "", completedRecords := some [],
        equippedTitle := some "top1", bannedUntil := none, banReason := none,
        bannedBy := none, bannedAt := none }
      (by decide)).1 "top1" rfl (by decide)).1 (by decide),
   ((saveProfile_title_spec modEnv "bob" "hi" false none (run overtakeOps seededStore)
      ((run overtakeOps seededStore).users.getLast (by decide))
      (by decide)).1 "fresh" (by decide) (by decide)).2 (by decide)⟩

/-! ## Approval of a new completion -/

theorem creditUser_of_new (env : Env) (s : Submission) (level : Level) (pts : Int) (user : User)
    (hnew : ∀ r ∈ user.completedRecords.getD [],
      ¬ (r.levelId = s.levelRef ∧ r.youtube = s.youtube)) :
    creditUser env s level pts user
      = { user with
          points := some (numOr user.points 0 + pts),
          completedRecords :=
            some (user.completedRecords.getD [] ++ [completionOf env s level pts]) } := by
  have hnone : (user.completedRecords.getD []).find?
      (fun r => decide (r.levelId = s.levelRef) && decide (r.youtube = s.youtube)) = none := by
    rw [List.find?_eq_none]
    intro r hr
    simpa using hnew r hr
  simp only [creditUser, hnone, Option.isSome_none, Bool.false_eq_true, if_false]

/-- C14: a completion submission whose level and submitter exist and whose
level reference and link are not yet in the submitter's history is approved:
the call returns; the submitter's record (the one at the index found) gets one
record appended at the end of the history, with the submission's level
reference and link and the awarded amount as `awardedPoints`, and the points
raised by that amount; every other entry of the users collection and the levels
collection are as before; the submissions with that id are removed. -/
theorem approveSubmission_new_completion (env : Env) (id : String) (st : Store)
    (s : Submission) (level : Level) (user : User)
    (hs : st.subs.find? (fun x => decide (x.id = id)) = some s)
    (ht : s.type = "completion")
    (hl : st.levels.find? (fun l => decide (some l.id = s.levelRef)) = some level)
    (hu : st.users.find? (fun u => decide (u.username = s.submitter)) = some user)
    (hnew : ∀ r ∈ user.completedRecords.getD [],
      ¬ (r.levelId = s.levelRef ∧ r.youtube = s.youtube)) :
    ∃ st' i r, approveSubmission env id st = .ok st' ∧
      findIndex (fun u => decide (u.username = s.submitter)) st.users = some i ∧
      st.users[i]? = some user ∧
      r.levelId = s.levelRef ∧ r.youtube = s.youtube ∧
      r.awardedPoints = some (awardFor level) ∧
      st'.users.length = st.users.length ∧
      (∀ j, st'.users[j]?
        = if j = i then
            some { user with
                   points := some (numOr user.points 0 + awardFor level),
                   completedRecords := some (user.completedRecords.getD [] ++ [r]) }
          else st.users[j]?) ∧
      st'.levels = st.levels ∧
      st'.subs = st.subs.filter (fun x => decide (x.id ≠ id)) ∧
      (∀ x ∈ st'.subs, x.id ≠ id) := by
  have hok := approveSubmission_completion env id st s level user hs ht hl hu
  obtain ⟨i, hi, hget, -⟩ := find?_eq_some_findIndex _ _ _ hu
  refine ⟨_, i, completionOf env s level (awardFor level), hok, hi, hget, rfl, rfl, rfl,
    ?_, ?_, rfl, rfl, ?_⟩
  · show (updateFirst _ _ st.users).length = _
    rw [length_updateFirst]
  · intro j
    show (updateFirst _ _ st.users)[j]? = _
    rw [updateFirst_getElem? _ _ _ i hi j, hget, Option.map_some',
      creditUser_of_new env s level _ user hnew]
  · intro x hx
    have hx2 : x ∈ st.subs.filter (fun x => decide (x.id ≠ id)) := hx
    rw [List.mem_filter] at hx2
    simpa using hx2.2

/-- Witness of C14: alice's first completion of the level at placement 2. -/
theorem approveSubmission_new_completion_witness :
    ∃ st' i r, approveSubmission modEnv "s1" storeTwice = .ok st' ∧
      findIndex (fun u => decide (u.username = "alice")) storeTwice.users = some i ∧
      storeTwice.users[i]? = some (mkUser "alice" (some 0) [] (some "fresh")) ∧
      r.levelId = some "L2" ∧ r.youtube = "https://youtu.be/run" ∧
      r.awardedPoints = some (awardFor (mkLevel "L2" 2)) ∧
      st'.users.length = storeTwice.users.length ∧
      (∀ j, st'.users[j]?
        = if j = i then
            some { mkUser "alice" (some 0) [] (some "fresh") with
                   points := some (0 + awardFor (mkLevel "L2" 2)),
                   completedRecords := some ([] ++ [r]) }
          else storeTwice.users[j]?) ∧
      st'.levels = storeTwice.levels ∧
      st'.subs = storeTwice.subs.filter (fun x => decide (x.id ≠ "s1")) ∧
      (∀ x ∈ st'.subs, x.id ≠ "s1") :=
  approveSubmission_new_completion modEnv "s1" storeTwice
    (mkCompletionSub "s1" "L2" "https://youtu.be/run" "alice") (mkLevel "L2" 2)
    (mkUser "alice" (some 0) [] (some "fresh"))
    (by decide) (by decide) (by decide) (by decide)
    (fun r hr => absurd hr (List.not_mem_nil r))

/-! ## Deletion of a completion -/

theorem deleteCompletion_of_snapshot (env : Env) (username : String) (r : Completion)
    (st : Store) (target : User) (a : Int)
    (hfind : st.users.find? (fun x => decide (x.username = username)) = some target)
    (ha : r.awardedPoints = some a) :
    (deleteCompletion env username r st).users
      = updateFirst (fun x => decide (x.username = username)) (debitUser r a) st.users ∧
    (deleteCompletion env username r st).levels = st.levels ∧
    (deleteCompletion env username r st).subs = st.subs := by
  simp only [deleteCompletion, ha, hfind, addAudit_users, addAudit_levels, addAudit_subs,
    and_self]

theorem find?_debitUser (r : Completion) (a : Int) (users : List User) (username : String)
    (target : User)
    (hfind : users.find? (fun x => decide (x.username = username)) = some target) :
    (updateFirst (fun x => decide (x.username = username)) (debitUser r a) users).find?
        (fun x => decide (x.username = username)) = some (debitUser r a target) :=
  find?_updateFirst_of_find _ _ _ _ hfind (by simpa [debitUser] using find?_username hfind)

/-- C15: deleting a completion record `r` (in the history or not) for a stored
user, `r` carrying the snapshot `a`: the user's points become `max(0, points_before - a)`, whatever
the levels collection holds, and `r` is no longer in the user's history (the
records that differ from `r` in level, link or time are all kept). -/
theorem deleteCompletion_uses_snapshot (env : Env) (username : String) (r : Completion)
    (st : Store) (target : User) (a : Int)
    (hfind : st.users.find? (fun x => decide (x.username = username)) = some target)
    (ha : r.awardedPoints = some a) :
    ∃ u', (deleteCompletion env username r st).users.find?
        (fun x => decide (x.username = username)) = some u' ∧
      u'.points = some (max 0 (numOr target.points 0 - a)) ∧
      r ∉ u'.completedRecords.getD [] ∧
      (∀ c ∈ target.completedRecords.getD [],
        (c.levelId ≠ r.levelId ∨ c.youtube ≠ r.youtube ∨ c.ts ≠ r.ts) →
          c ∈ u'.completedRecords.getD []) ∧
      (∀ levels' : List Level,
        (deleteCompletion env username r { st with levels := levels' }).users
          = (deleteCompletion env username r st).users) := by
  obtain ⟨husers, -, -⟩ := deleteCompletion_of_snapshot env username r st target a hfind ha
  refine ⟨debitUser r a target, ?_, rfl, ?_, ?_, ?_⟩
  · rw [husers]; exact find?_debitUser r a st.users username target hfind
  · simp [debitUser, List.mem_filter]
  · intro c hc hdiff
    simp only [debitUser, Option.getD_some, List.mem_filter]
    refine ⟨hc, ?_⟩
    simp only [Bool.not_eq_true', Bool.and_eq_false_iff, decide_eq_false_iff_not]
    tauto
  · intro levels'
    rw [husers]
    exact (deleteCompletion_of_snapshot env username r { st with levels := levels' } target a
      hfind ha).1

/-- Witness of C15: dora's completion worth 100 is deleted. -/
theorem deleteCompletion_uses_snapshot_witness :
    ∃ u', (deleteCompletion modEnv "dora" (mkRecord "L1" "https://youtu.be/a" 4000 (some 100))
          storeDora).users.find? (fun x => decide (x.username = "dora")) = some u' ∧
      u'.points = some (max 0 (150 - 100)) ∧
      mkRecord "L1" "https://youtu.be/a" 4000 (some 100) ∉ u'.completedRecords.getD [] ∧
      (∀ c ∈ [mkRecord "L1" "https://youtu.be/a" 4000 (some 100),
              mkRecord "L3" "https://youtu.be/b" 4500 (some 50)],
        (c.levelId ≠ some "L1" ∨ c.youtube ≠ "https://youtu.be/a" ∨ c.ts ≠ 4000) →
          c ∈ u'.completedRecords.getD []) ∧
      (∀ levels' : List Level,
        (deleteCompletion modEnv "dora" (mkRecord "L1" "https://youtu.be/a" 4000 (some 100))
          { storeDora with levels := levels' }).users
          = (deleteCompletion modEnv "dora" (mkRecord "L1" "https://youtu.be/a" 4000 (some 100))
              storeDora).users) :=
  deleteCompletion_uses_snapshot modEnv "dora" (mkRecord "L1" "https://youtu.be/a" 4000 (some 100))
    storeDora
    (mkUser "dora" (some 150)
      [mkRecord "L1" "https://youtu.be/a" 4000 (some 100),
       mkRecord "L3" "https://youtu.be/b" 4500 (some 50)] (some "fresh"))
    100 (by decide) rfl

/-- C16: repeating the delete of a completion is not without effect.  Dora has
150 points; her completion worth 100 is deleted twice with the same record (the
second run from a view that still shows it).  One delete leaves 50 points; the
second finds no record to remove, subtracts the 100 again and leaves 0 with the
same history: the users collection after two deletes differs from the one after
a single delete.  The handler tests that the user is still stored, not that the
record is. -/
theorem deleteCompletion_twice_differs :
    (deleteCompletion modEnv "dora" (mkRecord "L1" "https://youtu.be/a" 4000 (some 100))
        storeDora).users.map (fun u => (u.points, (u.completedRecords.getD []).length))
      = [(some 50, 1)] ∧
    (deleteCompletion modEnv "dora" (mkRecord "L1" "https://youtu.be/a" 4000 (some 100))
        (deleteCompletion modEnv "dora" (mkRecord "L1" "https://youtu.be/a" 4000 (some 100))
          storeDora)).users.map (fun u => (u.points, (u.completedRecords.getD []).length))
      = [(some 0, 1)] ∧
    (deleteCompletion modEnv "dora" (mkRecord "L1" "https://youtu.be/a" 4000 (some 100))
        (deleteCompletion modEnv "dora" (mkRecord "L1" "https://youtu.be/a" 4000 (some 100))
          storeDora)).users
      ≠ (deleteCompletion modEnv "dora" (mkRecord "L1" "https://youtu.be/a" 4000 (some 100))
          storeDora).users := by
  decide

theorem debitUser_debitUser (r : Completion) (a : Int) (u : User) :
    debitUser r a (debitUser r a u)
      = { debitUser r a u with points := some (max 0 (max 0 (numOr u.points 0 - a) - a)) } := by
  have hnum : numOr (some (max 0 (numOr u.points 0 - a))) 0 = max 0 (numOr u.points 0 - a) := by
    simp only [numOr]
    split
    · rename_i h; rw [h]
    · rfl
  simp only [debitUser, Option.getD_some, List.filter_filter, Bool.and_self, hnum]

/-- The extent of the missing presence test in the delete handler: run a second
time with the same record for the same stored user, it leaves the history as
the first run left it (the record is already gone) and still subtracts the
snapshot `a`, so the points are `max(0, max(0, points_before - a) - a)`; the
second run is without effect only when that equals `max(0, points_before - a)`. -/
theorem deleteCompletion_twice (env1 env2 : Env) (username : String) (r : Completion)
    (st : Store) (target : User) (a : Int)
    (hfind : st.users.find? (fun x => decide (x.username = username)) = some target)
    (ha : r.awardedPoints = some a) :
    ∃ u1 u2,
      (deleteCompletion env1 username r st).users.find?
        (fun x => decide (x.username = username)) = some u1 ∧
      (deleteCompletion env2 username r (deleteCompletion env1 username r st)).users.find?
        (fun x => decide (x.username = username)) = some u2 ∧
      u2.completedRecords = u1.completedRecords ∧
      u1.points = some (max 0 (numOr target.points 0 - a)) ∧
      u2.points = some (max 0 (max 0 (numOr target.points 0 - a) - a)) ∧
      u2 = { u1 with points := u2.points } ∧
      ((deleteCompletion env2 username r (deleteCompletion env1 username r st)).users
          = (deleteCompletion env1 username r st).users ↔
        max 0 (max 0 (numOr target.points 0 - a) - a) = max 0 (numOr target.points 0 - a)) := by
  obtain ⟨h1, -, -⟩ := deleteCompletion_of_snapshot env1 username r st target a hfind ha
  have hf1 : (deleteCompletion env1 username r st).users.find?
      (fun x => decide (x.username = username)) = some (debitUser r a target) := by
    rw [h1]; exact find?_debitUser r a st.users username target hfind
  obtain ⟨h2, -, -⟩ := deleteCompletion_of_snapshot env2 username r
    (deleteCompletion env1 username r st) (debitUser r a target) a hf1 ha
  have hf2 : (deleteCompletion env2 username r (deleteCompletion env1 username r st)).users.find?
      (fun x => decide (x.username = username)) = some (debitUser r a (debitUser r a target)) := by
    rw [h2]; exact find?_debitUser r a _ username _ hf1
  refine ⟨_, _, hf1, hf2, ?_, rfl, ?_, ?_, ?_⟩
  · rw [debitUser_debitUser]
  · rw [debitUser_debitUser]
  · rw [debitUser_debitUser]
  · constructor
    · intro heq
      have h3 := hf2
      rw [heq, hf1] at h3
      have h4 := congrArg User.points (Option.some.inj h3)
      rw [debitUser_debitUser] at h4
      exact (Option.some.inj h4).symm
    · intro hpts
      have hsame : debitUser r a (debitUser r a target) = debitUser r a target := by
        rw [debitUser_debitUser, hpts]
        rfl
      obtain ⟨i, hi, hget, -⟩ := find?_eq_some_findIndex _ _ _ hf1
      rw [h2]
      apply List.ext_getElem?
      intro j
      rw [updateFirst_getElem? _ _ _ i hi j, hget, Option.map_some', hsame]
      split
      · rename_i hj; rw [hj, hget]
      · rfl

/-- An instance of the repeated delete: dora's completion worth 100. -/
theorem deleteCompletion_twice_witness :
    ∃ u1 u2,
      (deleteCompletion modEnv "dora" (mkRecord "L1" "https://youtu.be/a" 4000 (some 100))
        storeDora).users.find? (fun x => decide (x.username = "dora")) = some u1 ∧
      (deleteCompletion modEnv "dora" (mkRecord "L1" "https://youtu.be/a" 4000 (some 100))
        (deleteCompletion modEnv "dora" (mkRecord "L1" "https://youtu.be/a" 4000 (some 100))
          storeDora)).users.find? (fun x => decide (x.username = "dora")) = some u2 ∧
      u2.completedRecords = u1.completedRecords ∧
      u1.points = some (max 0 (150 - 100)) ∧
      u2.points = some (max 0 (max 0 (150 - 100) - 100)) ∧
      u2 = { u1 with points := u2.points } ∧
      ((deleteCompletion modEnv "dora" (mkRecord "L1" "https://youtu.be/a" 4000 (some 100))
        (deleteCompletion modEnv "dora" (mkRecord "L1" "https://youtu.be/a" 4000 (some 100))
          storeDora)).users
          = (deleteCompletion modEnv "dora" (mkRecord "L1" "https://youtu.be/a" 4000 (some 100))
              storeDora).users ↔
        max 0 (max 0 ((150 : Int) - 100) - 100) = max 0 (150 - 100)) :=
  deleteCompletion_twice modEnv modEnv "dora"
    (mkRecord "L1" "https://youtu.be/a" 4000 (some 100)) storeDora
    (mkUser "dora" (some 150)
      [mkRecord "L1" "https://youtu.be/a" 4000 (some 100),
       mkRecord "L3" "https://youtu.be/b" 4500 (some 50)] (some "fresh"))
    100 (by decide) rfl

/-! ## Approval of a level -/

theorem numOr_of_ne_zero (x : Option Int) (d m : Int) (h : numOr x d = m) (hm : m ≠ d) :
    x = some m := by
  cases x with
  | none => simp only [numOr] at h; exact absurd h.symm hm
  | some v =>
    simp only [numOr] at h
    split at h
    · exact absurd h.symm hm
    · rw [h]

/-- C17: a level submission is approved by a moderator in session: the call
returns; one level is appended after the existing ones, with status
`'published'`, placement `M + 1` where `M` is the highest placement of the
existing levels (0 when there is none), and the name, creators and tags of the
submission; the existing levels and the users are as before; the submissions
with that id are removed. -/
theorem approveSubmission_level (env : Env) (id : String) (st : Store) (s : Submission)
    (actor : String)
    (hs : st.subs.find? (fun x => decide (x.id = id)) = some s)
    (ht : s.type = "level") (hsess : env.session = some actor) :
    ∃ st' lv M, approveSubmission env id st = .ok st' ∧
      st'.levels = st.levels ++ [lv] ∧
      lv.status = "published" ∧ lv.placement = some (M + 1) ∧
      0 ≤ M ∧ (∀ l ∈ st.levels, ∀ p, l.placement = some p → p ≤ M) ∧
      (M = 0 ∨ ∃ l ∈ st.levels, l.placement = some M) ∧
      (st.levels = [] → lv.placement = some 1) ∧
      lv.name = s.name ∧ lv.creators = s.creators.getD [] ∧ lv.tags = s.tags.getD [] ∧
      lv.submitter = s.submitter ∧ lv.approvedBy = actor ∧
      st'.users = st.users ∧
      st'.subs = st.subs.filter (fun x => decide (x.id ≠ id)) ∧
      (∀ x ∈ st'.subs, x.id ≠ id) := by
  have hok : approveSubmission env id st = .ok
      (addAudit { id := env.uid 1, action := "approve_level", actor := some actor,
                  target := some (env.uid 0),
                  details := [("name", match s.name with
                                       | some n => .str n
                                       | none => .absent),
                              ("placement",
                                .num (st.levels.foldl
                                  (fun m lv => max m (numOr lv.placement 0)) 0 + 1))],
                  ts := env.now 1 }
        { st with
          levels := st.levels ++
            [{ id := env.uid 0,
               placement := some (st.levels.foldl (fun m lv => max m (numOr lv.placement 0)) 0 + 1),
               name := s.name, levelId := s.levelId, creators := s.creators.getD [],
               thumbnail := youtubeThumb s.youtube, youtube := s.youtube,
               tags := s.tags.getD [], status := "published", submitter := s.submitter,
               approvedBy := actor, approvedAt := env.now 0 }],
          subs := st.subs.filter (fun x => decide (x.id ≠ id)) }) := by
    simp only [approveSubmission, hs, ht, hsess, if_true]
  refine ⟨_, _, st.levels.foldl (fun m lv => max m (numOr lv.placement 0)) 0, hok, rfl, rfl,
    rfl, ?_, ?_, ?_, ?_, rfl, rfl, rfl, rfl, rfl, rfl, rfl, ?_⟩
  · exact foldl_max_ge_init _ _ _
  · intro l hl p hp
    have h := foldl_max_ge_mem (fun lv : Level => numOr lv.placement 0) st.levels 0 l hl
    have h0 := foldl_max_ge_init (fun lv : Level => numOr lv.placement 0) st.levels 0
    by_cases hp0 : p = 0
    · rw [hp0]; exact h0
    · have : numOr l.placement 0 = p := by
        rw [hp]; simp only [numOr, hp0, if_false]
      rw [← this]; exact h
  · rcases foldl_max_mem (fun lv : Level => numOr lv.placement 0) st.levels 0 with h | ⟨x, hx, h⟩
    · exact Or.inl h
    · by_cases h0 : st.levels.foldl (fun m lv => max m (numOr lv.placement 0)) 0 = 0
      · exact Or.inl h0
      · exact Or.inr ⟨x, hx, numOr_of_ne_zero _ _ _ h.symm h0⟩
  · intro hnil
    rw [hnil]; rfl
  · intro x hx
    have hx2 : x ∈ st.subs.filter (fun x => decide (x.id ≠ id)) := hx
    rw [List.mem_filter] at hx2
    simpa using hx2.2

/-- Witness of C17: bob's level is approved below three published levels. -/
theorem approveSubmission_level_witness :
    ∃ st' lv M, approveSubmission modEnv "q1" storeQueue = .ok st' ∧
      st'.levels = storeQueue.levels ++ [lv] ∧
      lv.status = "published" ∧ lv.placement = some (M + 1) ∧
      0 ≤ M ∧ (∀ l ∈ storeQueue.levels, ∀ p, l.placement = some p → p ≤ M) ∧
      (M = 0 ∨ ∃ l ∈ storeQueue.levels, l.placement = some M) ∧
      (storeQueue.levels = [] → lv.placement = some 1) ∧
      lv.name = some "Bloodbath" ∧ lv.creators = ["@bob"] ∧ lv.tags = ["Cube Carried"] ∧
      lv.submitter = "bob" ∧ lv.approvedBy = "zmmieh." ∧
      st'.users = storeQueue.users ∧
      st'.subs = storeQueue.subs.filter (fun x => decide (x.id ≠ "q1")) ∧
      (∀ x ∈ st'.subs, x.id ≠ "q1") :=
  approveSubmission_level modEnv "q1" storeQueue (mkLevelSub "q1" "Bloodbath" "bob") "zmmieh."
    (by decide) (by decide) rfl

/-! ## Removal of a level -/

theorem sorted_byKeyAsc {α : Type} (k : α → Int) (l : List α) :
    (List.insertionSort (fun x y => k x - k y ≤ 0) l).Sorted (fun x y => k x - k y ≤ 0) := by
  haveI : IsTotal α (fun x y => k x - k y ≤ 0) := ⟨fun a b => by
    by_cases h : k a - k b ≤ 0
    · exact Or.inl h
    · exact Or.inr (by omega)⟩
  haveI : IsTrans α (fun x y => k x - k y ≤ 0) := ⟨fun a b c h1 h2 => by
    show k a - k c ≤ 0
    have h1' : k a - k b ≤ 0 := h1
    have h2' : k b - k c ≤ 0 := h2
    omega⟩
  exact List.sorted_insertionSort _ l

/-- The ranking order: levels by `placement || 999`, lowest first. -/
theorem jsSort_placementCmp_sorted (l : List Level) :
    (jsSort placementCmp l).Pairwise
      (fun a b => numOr a.placement 999 ≤ numOr b.placement 999) := by
  have h := sorted_byKeyAsc (fun lv : Level => numOr lv.placement 999) l
  refine List.Pairwise.imp ?_ h
  intro a b hab
  have hab' : numOr a.placement 999 - numOr b.placement 999 ≤ 0 := hab
  omega

theorem renumberFrom_getElem? (s : Nat) (l : List Level) (i : Nat) :
    (renumberFrom s l)[i]?
      = (l[i]?).map (fun lv => { lv with placement := some (((s + i : Nat) : Int) + 1) }) := by
  induction l generalizing s i with
  | nil => simp [renumberFrom]
  | cons a l ih =>
    cases i with
    | zero => simp [renumberFrom]
    | succ k =>
      simp only [renumberFrom, List.getElem?_cons_succ, ih (s + 1) k]
      have : s + 1 + k = s + (k + 1) := by omega
      rw [this]

/-- With distinct positive placements the ranking order is strict. -/
theorem jsSort_placementCmp_strict (l : List Level)
    (hpos : ∀ lv ∈ l, ∃ p, lv.placement = some p ∧ 0 < p)
    (hdist : (l.map (fun lv => lv.placement)).Nodup) :
    (jsSort placementCmp l).Pairwise
      (fun a b => ∃ pa pb, a.placement = some pa ∧ b.placement = some pb ∧ pa < pb) := by
  have hperm := jsSort_perm placementCmp l
  have hnd : ((jsSort placementCmp l).map (fun lv => lv.placement)).Nodup :=
    (hperm.map _).nodup_iff.mpr hdist
  have hne : (jsSort placementCmp l).Pairwise (fun a b => a.placement ≠ b.placement) :=
    List.pairwise_map.mp hnd
  have hboth := (jsSort_placementCmp_sorted l).and hne
  refine List.Pairwise.imp_of_mem ?_ hboth
  intro a b ha hb hab
  obtain ⟨pa, hpa, hpa0⟩ := hpos a (hperm.mem_iff.mp ha)
  obtain ⟨pb, hpb, hpb0⟩ := hpos b (hperm.mem_iff.mp hb)
  refine ⟨pa, pb, hpa, hpb, ?_⟩
  have h1 := hab.1
  have h2 := hab.2
  rw [hpa, hpb] at h1 h2
  simp only [numOr] at h1
  rw [if_neg (by omega), if_neg (by omega)] at h1
  have h3 : pa ≠ pb := fun h => h2 (by rw [h])
  omega

/-- C18: `removeLevelById` on levels with distinct positive placements.  The
new collection is made of the levels with a different id (`kept`, a
permutation of them in strictly increasing prior placement), each with its
fields unchanged except `placement`, which is `i + 1` at position `i`: the
placements are `1..N` without gaps, and a smaller prior placement gives a
smaller new placement.  Users and submissions are as before. -/
theorem removeLevelById_spec (id : String) (st : Store)
    (hpos : ∀ lv ∈ st.levels, ∃ p, lv.placement = some p ∧ 0 < p)
    (hdist : (st.levels.map (fun lv => lv.placement)).Nodup) :
    ∃ kept : List Level,
      kept.Perm (st.levels.filter (fun l => decide (l.id ≠ id))) ∧
      kept.Pairwise
        (fun a b => ∃ pa pb, a.placement = some pa ∧ b.placement = some pb ∧ pa < pb) ∧
      (removeLevelById id st).levels.length = kept.length ∧
      (∀ (i : Nat) (hi : i < kept.length),
        (removeLevelById id st).levels[i]?
          = some { kept[i] with placement := some ((i : Int) + 1) }) ∧
      (∀ (i j : Nat) (hi : i < kept.length) (hj : j < kept.length) (pi pj : Int),
        kept[i].placement = some pi → kept[j].placement = some pj → pi < pj →
          (i : Int) + 1 < (j : Int) + 1) ∧
      (removeLevelById id st).users = st.users ∧
      (removeLevelById id st).subs = st.subs := by
  have hsub : (st.levels.filter (fun l => decide (l.id ≠ id))).Sublist st.levels :=
    List.filter_sublist _
  have hpos2 : ∀ lv ∈ st.levels.filter (fun l => decide (l.id ≠ id)),
      ∃ p, lv.placement = some p ∧ 0 < p := fun lv hlv => hpos lv (hsub.subset hlv)
  have hdist2 : ((st.levels.filter (fun l => decide (l.id ≠ id))).map
      (fun lv => lv.placement)).Nodup := hdist.sublist (hsub.map _)
  have hstrict := jsSort_placementCmp_strict _ hpos2 hdist2
  refine ⟨jsSort placementCmp (st.levels.filter (fun l => decide (l.id ≠ id))),
    jsSort_perm _ _, hstrict, ?_, ?_, ?_, rfl, rfl⟩
  · show (renumberFrom 0 _).length = _
    rw [renumberFrom_length]
  · intro i hi
    show (renumberFrom 0 _)[i]? = _
    rw [renumberFrom_getElem?, List.getElem?_eq_getElem hi, Option.map_some']
    simp only [Nat.zero_add]
  · intro i j hi hj pi pj hpi hpj hlt
    by_contra hcon
    have hji : j ≤ i := by omega
    rcases Nat.lt_or_eq_of_le hji with h | h
    · obtain ⟨pa, pb, h1, h2, h3⟩ := List.pairwise_iff_getElem.mp hstrict j i hj hi h
      rw [hpj] at h1
      rw [hpi] at h2
      cases h1; cases h2
      omega
    · subst h
      rw [hpi] at hpj
      cases hpj
      omega

/-- Witness of C18: the level at placement 2 is removed from four levels. -/
theorem removeLevelById_spec_witness :
    ∃ kept : List Level,
      kept.Perm (storeRanking.levels.filter (fun l => decide (l.id ≠ "L2"))) ∧
      kept.Pairwise
        (fun a b => ∃ pa pb, a.placement = some pa ∧ b.placement = some pb ∧ pa < pb) ∧
      (removeLevelById "L2" storeRanking).levels.length = kept.length ∧
      (∀ (i : Nat) (hi : i < kept.length),
        (removeLevelById "L2" storeRanking).levels[i]?
          = some { kept[i] with placement := some ((i : Int) + 1) }) ∧
      (∀ (i j : Nat) (hi : i < kept.length) (hj : j < kept.length) (pi pj : Int),
        kept[i].placement = some pi → kept[j].placement = some pj → pi < pj →
          (i : Int) + 1 < (j : Int) + 1) ∧
      (removeLevelById "L2" storeRanking).users = storeRanking.users ∧
      (removeLevelById "L2" storeRanking).subs = storeRanking.subs :=
  removeLevelById_spec "L2" storeRanking (by decide) (by decide)

/-! ## Exchange of two placements -/

theorem Dense.mem_placement {levels : List Level} (h : Dense levels) (lv : Level)
    (hlv : lv ∈ levels) :
    ∃ n : Nat, 1 ≤ n ∧ n ≤ levels.length ∧ lv.placement = some (n : Int) := by
  have : lv.placement ∈ (List.range' 1 levels.length).map (fun (n : Nat) => some (n : Int)) :=
    h.subset (List.mem_map_of_mem _ hlv)
  obtain ⟨n, hn, hn2⟩ := List.mem_map.mp this
  rw [List.mem_range'_1] at hn
  exact ⟨n, hn.1, by omega, hn2.symm⟩

/-- Under density the level at position `k` of the ranking order has
placement `k + 1`. -/
theorem Dense.sorted_placement {levels : List Level} (h : Dense levels) (k : Nat)
    (hk : k < (jsSort placementCmp levels).length) :
    (jsSort placementCmp levels)[k].placement = some ((k : Int) + 1) := by
  have hperm := jsSort_perm placementCmp levels
  have hlen : (jsSort placementCmp levels).length = levels.length := hperm.length_eq
  have hkeys : (jsSort placementCmp levels).map (fun lv => numOr lv.placement 999)
      = (List.range' 1 levels.length).map (fun (n : Nat) => (n : Int)) := by
    apply List.eq_of_perm_of_sorted (r := fun (a b : Int) => a ≤ b)
    · have h1 : ((jsSort placementCmp levels).map (fun lv => lv.placement)).Perm
          ((List.range' 1 levels.length).map (fun (n : Nat) => some (n : Int))) :=
        (hperm.map _).trans h
      have h2 := h1.map (fun x : Option Int => numOr x 999)
      rw [List.map_map, List.map_map] at h2
      have h3 : (List.range' 1 levels.length).map
          ((fun x : Option Int => numOr x 999) ∘ (fun (n : Nat) => some (n : Int)))
          = (List.range' 1 levels.length).map (fun (n : Nat) => (n : Int)) := by
        apply List.map_congr_left
        intro n hn
        rw [List.mem_range'_1] at hn
        simp only [Function.comp, numOr]
        rw [if_neg (by omega)]
      rw [h3] at h2
      exact h2
    · exact List.pairwise_map.mpr (jsSort_placementCmp_sorted levels)
    · apply List.pairwise_map.mpr
      refine List.Pairwise.imp ?_ (List.pairwise_le_range' 1 levels.length)
      intro a b hab
      exact Int.ofNat_le.mpr hab
  have hk2 : k < levels.length := by omega
  have hkey : numOr (jsSort placementCmp levels)[k].placement 999 = (k : Int) + 1 := by
    have := congrArg (fun l => l[k]?) hkeys
    simp only [List.getElem?_map, List.getElem?_eq_getElem hk, Option.map_some',
      List.getElem?_range' _ _ hk2] at this
    have h2 := Option.some.inj this
    rw [h2]
    push_cast
    omega
  obtain ⟨n, hn1, -, hn⟩ := h.mem_placement _ (hperm.mem_iff.mp (List.getElem_mem hk))
  rw [hn] at hkey ⊢
  simp only [numOr] at hkey
  rw [if_neg (by omega)] at hkey
  rw [hkey]

theorem findIndex_getElem {α : Type} (p : α → Bool) (l : List α) (i : Nat)
    (h : findIndex p l = some i) (hi : i < l.length) : p l[i] = true := by
  induction l generalizing i with
  | nil => simp [findIndex] at h
  | cons a l ih =>
    unfold findIndex at h
    by_cases hp : p a = true
    · simp only [hp, if_true, Option.some.injEq] at h
      subst h
      simpa using hp
    · have hp2 : p a = false := by simpa using hp
      simp only [hp2, Bool.false_eq_true, if_false] at h
      cases hf : findIndex p l with
      | none => rw [hf] at h; cases h
      | some j =>
        rw [hf] at h
        simp only [Option.map_some', Option.some.injEq] at h
        subst h
        simp only [List.getElem_cons_succ]
        exact ih j hf (by simpa using hi)

theorem swapPlacement_out_of_range (levelId : String) (dir : Int) (st : Store) (idx : Nat)
    (hidx : findIndex (fun l => decide (l.id = levelId)) (jsSort placementCmp st.levels)
      = some idx)
    (hout : (idx : Int) + dir < 0 ∨ (idx : Int) + dir ≥ ((jsSort placementCmp st.levels).length : Int)) :
    swapPlacement levelId dir st = st := by
  unfold swapPlacement
  dsimp only
  rw [hidx]
  dsimp only
  rw [if_pos hout]

theorem swapPlacement_in_range (levelId : String) (dir : Int) (st : Store) (idx : Nat)
    (hidx : findIndex (fun l => decide (l.id = levelId)) (jsSort placementCmp st.levels)
      = some idx)
    (hi : idx < (jsSort placementCmp st.levels).length)
    (ht : ((idx : Int) + dir).toNat < (jsSort placementCmp st.levels).length)
    (hlo : 0 ≤ (idx : Int) + dir) (hne : ((idx : Int) + dir).toNat ≠ idx) :
    (swapPlacement levelId dir st).users = st.users ∧
    (swapPlacement levelId dir st).subs = st.subs ∧
    (swapPlacement levelId dir st).levels.length = st.levels.length ∧
    (∀ k, (swapPlacement levelId dir st).levels[k]?
      = if k = idx then
          some { (jsSort placementCmp st.levels)[idx] with
                 placement :=
                   ((jsSort placementCmp st.levels)[((idx : Int) + dir).toNat]).placement }
        else if k = ((idx : Int) + dir).toNat then
          some { (jsSort placementCmp st.levels)[((idx : Int) + dir).toNat] with
                 placement := ((jsSort placementCmp st.levels)[idx]).placement }
        else (jsSort placementCmp st.levels)[k]?) := by
  have hin : ¬ ((idx : Int) + dir < 0 ∨
      (idx : Int) + dir ≥ ((jsSort placementCmp st.levels).length : Int)) := by
    omega
  have ht2 : ((idx : Int) + dir).toNat <
      ((jsSort placementCmp st.levels).set idx
        { (jsSort placementCmp st.levels)[idx] with
          placement :=
            ((jsSort placementCmp st.levels)[((idx : Int) + dir).toNat]).placement }).length := by
    rw [List.length_set]; exact ht
  unfold swapPlacement
  dsimp only
  rw [hidx]
  dsimp only
  rw [if_neg hin, List.getElem?_eq_getElem hi, List.getElem?_eq_getElem ht]
  dsimp only
  rw [List.getElem?_eq_getElem ht2]
  dsimp only
  rw [List.getElem_set_ne (Ne.symm hne)]
  refine ⟨rfl, rfl, ?_, ?_⟩
  · rw [List.length_set, List.length_set, jsSort_length]
  · intro k
    rw [List.getElem?_set, List.getElem?_set]
    by_cases hk1 : k = idx
    · subst hk1
      rw [if_neg hne, if_pos rfl, if_pos hi, if_pos rfl]
    · by_cases hk2 : k = ((idx : Int) + dir).toNat
      · subst hk2
        rw [if_pos rfl, if_pos ht2, if_neg hk1, if_pos rfl]
      · rw [if_neg (Ne.symm hk2), if_neg (Ne.symm hk1), if_neg hk1, if_neg hk2]

/-- C19: `swapPlacement` on levels whose placements are a permutation of
`1..N`, with `dir` among -1 and +1.  When no level has the id, the store is
unchanged.  Otherwise the level `a` found at position `idx` of the ranking order
has placement `idx + 1`; at placement 1 with `dir = -1`, or at placement `N`
with `dir = +1`, the store is unchanged; in the other cases the neighbour `b` at
position `idx + dir` has placement `idx + 1 + dir`, and the saved collection is
the ranking order in which `a` carries the placement of `b`, `b` the placement
of `a`, and every other level is as it was. -/
theorem swapPlacement_spec (levelId : String) (dir : Int) (st : Store)
    (hd : Dense st.levels) (hdir : dir = 1 ∨ dir = -1) :
    ((∀ l ∈ st.levels, l.id ≠ levelId) → swapPlacement levelId dir st = st) ∧
    ((∃ l ∈ st.levels, l.id = levelId) →
      ∃ idx, findIndex (fun l => decide (l.id = levelId)) (jsSort placementCmp st.levels)
        = some idx) ∧
    (∀ idx : Nat,
      findIndex (fun l => decide (l.id = levelId)) (jsSort placementCmp st.levels) = some idx →
      ∃ a, (jsSort placementCmp st.levels)[idx]? = some a ∧ a.id = levelId ∧
        a.placement = some ((idx : Int) + 1) ∧
        (a.placement = some 1 → dir = -1 → swapPlacement levelId dir st = st) ∧
        (a.placement = some (st.levels.length : Int) → dir = 1 →
          swapPlacement levelId dir st = st) ∧
        (¬ (a.placement = some 1 ∧ dir = -1) →
          ¬ (a.placement = some (st.levels.length : Int) ∧ dir = 1) →
          ∃ b, (jsSort placementCmp st.levels)[((idx : Int) + dir).toNat]? = some b ∧
            b.placement = some ((idx : Int) + 1 + dir) ∧
            (swapPlacement levelId dir st).levels.length = st.levels.length ∧
            (∀ k, (swapPlacement levelId dir st).levels[k]?
              = if k = idx then some { a with placement := b.placement }
                else if k = ((idx : Int) + dir).toNat then
                  some { b with placement := a.placement }
                else (jsSort placementCmp st.levels)[k]?) ∧
            (swapPlacement levelId dir st).users = st.users ∧
            (swapPlacement levelId dir st).subs = st.subs)) := by
  have hperm := jsSort_perm placementCmp st.levels
  have hlen : (jsSort placementCmp st.levels).length = st.levels.length := hperm.length_eq
  refine ⟨?_, ?_, ?_⟩
  · intro habs
    have hnone : findIndex (fun l => decide (l.id = levelId)) (jsSort placementCmp st.levels)
        = none := by
      rw [findIndex_eq_none]
      intro x hx
      simpa using habs x (hperm.mem_iff.mp hx)
    unfold swapPlacement
    dsimp only
    rw [hnone]
  · rintro ⟨l, hl, hid⟩
    cases hf : findIndex (fun l => decide (l.id = levelId)) (jsSort placementCmp st.levels) with
    | some idx => exact ⟨idx, rfl⟩
    | none =>
      rw [findIndex_eq_none] at hf
      have := hf l (hperm.mem_iff.mpr hl)
      simp [hid] at this
  · intro idx hidx
    have hi := findIndex_lt _ _ _ hidx
    have hpa := hd.sorted_placement idx hi
    have hida : (jsSort placementCmp st.levels)[idx].id = levelId := by
      simpa using findIndex_getElem _ _ _ hidx hi
    refine ⟨(jsSort placementCmp st.levels)[idx], List.getElem?_eq_getElem hi, hida, hpa,
      ?_, ?_, ?_⟩
    · intro h1 hm
      rw [hpa] at h1
      have := Option.some.inj h1
      exact swapPlacement_out_of_range levelId dir st idx hidx (by omega)
    · intro h1 hm
      rw [hpa] at h1
      have := Option.some.inj h1
      exact swapPlacement_out_of_range levelId dir st idx hidx (by omega)
    · intro hn1 hn2
      rw [hpa] at hn1 hn2
      have hlo : 0 ≤ (idx : Int) + dir := by
        rcases hdir with h | h
        · omega
        · by_contra hneg
          apply hn1
          refine ⟨?_, h⟩
          congr 1
          omega
      have hhi : (idx : Int) + dir < (st.levels.length : Int) := by
        rcases hdir with h | h
        · by_contra hge
          apply hn2
          refine ⟨?_, h⟩
          congr 1
          omega
        · omega
      have ht : ((idx : Int) + dir).toNat < (jsSort placementCmp st.levels).length := by
        omega
      have hne : ((idx : Int) + dir).toNat ≠ idx := by
        rcases hdir with h | h <;> omega
      obtain ⟨h1, h2, h3, h4⟩ := swapPlacement_in_range levelId dir st idx hidx hi ht hlo hne
      have hpb := hd.sorted_placement ((idx : Int) + dir).toNat ht
      refine ⟨(jsSort placementCmp st.levels)[((idx : Int) + dir).toNat],
        List.getElem?_eq_getElem ht, ?_, h3, h4, h1, h2⟩
      rw [hpb]
      congr 1
      omega

/-- Witness of C19: among four levels, the level at placement 3 moves down and
the level at placement 1 is asked to move up. -/
theorem swapPlacement_spec_witness :
    (swapPlacement "L3" 1 storeRanking).levels.map (fun l => (l.id, l.placement))
      = [("L1", some 1), ("L2", some 2), ("L3", some 4), ("L4", some 3)] ∧
    swapPlacement "L1" (-1) storeRanking = storeRanking ∧
    swapPlacement "L9" 1 storeRanking = storeRanking :=
  ⟨by decide,
   by
    obtain ⟨a, -, -, hpl, h, -⟩ := (swapPlacement_spec "L1" (-1) storeRanking
      (by unfold Dense; decide) (Or.inr rfl)).2.2 0 (by decide)
    exact h (by rw [hpl]; rfl) rfl,
   (swapPlacement_spec "L9" 1 storeRanking (by unfold Dense; decide) (Or.inl rfl)).1
     (by decide)⟩

/-! ## Ban check -/

/-- C20: `isUserBanned(username)` at clock reading `now`.  It answers false,
the store unchanged, when no stored user has the username or the user has no
`bannedUntil` (missing or `0`); for a user with a `bannedUntil` `b` it answers
true, the store unchanged, when `b` is the permanent sentinel or `now < b`; and
otherwise it answers false and saves the users collection in which the record
of that user (the one at the index found) has lost exactly `bannedUntil`,
`banReason`, `bannedBy` and `bannedAt`, every other field and every other user
being as before. -/
theorem isUserBanned_spec (now : Int) (username : String) (st : Store) :
    ((∀ u ∈ st.users, u.username ≠ username) → isUserBanned now username st = (false, st)) ∧
    (∀ u, st.users.find? (fun x => decide (x.username = username)) = some u →
      ((u.bannedUntil = none ∨ u.bannedUntil = some 0) →
        isUserBanned now username st = (false, st)) ∧
      (∀ b, u.bannedUntil = some b → b ≠ 0 → username ≠ "" →
        ((b = 9999999999999 ∨ now < b) → isUserBanned now username st = (true, st)) ∧
        (b ≠ 9999999999999 → ¬ now < b →
          ∃ i, findIndex (fun x => decide (x.username = username)) st.users = some i ∧
            st.users[i]? = some u ∧
            (isUserBanned now username st).1 = false ∧
            (isUserBanned now username st).2.users.length = st.users.length ∧
            (∀ j, (isUserBanned now username st).2.users[j]?
              = if j = i then
                  some { u with bannedUntil := none, banReason := none, bannedBy := none,
                                bannedAt := none }
                else st.users[j]?) ∧
            (isUserBanned now username st).2.levels = st.levels ∧
            (isUserBanned now username st).2.subs = st.subs ∧
            (isUserBanned now username st).2.audit = st.audit))) := by
  constructor
  · intro habs
    have hnone : st.users.find? (fun x => decide (x.username = username)) = none := by
      rw [List.find?_eq_none]
      intro x hx
      simpa using habs x hx
    unfold isUserBanned
    split
    · rfl
    · rw [hnone]
  · intro u hfind
    constructor
    · intro hno
      unfold isUserBanned
      split
      · rfl
      · rw [hfind]
        rcases hno with h | h
        · simp only [h]
        · simp only [h, if_true]
    · intro b hb hb0 hname
      constructor
      · intro hban
        unfold isUserBanned
        rw [if_neg hname, hfind]
        simp only [hb, hb0, if_false]
        rcases hban with h | h
        · rw [if_pos h]
        · split
          · rfl
          · simp only [h, if_true]
      · intro hnp hnl
        obtain ⟨i, hi, hget, -⟩ := find?_eq_some_findIndex _ _ _ hfind
        have hres : isUserBanned now username st
            = (false, { st with users := updateFirst (fun x => decide (x.username = username))
                                           clearBan st.users }) := by
          unfold isUserBanned
          rw [if_neg hname, hfind]
          simp only [hb, hb0, hnp, hnl, if_false]
        rw [hres]
        refine ⟨i, hi, hget, rfl, ?_, ?_, rfl, rfl, rfl⟩
        · exact length_updateFirst _ _ _
        · intro j
          show (updateFirst _ _ st.users)[j]? = _
          rw [updateFirst_getElem? _ _ _ i hi j, hget]
          rfl

/-- Witness of C20: the ban of temp, set until 90000, is checked at 90000. -/
theorem isUserBanned_spec_witness :
    ∃ i, findIndex (fun x => decide (x.username = "temp")) storeBans.users = some i ∧
      storeBans.users[i]? = some (mkBanned "temp" 90000) ∧
      (isUserBanned 90000 "temp" storeBans).1 = false ∧
      (isUserBanned 90000 "temp" storeBans).2.users.length = storeBans.users.length ∧
      (∀ j, (isUserBanned 90000 "temp" storeBans).2.users[j]?
        = if j = i then
            some { mkBanned "temp" 90000 with bannedUntil := none, banReason := none,
                                              bannedBy := none, bannedAt := none }
          else storeBans.users[j]?) ∧
      (isUserBanned 90000 "temp" storeBans).2.levels = storeBans.levels ∧
      (isUserBanned 90000 "temp" storeBans).2.subs = storeBans.subs ∧
      (isUserBanned 90000 "temp" storeBans).2.audit = storeBans.audit :=
  (((isUserBanned_spec 90000 "temp" storeBans).2 (mkBanned "temp" 90000) (by decide)).2
    90000 rfl (by decide) (by decide)).2 (by decide) (by decide)

/-! ## Ban -/

theorem banUser_ok (env : Env) (username : String) (days : Option Int) (reason : String)
    (st : Store) (target : User) (actor : String)
    (hname : username ≠ "")
    (hfind : st.users.find? (fun u => decide (u.username = username)) = some target)
    (hrole : target.role ≠ "headadmin") (hsess : env.session = some actor) :
    banUser env username days reason st
      = .ok (addAudit (banEvent env days reason actor target)
          { st with users := updateFirst (fun u => decide (u.username = username))
                               (applyBan env days reason actor) st.users }) := by
  simp only [banUser, hname, hfind, hrole, hsess, if_false]

/-- C21: the ban button.  The store is unchanged when no user has the username
or the target has role `'headadmin'`.  Otherwise, for a moderator in session and
`durationDays = d`, the call returns and the record of the target (the one at
the index found) gets `bannedUntil` = the permanent sentinel when `d = 0` and
`now + d*86400000` when `d ≠ 0`, with the reason, the acting moderator and the
time; every other field and every other user are as before. -/
theorem banUser_spec (env : Env) (username : String) (days : Option Int) (reason : String)
    (st : Store) :
    ((∀ u ∈ st.users, u.username ≠ username) →
      banUser env username days reason st = .ok st) ∧
    (∀ target, st.users.find? (fun u => decide (u.username = username)) = some target →
      (target.role = "headadmin" → banUser env username days reason st = .ok st) ∧
      (target.role ≠ "headadmin" → username ≠ "" →
        ∀ actor d, env.session = some actor → days = some d →
          ∃ st' i, banUser env username days reason st = .ok st' ∧
            findIndex (fun u => decide (u.username = username)) st.users = some i ∧
            st.users[i]? = some target ∧
            st'.users.length = st.users.length ∧
            (∀ j, st'.users[j]?
              = if j = i then
                  some { target with
                         bannedUntil :=
                           some (if d = 0 then 9999999999999 else env.now 0 + d * 86400000),
                         banReason := some reason, bannedBy := some actor,
                         bannedAt := some (env.now 1) }
                else st.users[j]?) ∧
            st'.levels = st.levels ∧ st'.subs = st.subs)) := by
  constructor
  · intro habs
    have hnone : st.users.find? (fun u => decide (u.username = username)) = none := by
      rw [List.find?_eq_none]
      intro x hx
      simpa using habs x hx
    unfold banUser
    split
    · rfl
    · rw [hnone]
  · intro target hfind
    constructor
    · intro hrole
      unfold banUser
      split
      · rfl
      · rw [hfind]
        simp only [hrole, if_true]
    · intro hrole hname actor d hsess hd
      obtain ⟨i, hi, hget, -⟩ := find?_eq_some_findIndex _ _ _ hfind
      refine ⟨_, i, banUser_ok env username days reason st target actor hname hfind hrole hsess,
        hi, hget, ?_, ?_, rfl, rfl⟩
      · show (updateFirst _ _ st.users).length = _
        rw [length_updateFirst]
      · intro j
        show (updateFirst _ _ st.users)[j]? = _
        rw [updateFirst_getElem? _ _ _ i hi j, hget, Option.map_some']
        have hexp : banExpiry env days
            = some (if d = 0 then 9999999999999 else env.now 0 + d * 86400000) := by
          rw [hd]
          simp only [banExpiry]
          split
          · rfl
          · congr 1
            omega
        simp only [applyBan, hexp]

/-- Witness of C21: eve is banned for 2 days at clock reading 5000, and the
head admin cannot be banned. -/
theorem banUser_spec_witness :
    (∃ st' i, banUser modEnv "eve" (some 2) "spam" storeStaff = .ok st' ∧
      findIndex (fun u => decide (u.username = "eve")) storeStaff.users = some i ∧
      storeStaff.users[i]? = some (mkUser "eve" (some 20) [] (some "fresh")) ∧
      st'.users.length = storeStaff.users.length ∧
      (∀ j, st'.users[j]?
        = if j = i then
            some { mkUser "eve" (some 20) [] (some "fresh") with
                   bannedUntil := some (if (2 : Int) = 0 then 9999999999999 else 5000 + 2 * 86400000),
                   banReason := some "spam", bannedBy := some "zmmieh.",
                   bannedAt := some 5000 }
          else storeStaff.users[j]?) ∧
      st'.levels = storeStaff.levels ∧ st'.subs = storeStaff.subs) ∧
    banUser modEnv "zmmieh." (some 2) "spam" storeStaff = .ok storeStaff :=
  ⟨((banUser_spec modEnv "eve" (some 2) "spam" storeStaff).2
      (mkUser "eve" (some 20) [] (some "fresh")) (by decide)).2 (by decide) (by decide)
      "zmmieh." 2 rfl rfl,
   ((banUser_spec modEnv "zmmieh." (some 2) "spam" storeStaff).2
      { mkUser "zmmieh." (some 0) [] (some "fresh") with role := "headadmin" }
      (by decide)).1 rfl⟩

/-! ## Ban followed by checks -/

theorem isUserBanned_of_active (now : Int) (username : String) (st : Store) (u : User) (b : Int)
    (hname : username ≠ "")
    (hfind : st.users.find? (fun x => decide (x.username = username)) = some u)
    (hb : u.bannedUntil = some b) (hb0 : b ≠ 0) (h : b = 9999999999999 ∨ now < b) :
    isUserBanned now username st = (true, st) := by
  unfold isUserBanned
  rw [if_neg hname, hfind]
  simp only [hb, hb0, if_false]
  rcases h with h | h
  · rw [if_pos h]
  · split
    · rfl
    · simp only [h, if_true]

theorem isUserBanned_of_expired (now : Int) (username : String) (st : Store) (u : User)
    (b : Int) (hname : username ≠ "")
    (hfind : st.users.find? (fun x => decide (x.username = username)) = some u)
    (hb : u.bannedUntil = some b) (hb0 : b ≠ 0) (hnp : b ≠ 9999999999999) (hnl : ¬ now < b) :
    isUserBanned now username st
      = (false, { st with users := updateFirst (fun x => decide (x.username = username))
                                     clearBan st.users }) := by
  unfold isUserBanned
  rw [if_neg hname, hfind]
  simp only [hb, hb0, hnp, hnl, if_false]

/-- The record of the target after a ban. -/
theorem find?_after_ban (env : Env) (username : String) (days : Option Int) (reason : String)
    (st : Store) (target : User) (actor : String)
    (hfind : st.users.find? (fun u => decide (u.username = username)) = some target) :
    (addAudit (banEvent env days reason actor target)
        { st with users := updateFirst (fun u => decide (u.username = username))
                             (applyBan env days reason actor) st.users }).users.find?
        (fun u => decide (u.username = username))
      = some (applyBan env days reason actor target) := by
  rw [addAudit_users]
  exact find?_updateFirst_of_find _ _ _ _ hfind
    (by simpa [applyBan] using find?_username hfind)

/-- C22 (counterexample): eve is banned for 96000 days at clock reading
1705599999999; the expiry written is 9999999999999, the permanent sentinel, and
one millisecond after it `isUserBanned` still answers true and clears nothing. -/
theorem ban_expiry_on_sentinel_never_ends :
    (1705599999999 : Int) + 96000 * 86400000 = 9999999999999 ∧
    ¬ ((10000000000000 : Int) < 1705599999999 + 96000 * 86400000) ∧
    (isUserBanned 10000000000000 "eve"
        (settle storeStaff
          (banUser (modEnvAt 1705599999999) "eve" (some 96000) "spam" storeStaff))).1 = true ∧
    ((isUserBanned 10000000000000 "eve"
        (settle storeStaff
          (banUser (modEnvAt 1705599999999) "eve" (some 96000) "spam" storeStaff))).2.users.map
        (fun u => (u.username, u.bannedUntil, u.banReason)))
      = [("zmmieh.", none, none), ("eve", some 9999999999999, some "spam")] := by
  decide

theorem banExpiry_of_days (env : Env) (d : Int) (hd : d ≠ 0) :
    banExpiry env (some d) = some (env.now 0 + d * 86400000) := by
  simp only [banExpiry, hd, if_false]
  congr 1
  omega

/-- C22 (amended): a user without the head admin role is banned at clock
reading `t` by a moderator in session.  With `durationDays = 0`, `isUserBanned`
answers true at every clock reading and leaves the store as it is.  With
`durationDays = d ≥ 1` and an expiry `t + d*86400000` that is neither 0 nor the
permanent sentinel 9999999999999, `isUserBanned` at clock reading `t'` answers
true, the store unchanged, when `t' < t + d*86400000` (so at `t` itself), and
otherwise answers false (so 24h+1ms later for `d = 1`) and leaves the user
without any of the four ban fields. -/
theorem ban_then_check (env : Env) (username reason : String) (st : Store) (target : User)
    (actor : String) (hname : username ≠ "")
    (hfind : st.users.find? (fun u => decide (u.username = username)) = some target)
    (hrole : target.role ≠ "headadmin") (hsess : env.session = some actor) :
    (∃ st1, banUser env username (some 0) reason st = .ok st1 ∧
      ∀ t', isUserBanned t' username st1 = (true, st1)) ∧
    (∀ d : Int, 1 ≤ d → env.now 0 + d * 86400000 ≠ 9999999999999 →
      env.now 0 + d * 86400000 ≠ 0 →
      ∃ st1, banUser env username (some d) reason st = .ok st1 ∧
        (∀ t', t' < env.now 0 + d * 86400000 → isUserBanned t' username st1 = (true, st1)) ∧
        isUserBanned (env.now 0) username st1 = (true, st1) ∧
        (∀ t', ¬ t' < env.now 0 + d * 86400000 →
          (isUserBanned t' username st1).1 = false ∧
          ∃ u', (isUserBanned t' username st1).2.users.find?
              (fun u => decide (u.username = username)) = some u' ∧
            u'.bannedUntil = none ∧ u'.banReason = none ∧ u'.bannedBy = none ∧
            u'.bannedAt = none) ∧
        (d = 1 → (isUserBanned (env.now 0 + 86400000 + 1) username st1).1 = false)) := by
  constructor
  · refine ⟨_, banUser_ok env username (some 0) reason st target actor hname hfind hrole hsess,
      ?_⟩
    intro t'
    exact isUserBanned_of_active t' username _ _ 9999999999999 hname
      (find?_after_ban env username (some 0) reason st target actor hfind) rfl (by decide)
      (Or.inl rfl)
  · intro d hd hns hn0
    have hfind1 := find?_after_ban env username (some d) reason st target actor hfind
    have hexp : (applyBan env (some d) reason actor target).bannedUntil
        = some (env.now 0 + d * 86400000) := banExpiry_of_days env d (by omega)
    have hactive : ∀ t', t' < env.now 0 + d * 86400000 →
        isUserBanned t' username
          (addAudit (banEvent env (some d) reason actor target)
            { st with users := updateFirst (fun u => decide (u.username = username))
                                 (applyBan env (some d) reason actor) st.users })
          = (true, addAudit (banEvent env (some d) reason actor target)
            { st with users := updateFirst (fun u => decide (u.username = username))
                                 (applyBan env (some d) reason actor) st.users }) :=
      fun t' ht => isUserBanned_of_active t' username _ _ _ hname hfind1 hexp hn0 (Or.inr ht)
    have hexpired : ∀ t', ¬ t' < env.now 0 + d * 86400000 →
        (isUserBanned t' username
          (addAudit (banEvent env (some d) reason actor target)
            { st with users := updateFirst (fun u => decide (u.username = username))
                                 (applyBan env (some d) reason actor) st.users })).1 = false ∧
        ∃ u', (isUserBanned t' username
          (addAudit (banEvent env (some d) reason actor target)
            { st with users := updateFirst (fun u => decide (u.username = username))
                                 (applyBan env (some d) reason actor) st.users })).2.users.find?
              (fun u => decide (u.username = username)) = some u' ∧
            u'.bannedUntil = none ∧ u'.banReason = none ∧ u'.bannedBy = none ∧
            u'.bannedAt = none := by
      intro t' ht
      rw [isUserBanned_of_expired t' username _ _ _ hname hfind1 hexp hn0 hns ht]
      refine ⟨rfl, clearBan (applyBan env (some d) reason actor target), ?_, rfl, rfl, rfl, rfl⟩
      exact find?_updateFirst_of_find _ _ _ _ hfind1
        (by simpa [clearBan, applyBan] using find?_username hfind)
    refine ⟨_, banUser_ok env username (some d) reason st target actor hname hfind hrole hsess,
      hactive, hactive _ (by omega), hexpired, ?_⟩
    intro h1
    exact (hexpired _ (by rw [h1]; omega)).1

/-- Witness of C22 (amended): eve is banned for one day at clock reading
5000 and checked 24h+1ms later. -/
theorem ban_then_check_witness :
    ∃ st1, banUser modEnv "eve" (some 1) "spam" storeStaff = .ok st1 ∧
      (∀ t', t' < 5000 + 1 * 86400000 → isUserBanned t' "eve" st1 = (true, st1)) ∧
      isUserBanned 5000 "eve" st1 = (true, st1) ∧
      (∀ t', ¬ t' < 5000 + 1 * 86400000 →
        (isUserBanned t' "eve" st1).1 = false ∧
        ∃ u', (isUserBanned t' "eve" st1).2.users.find?
            (fun u => decide (u.username = "eve")) = some u' ∧
          u'.bannedUntil = none ∧ u'.banReason = none ∧ u'.bannedBy = none ∧
          u'.bannedAt = none) ∧
      ((1 : Int) = 1 → (isUserBanned (5000 + 86400000 + 1) "eve" st1).1 = false) :=
  (ban_then_check modEnv "eve" "spam" storeStaff (mkUser "eve" (some 20) [] (some "fresh"))
    "zmmieh." (by decide) (by decide) (by decide) rfl).2 1 (by decide) (by decide) (by decide)

/-! ## Audit log bound -/

/-- C23: for an audit log `L` of at most 300 events, `addAudit(e)` stores `e`
followed by the first `min(|L|, 299)` events of `L` in their order: at most 300
events, `e` first, every stored event being `e` or an event of `L`; below 300
nothing is evicted, at 300 only the last (oldest) event is.  The other
collections are unchanged. -/
theorem addAudit_spec (e : AuditEvent) (st : Store) (h : st.audit.length ≤ 300) :
    (addAudit e st).audit = e :: st.audit.take (min st.audit.length 299) ∧
    (addAudit e st).audit.length ≤ 300 ∧
    (addAudit e st).audit[0]? = some e ∧
    (∀ k, k + 1 < 300 → (addAudit e st).audit[k + 1]? = st.audit[k]?) ∧
    (st.audit.length < 300 → (addAudit e st).audit = e :: st.audit) ∧
    (st.audit.length = 300 → (addAudit e st).audit = e :: st.audit.dropLast) ∧
    (addAudit e st).users = st.users ∧ (addAudit e st).levels = st.levels ∧
    (addAudit e st).subs = st.subs := by
  have h1 : (addAudit e st).audit = e :: st.audit.take 299 := by
    rw [addAudit_audit]; rfl
  refine ⟨?_, ?_, addAudit_audit_zero e st, addAudit_audit_succ e st, ?_, ?_, rfl, rfl, rfl⟩
  · rw [h1]
    congr 1
    by_cases hl : st.audit.length ≤ 299
    · rw [Nat.min_eq_left hl, List.take_of_length_le hl, List.take_of_length_le (le_refl _)]
    · rw [Nat.min_eq_right (by omega)]
  · rw [h1, List.length_cons, List.length_take]
    omega
  · intro hl
    rw [h1, List.take_of_length_le (by omega)]
  · intro hl
    rw [h1, List.dropLast_eq_take, hl]

/-- Witness of C23: an event is added to a full log. -/
theorem addAudit_spec_witness :
    (addAudit (mkEvent "new" "unban") storeFullLog).audit.length ≤ 300 ∧
    (addAudit (mkEvent "new" "unban") storeFullLog).audit[0]?
      = some (mkEvent "new" "unban") ∧
    (storeFullLog.audit.length = 300 →
      (addAudit (mkEvent "new" "unban") storeFullLog).audit
        = mkEvent "new" "unban" :: storeFullLog.audit.dropLast) :=
  ⟨(addAudit_spec (mkEvent "new" "unban") storeFullLog (by
      show (List.replicate 299 _ ++ [_]).length ≤ 300
      rw [List.length_append, List.length_replicate]
      exact Nat.le_refl 300)).2.1,
   (addAudit_spec (mkEvent "new" "unban") storeFullLog (by
      show (List.replicate 299 _ ++ [_]).length ≤ 300
      rw [List.length_append, List.length_replicate]
      exact Nat.le_refl 300)).2.2.1,
   (addAudit_spec (mkEvent "new" "unban") storeFullLog (by
      show (List.replicate 299 _ ++ [_]).length ≤ 300
      rw [List.length_append, List.length_replicate]
      exact Nat.le_refl 300)).2.2.2.2.2.1⟩

/-! ## Approval without submitter, rejection -/

/-- C24: a completion submission whose level exists and whose submitter is not
in the users collection: `approveSubmission` returns, the submissions with that
id are removed, and users, levels and audit log are as before. -/
theorem approveSubmission_missing_submitter (env : Env) (id : String) (st : Store)
    (s : Submission) (level : Level)
    (hs : st.subs.find? (fun x => decide (x.id = id)) = some s)
    (ht : s.type = "completion")
    (hl : st.levels.find? (fun l => decide (some l.id = s.levelRef)) = some level)
    (hu : ∀ u ∈ st.users, u.username ≠ s.submitter) :
    ∃ st', approveSubmission env id st = .ok st' ∧
      st'.subs = st.subs.filter (fun x => decide (x.id ≠ id)) ∧
      (∀ x ∈ st'.subs, x.id ≠ id) ∧
      st'.users = st.users ∧ st'.levels = st.levels ∧ st'.audit = st.audit := by
  have hnone : st.users.find? (fun u => decide (u.username = s.submitter)) = none := by
    rw [List.find?_eq_none]
    intro x hx
    simpa using hu x hx
  have hne : ¬ ("completion" = "level") := by decide
  have hok : approveSubmission env id st
      = .ok { st with subs := st.subs.filter (fun x => decide (x.id ≠ id)) } := by
    simp only [approveSubmission, hs, ht, hne, hl, hnone, if_true, if_false]
  refine ⟨_, hok, rfl, ?_, rfl, rfl, rfl⟩
  intro x hx
  have hx2 : x ∈ st.subs.filter (fun x => decide (x.id ≠ id)) := hx
  rw [List.mem_filter] at hx2
  simpa using hx2.2

/-- Witness of C24: carl's completion is approved after his account is gone. -/
theorem approveSubmission_missing_submitter_witness :
    ∃ st', approveSubmission modEnv "s1" storeOrphan = .ok st' ∧
      st'.subs = storeOrphan.subs.filter (fun x => decide (x.id ≠ "s1")) ∧
      (∀ x ∈ st'.subs, x.id ≠ "s1") ∧
      st'.users = storeOrphan.users ∧ st'.levels = storeOrphan.levels ∧
      st'.audit = storeOrphan.audit :=
  approveSubmission_missing_submitter modEnv "s1" storeOrphan
    (mkCompletionSub "s1" "L2" "https://youtu.be/run" "carl") (mkLevel "L2" 2)
    (by decide) (by decide) (by decide) (by decide)

/-- C25: rejecting a submission removes from the submissions collection
exactly the submissions with that id, keeps the others in their order, and
leaves users, levels and audit log unchanged. -/
theorem rejectSubmission_spec (id : String) (st : Store) :
    (rejectSubmission id st).subs = st.subs.filter (fun x => decide (x.id ≠ id)) ∧
    (∀ x, x ∈ (rejectSubmission id st).subs ↔ x ∈ st.subs ∧ x.id ≠ id) ∧
    (rejectSubmission id st).subs.Sublist st.subs ∧
    (rejectSubmission id st).users = st.users ∧
    (rejectSubmission id st).levels = st.levels ∧
    (rejectSubmission id st).audit = st.audit := by
  refine ⟨rfl, ?_, List.filter_sublist _, rfl, rfl, rfl⟩
  intro x
  show x ∈ st.subs.filter (fun x => decide (x.id ≠ id)) ↔ _
  rw [List.mem_filter]
  simp

/-! ## Points are lowered by deletion only -/

theorem PointsKept.refl (users : List User) : PointsKept users users := by
  unfold PointsKept
  induction users with
  | nil => exact List.Forall₂.nil
  | cons a l ih => exact List.Forall₂.cons ⟨rfl, le_refl _⟩ ih

theorem pointsKept_of_map_eq (users users' : List User)
    (h : users'.map (fun u => (u.username, u.points))
      = users.map (fun u => (u.username, u.points))) : PointsKept users users' := by
  unfold PointsKept
  induction users generalizing users' with
  | nil =>
    cases users' with
    | nil => exact List.Forall₂.nil
    | cons b l' => simp at h
  | cons a l ih =>
    cases users' with
    | nil => simp at h
    | cons b l' =>
      simp only [List.map_cons, List.cons.injEq, Prod.mk.injEq] at h
      exact List.Forall₂.cons ⟨h.1.1, by rw [h.1.2]⟩ (ih l' h.2)

theorem pointsKept_updateFirst (p : User → Bool) (f : User → User) (users : List User)
    (hf : ∀ u, (f u).username = u.username ∧ numOr u.points 0 ≤ numOr (f u).points 0) :
    PointsKept users (updateFirst p f users) := by
  unfold PointsKept
  induction users with
  | nil => exact List.Forall₂.nil
  | cons a l ih =>
    unfold updateFirst
    split
    · exact List.Forall₂.cons (hf a) (PointsKept.refl l)
    · exact List.Forall₂.cons ⟨rfl, le_refl _⟩ ih

theorem map_updateFirst_of_keeps {α β : Type} (p : α → Bool) (f : α → α) (g : α → β)
    (l : List α) (hg : ∀ a, g (f a) = g a) : (updateFirst p f l).map g = l.map g := by
  induction l with
  | nil => rfl
  | cons a l ih =>
    unfold updateFirst
    split
    · simp only [List.map_cons, hg]
    · simp only [List.map_cons, ih]

theorem awardFor_pos (level : Level) : 1 ≤ awardFor level := by
  simp only [awardFor]
  exact le_max_left _ _

theorem approveSubmission_pointsKept (env : Env) (id : String) (st : Store) :
    PointsKept st.users (settle st (approveSubmission env id st)).users := by
  rcases approveSubmission_users env id st with h | ⟨s, level, h⟩
  · rw [h]; exact PointsKept.refl _
  · rw [h]
    apply pointsKept_updateFirst
    intro u
    refine ⟨rfl, ?_⟩
    have hpos := awardFor_pos level
    have hnum : numOr (some (numOr u.points 0 + awardFor level)) 0
        = numOr u.points 0 + awardFor level := by
      simp only [numOr]
      split
      · rename_i h0; rw [h0]
      · rfl
    show numOr u.points 0 ≤ numOr (some (numOr u.points 0 + awardFor level)) 0
    rw [hnum]
    omega

theorem swapPlacement_users (levelId : String) (dir : Int) (st : Store) :
    (swapPlacement levelId dir st).users = st.users := by
  unfold swapPlacement
  dsimp only
  cases hidx : findIndex (fun l => decide (l.id = levelId)) (jsSort placementCmp st.levels) with
  | none => rfl
  | some idx =>
    dsimp only
    split
    · rfl
    · split
      · split <;> rfl
      · rfl

theorem banUser_users_map (env : Env) (username : String) (days : Option Int) (reason : String)
    (st : Store) :
    (settle st (banUser env username days reason st)).users.map (fun u => (u.username, u.points))
      = st.users.map (fun u => (u.username, u.points)) := by
  unfold banUser
  split
  · rfl
  · split
    · rfl
    · split
      · rfl
      · split
        · rfl
        · exact map_updateFirst_of_keeps _ _ _ _ (fun _ => rfl)

theorem unbanUser_users_map (env : Env) (username : String) (st : Store) :
    (unbanUser env username st).users.map (fun u => (u.username, u.points))
      = st.users.map (fun u => (u.username, u.points)) := by
  unfold unbanUser
  split
  · rfl
  · exact map_updateFirst_of_keeps _ _ _ _ (fun _ => rfl)

theorem isUserBanned_users_map (now : Int) (username : String) (st : Store) :
    (isUserBanned now username st).2.users.map (fun u => (u.username, u.points))
      = st.users.map (fun u => (u.username, u.points)) := by
  unfold isUserBanned
  split
  · rfl
  · split
    · rfl
    · split
      · rfl
      · split
        · rfl
        · split
          · rfl
          · split
            · rfl
            · exact map_updateFirst_of_keeps _ _ _ _ (fun _ => rfl)

theorem equipTitle_users_map (env : Env) (username : String) (t : Title) (st : Store) :
    (equipTitle env username t st).users.map (fun u => (u.username, u.points))
      = st.users.map (fun u => (u.username, u.points)) := by
  unfold equipTitle
  split
  · rfl
  · split
    · rfl
    · split
      · exact map_updateFirst_of_keeps _ _ _ _ (fun _ => rfl)
      · exact map_updateFirst_of_keeps _ _ _ _ (fun _ => rfl)

theorem saveProfile_users_map (env : Env) (username bio : String) (showCountry : Bool)
    (pending : Option String) (st : Store) :
    (saveProfile env username bio showCountry pending st).users.map
        (fun u => (u.username, u.points))
      = st.users.map (fun u => (u.username, u.points)) := by
  cases hfind : st.users.find? (fun x => decide (x.username = username)) with
  | none => simp only [saveProfile, hfind]
  | some u0 =>
    by_cases hcan : canEquipTitle st.users (some u0) (strOr u0.equippedTitle "fresh") = true
    · rw [saveProfile_of_can env username bio showCountry pending st u0 hfind hcan]
      exact map_updateFirst_of_find _ _ _ _ u0 hfind rfl
    · rw [saveProfile_of_not env username bio showCountry pending st u0 hfind
        (by simpa using hcan)]
      exact map_updateFirst_of_find _ _ _ _ u0 hfind rfl

/-- C26: no operation other than the deletion of a completion lowers points.
After `approveSubmission` (level or completion), rejection, `removeLevelById`,
`swapPlacement`, ban, unban, the lazy expiry of `isUserBanned`, the equip click
and the profile save, the users collection holds the same usernames entry by
entry and no user has fewer points than before; `removeLevelById`,
`swapPlacement` and rejection leave the users collection, so every user's points
and recorded `awardedPoints`, as they were.  A deletion does lower points
(dora goes from 150 to 50). -/
theorem points_lowered_by_deletion_only (env : Env) (st : Store) :
    (∀ id, PointsKept st.users (settle st (approveSubmission env id st)).users) ∧
    (∀ id, (rejectSubmission id st).users = st.users) ∧
    (∀ id, (removeLevelById id st).users = st.users) ∧
    (∀ id dir, (swapPlacement id dir st).users = st.users) ∧
    (∀ username days reason,
      PointsKept st.users (settle st (banUser env username days reason st)).users) ∧
    (∀ username, PointsKept st.users (unbanUser env username st).users) ∧
    (∀ now username, PointsKept st.users (isUserBanned now username st).2.users) ∧
    (∀ username t, PointsKept st.users (equipTitle env username t st).users) ∧
    (∀ username bio showCountry pending,
      PointsKept st.users (saveProfile env username bio showCountry pending st).users) ∧
    (storeDora.users.map (fun u => u.points) = [some 150] ∧
      (deleteCompletion modEnv "dora" (mkRecord "L1" "https://youtu.be/a" 4000 (some 100))
        storeDora).users.map (fun u => u.points) = [some 50]) :=
  ⟨fun id => approveSubmission_pointsKept env id st,
   fun _ => rfl,
   fun _ => rfl,
   fun id dir => swapPlacement_users id dir st,
   fun username days reason =>
     pointsKept_of_map_eq _ _ (banUser_users_map env username days reason st),
   fun username => pointsKept_of_map_eq _ _ (unbanUser_users_map env username st),
   fun now username => pointsKept_of_map_eq _ _ (isUserBanned_users_map now username st),
   fun username t => pointsKept_of_map_eq _ _ (equipTitle_users_map env username t st),
   fun username bio showCountry pending =>
     pointsKept_of_map_eq _ _ (saveProfile_users_map env username bio showCountry pending st),
   by decide⟩

/-! ## The three computations of points -/

theorem pointsForPlacement_eq (p : Option Int) :
    pointsForPlacement p = max 1 (min 100 (101 - numOr p 999)) := by
  cases p with
  | none => simp only [pointsForPlacement, numOr]; decide
  | some v =>
    simp only [pointsForPlacement]
    split
    · rename_i h
      rw [h]
      simp only [numOr, if_true]
      decide
    · rfl

/-- C27: the three computations of points from a placement agree.  For every
placement value (0 and a missing one included) `pointsForPlacement` is
`max(1, min(100, 101 - (p || 999)))`; this is the amount `approveSubmission`
credits for a level with that placement, and the amount the delete handler
subtracts for a record without snapshot whose level is found. -/
theorem pointsForPlacement_agrees (env : Env) (st : Store) :
    (∀ p : Option Int, pointsForPlacement p = max 1 (min 100 (101 - numOr p 999))) ∧
    pointsForPlacement none = 1 ∧ pointsForPlacement (some 0) = 1 ∧
    (∀ level : Level, awardFor level = pointsForPlacement level.placement) ∧
    (∀ (id : String) (s : Submission) (level : Level) (user : User),
      st.subs.find? (fun x => decide (x.id = id)) = some s → s.type = "completion" →
      st.levels.find? (fun l => decide (some l.id = s.levelRef)) = some level →
      st.users.find? (fun u => decide (u.username = s.submitter)) = some user →
      ∃ st' user', approveSubmission env id st = .ok st' ∧
        st'.users.find? (fun u => decide (u.username = s.submitter)) = some user' ∧
        user'.points = some (numOr user.points 0 + pointsForPlacement level.placement)) ∧
    (∀ (username : String) (r : Completion) (level : Level) (target : User),
      r.awardedPoints = none →
      st.levels.find? (fun l => decide (some l.id = r.levelId)) = some level →
      st.users.find? (fun x => decide (x.username = username)) = some target →
      ∃ u', (deleteCompletion env username r st).users.find?
          (fun x => decide (x.username = username)) = some u' ∧
        u'.points
          = some (max 0 (numOr target.points 0 - pointsForPlacement level.placement))) := by
  have hagree : ∀ level : Level, awardFor level = pointsForPlacement level.placement := by
    intro level
    rw [pointsForPlacement_eq]
    rfl
  refine ⟨pointsForPlacement_eq, rfl, rfl, hagree, ?_, ?_⟩
  · intro id s level user hs ht hl hu
    refine ⟨_, creditUser env s level (awardFor level) user,
      approveSubmission_completion env id st s level user hs ht hl hu, ?_, ?_⟩
    · show (updateFirst _ _ st.users).find? _ = _
      rw [find?_creditUser, hu]; rfl
    · rw [← hagree]; rfl
  · intro username r level target ha hl hu
    have husers : (deleteCompletion env username r st).users
        = updateFirst (fun x => decide (x.username = username))
            (debitUser r (awardFor level)) st.users := by
      simp only [deleteCompletion, ha, hl, hu, addAudit_users]
    refine ⟨debitUser r (awardFor level) target, ?_, ?_⟩
    · rw [husers]; exact find?_debitUser r _ st.users username target hu
    · rw [← hagree]; rfl

/-- Witness of C27: gus's completion of the level at placement 2, recorded
without snapshot, is deleted. -/
theorem pointsForPlacement_agrees_witness :
    ∃ u', (deleteCompletion modEnv "gus" (mkRecord "L2" "https://youtu.be/g" 4000 none)
          storeLegacy).users.find? (fun x => decide (x.username = "gus")) = some u' ∧
      u'.points = some (max 0 (150 - pointsForPlacement (some 2))) :=
  (pointsForPlacement_agrees modEnv storeLegacy).2.2.2.2.2 "gus"
    (mkRecord "L2" "https://youtu.be/g" 4000 none) (mkLevel "L2" 2)
    (mkUser "gus" (some 150) [mkRecord "L2" "https://youtu.be/g" 4000 none] (some "fresh"))
    rfl (by decide) (by decide)

/-! ## Stats page and rank -/

theorem numberRows_getElem? (i : Nat) (l : List User) (j : Nat) :
    (numberRows i l)[j]? = (l[j]?).map (fun u => (i + j + 1, u)) := by
  induction l generalizing i j with
  | nil => simp [numberRows]
  | cons a l ih =>
    cases j with
    | zero => simp [numberRows]
    | succ k =>
      simp only [numberRows, List.getElem?_cons_succ, ih (i + 1) k]
      have : i + 1 + k + 1 = i + (k + 1) + 1 := by omega
      rw [this]

theorem numberRows_length (i : Nat) (l : List User) : (numberRows i l).length = l.length := by
  induction l generalizing i with
  | nil => rfl
  | cons a l ih => simp only [numberRows, List.length_cons, ih]

/-- C28: the stats page agrees with the rank that gates titles.  With pairwise
distinct usernames, every row of `renderStatsArea` carries the number
`getUserRank` gives for its user, every stored user has a row, and there are as
many rows as users. -/
theorem renderStatsArea_agrees (users : List User)
    (hnd : (users.map (fun u => u.username)).Nodup) :
    (∀ row ∈ renderStatsArea users, getUserRank users row.2.username = some row.1) ∧
    (∀ u ∈ users, ∃ n, (n, u) ∈ renderStatsArea users ∧
      getUserRank users u.username = some n) ∧
    (renderStatsArea users).length = users.length := by
  have hrow : ∀ (j : Nat) (hj : j < (getLeaderboardSortedUsers users).length),
      (renderStatsArea users)[j]? = some (j + 1, (getLeaderboardSortedUsers users)[j]) := by
    intro j hj
    show (numberRows 0 (getLeaderboardSortedUsers users))[j]? = _
    rw [numberRows_getElem?, List.getElem?_eq_getElem hj, Option.map_some', Nat.zero_add]
  have hlen : (renderStatsArea users).length = (getLeaderboardSortedUsers users).length :=
    numberRows_length 0 _
  refine ⟨?_, ?_, ?_⟩
  · intro row hrowmem
    obtain ⟨j, hj, hget⟩ := List.getElem_of_mem hrowmem
    have hj2 : j < (getLeaderboardSortedUsers users).length := by omega
    have h := hrow j hj2
    rw [List.getElem?_eq_getElem hj, hget] at h
    rw [Option.some.inj h]
    exact getUserRank_sorted_getElem users hnd j hj2
  · intro u hu
    obtain ⟨j, hj, hget⟩ := getUserRank_sorted_index users u hu
    refine ⟨j + 1, ?_, ?_⟩
    · have h := hrow j hj
      rw [hget] at h
      exact List.getElem?_mem h
    · rw [← hget]; exact getUserRank_sorted_getElem users hnd j hj
  · rw [hlen]; exact (getLeaderboardSortedUsers_perm users).length_eq

/-- Witness of C28: the rows of the sample leaderboard. -/
theorem renderStatsArea_agrees_witness :
    (renderStatsArea usersBoard).map (fun row => (row.1, row.2.username))
      = [(1, "cid"), (2, "ann"), (3, "dee"), (4, "bob"), (5, "eve")] ∧
    (∀ row ∈ renderStatsArea usersBoard,
      getUserRank usersBoard row.2.username = some row.1) :=
  ⟨by decide, (renderStatsArea_agrees usersBoard (by decide)).1⟩

/-! ## Banned list and ban check -/

theorem find?_of_mem_nodup (users : List User) (u : User)
    (hnd : (users.map (fun u => u.username)).Nodup) (hu : u ∈ users) :
    users.find? (fun x => decide (x.username = u.username)) = some u := by
  induction users with
  | nil => cases hu
  | cons a l ih =>
    rw [List.map_cons, List.nodup_cons] at hnd
    rcases List.mem_cons.mp hu with h | h
    · subst h
      simp [List.find?]
    · have hne : ¬ a.username = u.username := fun hh =>
        hnd.1 (hh ▸ List.mem_map_of_mem (fun u => u.username) h)
      simp only [List.find?, hne, decide_False]
      exact ih hnd.2 h

/-- C29: for a stored user with a username no other user has, at every clock
reading the user is in the list built by `renderBannedUsersList` exactly when
`isUserBanned` answers true for the username at the same reading. -/
theorem renderBannedUsersList_iff_isUserBanned (now : Int) (st : Store) (u : User)
    (hnd : (st.users.map (fun u => u.username)).Nodup) (hu : u ∈ st.users)
    (hname : u.username ≠ "") :
    u ∈ renderBannedUsersList now st.users ↔ (isUserBanned now u.username st).1 = true := by
  have hfind := find?_of_mem_nodup st.users u hnd hu
  have hleft : u ∈ renderBannedUsersList now st.users ↔
      ∃ b, u.bannedUntil = some b ∧ b ≠ 0 ∧ (b = 9999999999999 ∨ now < b) := by
    unfold renderBannedUsersList
    rw [List.mem_filter]
    cases hb : u.bannedUntil with
    | none => simp
    | some b => simp [hu]
  have hright : (isUserBanned now u.username st).1 = true ↔
      ∃ b, u.bannedUntil = some b ∧ b ≠ 0 ∧ (b = 9999999999999 ∨ now < b) := by
    unfold isUserBanned
    rw [if_neg hname, hfind]
    cases hb : u.bannedUntil with
    | none => simp [hb]
    | some b =>
      by_cases hb0 : b = 0
      · simp [hb, hb0]
      · by_cases hs : b = 9999999999999
        · simp [hb, hb0, hs]
        · by_cases hlt : now < b
          · simp [hb, hb0, hs, hlt]
          · simp [hb, hb0, hs, hlt]
  rw [hleft, hright]

/-- Witness of C29: at clock reading 90000 the ban of temp (until 90000) is
over and the ban of perm is not. -/
theorem renderBannedUsersList_iff_isUserBanned_witness :
    (mkBanned "temp" 90000 ∈ renderBannedUsersList 90000 storeBans.users ↔
      (isUserBanned 90000 "temp" storeBans).1 = true) ∧
    (mkBanned "perm" 9999999999999 ∈ renderBannedUsersList 90000 storeBans.users ↔
      (isUserBanned 90000 "perm" storeBans).1 = true) ∧
    (renderBannedUsersList 90000 storeBans.users).map (fun u => u.username) = ["perm"] :=
  ⟨renderBannedUsersList_iff_isUserBanned 90000 storeBans (mkBanned "temp" 90000)
      (by decide) (by decide) (by decide),
   renderBannedUsersList_iff_isUserBanned 90000 storeBans (mkBanned "perm" 9999999999999)
      (by decide) (by decide) (by decide),
   by decide⟩

/-! ## HTML escaping -/

/-- What the replacement of one character is: the character itself when it is
none of the five, an entity (an ampersand followed by characters that are not
ampersands) otherwise; in both cases without `<`, `>`, quote or apostrophe. -/
theorem escapeChar_cases (c : Char) :
    ((c ≠ '&' ∧ c ≠ '<' ∧ c ≠ '>' ∧ c ≠ dquote ∧ c ≠ squote) ∧ escapeChar c = [c]) ∨
    ((c = '&' ∨ c = '<' ∨ c = '>' ∨ c = dquote ∨ c = squote) ∧
      ∃ tl, escapeChar c = '&' :: tl ∧ '&' ∉ tl ∧ ('&' :: tl) ∈ htmlEntities ∧
        ∀ x ∈ '&' :: tl, x ≠ '<' ∧ x ≠ '>' ∧ x ≠ dquote ∧ x ≠ squote) := by
  unfold escapeChar
  split
  · exact Or.inr ⟨Or.inl ‹_›, "amp;".toList, rfl, by decide, by decide, by decide⟩
  · split
    · exact Or.inr ⟨Or.inr (Or.inl ‹_›), "lt;".toList, rfl, by decide, by decide, by decide⟩
    · split
      · exact Or.inr ⟨Or.inr (Or.inr (Or.inl ‹_›)), "gt;".toList, rfl, by decide, by decide,
          by decide⟩
      · split
        · exact Or.inr ⟨Or.inr (Or.inr (Or.inr (Or.inl ‹_›))), "quot;".toList, rfl, by decide,
            by decide, by decide⟩
        · split
          · exact Or.inr ⟨Or.inr (Or.inr (Or.inr (Or.inr ‹_›))), "#39;".toList, rfl,
              by decide, by decide, by decide⟩
          · exact Or.inl ⟨⟨‹_›, ‹_›, ‹_›, ‹_›, ‹_›⟩, rfl⟩

theorem escapeChars_no_markup (cs : List Char) :
    ∀ x ∈ escapeChars cs, x ≠ '<' ∧ x ≠ '>' ∧ x ≠ dquote ∧ x ≠ squote := by
  induction cs with
  | nil => intro x hx; cases hx
  | cons c cs ih =>
    intro x hx
    simp only [escapeChars, List.mem_append] at hx
    rcases hx with hx | hx
    · rcases escapeChar_cases c with ⟨hc, he⟩ | ⟨-, tl, he, -, -, hall⟩
      · rw [he, List.mem_singleton] at hx
        rw [hx]; exact hc.2
      · rw [he] at hx
        exact hall x hx
    · exact ih x hx

theorem escapeChars_of_plain (cs : List Char)
    (h : ∀ c ∈ cs, c ≠ '&' ∧ c ≠ '<' ∧ c ≠ '>' ∧ c ≠ dquote ∧ c ≠ squote) :
    escapeChars cs = cs := by
  induction cs with
  | nil => rfl
  | cons c cs ih =>
    have hc := h c (List.mem_cons_self _ _)
    rcases escapeChar_cases c with ⟨-, he⟩ | ⟨hsp, -⟩
    · simp only [escapeChars, he, List.singleton_append,
        ih (fun x hx => h x (List.mem_cons_of_mem _ hx))]
    · rcases hsp with h1 | h1 | h1 | h1 | h1
      · exact absurd h1 hc.1
      · exact absurd h1 hc.2.1
      · exact absurd h1 hc.2.2.1
      · exact absurd h1 hc.2.2.2.1
      · exact absurd h1 hc.2.2.2.2

/-- A suffix of `pre ++ rest` is a suffix of `rest` or a non-empty end of `pre`
followed by `rest`. -/
theorem suffix_append_cases {α : Type} (pre rest suf : List α) (h : suf <:+ pre ++ rest) :
    suf <:+ rest ∨ ∃ p1 p2, pre = p1 ++ p2 ∧ p2 ≠ [] ∧ suf = p2 ++ rest := by
  induction pre with
  | nil => exact Or.inl h
  | cons a pre ih =>
    rw [List.cons_append, List.suffix_cons_iff] at h
    rcases h with h | h
    · exact Or.inr ⟨[], a :: pre, rfl, List.cons_ne_nil _ _, h⟩
    · rcases ih h with h2 | ⟨p1, p2, h3, h4, h5⟩
      · exact Or.inl h2
      · exact Or.inr ⟨a :: p1, p2, by rw [h3]; rfl, h4, h5⟩

theorem escapeChars_amp (cs : List Char) :
    ∀ suf, suf <:+ escapeChars cs → suf.head? = some '&' → ∃ e ∈ htmlEntities, e <+: suf := by
  induction cs with
  | nil =>
    intro suf hsuf hhead
    rw [escapeChars, List.suffix_nil] at hsuf
    rw [hsuf] at hhead
    cases hhead
  | cons c cs ih =>
    intro suf hsuf hhead
    rw [escapeChars] at hsuf
    rcases suffix_append_cases _ _ _ hsuf with h | ⟨p1, p2, hsplit, hne, hsufeq⟩
    · exact ih suf h hhead
    · have hp2 : p2.head? = some '&' := by
        cases p2 with
        | nil => exact absurd rfl hne
        | cons x p2' =>
          rw [hsufeq] at hhead
          simpa using hhead
      rcases escapeChar_cases c with ⟨hc, he⟩ | ⟨-, tl, he, hno, hent, -⟩
      · rw [he] at hsplit
        have hmem : '&' ∈ p1 ++ p2 := by
          cases p2 with
          | nil => exact absurd rfl hne
          | cons x p2' =>
            simp only [List.head?_cons, Option.some.injEq] at hp2
            rw [hp2]
            simp
        rw [← hsplit, List.mem_singleton] at hmem
        exact absurd hmem.symm hc.1
      · rw [he] at hsplit
        cases p1 with
        | nil =>
          rw [List.nil_append] at hsplit
          refine ⟨'&' :: tl, hent, ?_⟩
          rw [hsufeq, ← hsplit]
          exact List.prefix_append _ _
        | cons y p1' =>
          rw [List.cons_append, List.cons.injEq] at hsplit
          have hmem : '&' ∈ p1' ++ p2 := by
            cases p2 with
            | nil => exact absurd rfl hne
            | cons x p2' =>
              simp only [List.head?_cons, Option.some.injEq] at hp2
              rw [hp2]
              simp
          rw [← hsplit.2] at hmem
          exact absurd hmem hno

/-- C30: for every string `s`, `escapeHTML(s)` contains none of `<`, `>`, the
double quote and the apostrophe; wherever an ampersand stands in it, one of the
five entities `&amp;` `&lt;` `&gt;` `&quot;` `&#39;` starts there; it is `s`
itself when `s` contains none of the five escaped characters; and for `null` or
`undefined` the result is the empty string. -/
theorem escapeHTML_spec (s : String) :
    (∀ x ∈ (escapeHTML (some s)).toList, x ≠ '<' ∧ x ≠ '>' ∧ x ≠ dquote ∧ x ≠ squote) ∧
    (∀ suf, suf <:+ (escapeHTML (some s)).toList → suf.head? = some '&' →
      ∃ e ∈ htmlEntities, e <+: suf) ∧
    ((∀ c ∈ s.toList, c ≠ '&' ∧ c ≠ '<' ∧ c ≠ '>' ∧ c ≠ dquote ∧ c ≠ squote) →
      escapeHTML (some s) = s) ∧
    escapeHTML none = "" := by
  refine ⟨escapeChars_no_markup s.toList, escapeChars_amp s.toList, ?_, rfl⟩
  intro h
  show String.mk (escapeChars s.toList) = s
  rw [escapeChars_of_plain s.toList h]
  rfl

/-- Witness of C30: a plain string is returned as it is, a tag is escaped. -/
theorem escapeHTML_spec_witness :
    escapeHTML (some "Top 1") = "Top 1" ∧
    escapeHTML (some "<b>R&D</b>") = "&lt;b&gt;R&amp;D&lt;/b&gt;" :=
  ⟨(escapeHTML_spec "Top 1").2.2.1 (by decide), by decide⟩

end AllLevels
